import Mathlib

/-!
# rlm_fastusers: the hashed "users" file of the authorization module

A shallow embedding of `src/modules/rlm_fastusers/rlm_fastusers.c`.

* Linked lists (`VALUE_PAIR *`, `PAIR_LIST *`) are Lean lists; a pointer to a
  node of a chain is the suffix of the chain that starts at that node, so
  `NULL` is `[]` and `p->next` is the tail.
* The identity of a `PAIR_LIST` node (what `curdefault == user->lastdefault`
  compares) is its field `addr`, the address of the node.
* C strings are Lean strings; `(unsigned char)*s` ranges over the UTF-8 bytes.
* Machine integers are `Nat`/`Int` with explicit reduction where the C type
  wraps (`unsigned long` is 64 bits wide, `int` is 32 bits wide).
* Everything the module calls but does not define (libradius, the server core,
  the dictionary constants) is a field of `Env`.
* Logging (`radlog`, `DEBUG`, `DEBUG2`, `vp_printlist`, `log_debug`) and the
  release of memory (`pairfree`, `pairlist_free`, `free`) have no effect on the
  values computed and are left out.
-/

namespace Fastusers

/-! ## Data model -/

/-- The operator tokens of `token.h` that a check item can carry. The module
itself names `T_OP_EQ`, `T_OP_CMP_EQ` and `T_OP_ADD`; the other operators
are kept apart from these three. -/
inductive LRAD_TOKEN where
  | T_OP_ADD
  | T_OP_SUB
  | T_OP_SET
  | T_OP_EQ
  | T_OP_NE
  | T_OP_GE
  | T_OP_GT
  | T_OP_LE
  | T_OP_LT
  | T_OP_REG_EQ
  | T_OP_REG_NE
  | T_OP_CMP_EQ
  deriving DecidableEq

open LRAD_TOKEN

/-- One attribute-value pair. The field `attr` is `attribute`, a C `int`, `lvalue`
an unsigned 32-bit integer; the `next` link is the tail of the list the pair
sits in. -/
structure VALUE_PAIR where
  attr : Int
  operator : LRAD_TOKEN
  lvalue : Nat
  strvalue : String
  deriving DecidableEq

/-- One entry of a users file. `addr` is the address of the node, `lastdefault`
the address held in the pointer `lastdefault` (`none` is `NULL`); the `next`
link is the tail of the chain the entry sits in. -/
structure PAIR_LIST where
  addr : Nat
  name : String
  check : List VALUE_PAIR
  reply : List VALUE_PAIR
  lineno : Int
  lastdefault : Option Nat
  deriving DecidableEq

/-- The part of a `REQUEST` that the module reads or writes:
`request->packet->vps`, `request->username`, `request->config_items`,
`request->reply->vps` and `request->timestamp`. -/
structure REQUEST where
  packet_vps : List VALUE_PAIR
  username : Option VALUE_PAIR
  config_items : List VALUE_PAIR
  reply_vps : List VALUE_PAIR
  timestamp : Int
  deriving DecidableEq

/-- The module return codes of `modules.h`. -/
inductive RLM_MODULE where
  | RLM_MODULE_REJECT
  | RLM_MODULE_FAIL
  | RLM_MODULE_OK
  | RLM_MODULE_HANDLED
  | RLM_MODULE_INVALID
  | RLM_MODULE_USERLOCK
  | RLM_MODULE_NOTFOUND
  | RLM_MODULE_NOOP
  | RLM_MODULE_UPDATED
  deriving DecidableEq

open RLM_MODULE

/-- What the module takes from outside its own file: dictionary constants of
`radius.h`, the flag `mainconfig.do_usercollide`, and the functions of
libradius and of the server core, as functions of their arguments.
`pairlist_read` gives `none` for a negative return code; `pairmove to from`
gives the list left in `to`; `pairdelete` gives the list left after the
deletion; `malloc_ok` tells whether the allocation of the table succeeds. -/
structure Env where
  PW_FALL_THROUGH : Int
  PW_HINT : Int
  PW_HUNTGROUP_NAME : Int
  do_usercollide : Bool
  malloc_ok : Bool
  pairfind : List VALUE_PAIR → Int → Option VALUE_PAIR
  paircmp : List VALUE_PAIR → List VALUE_PAIR → List VALUE_PAIR → Int
  pairmove : List VALUE_PAIR → List VALUE_PAIR → List VALUE_PAIR
  pairdelete : List VALUE_PAIR → Int → List VALUE_PAIR
  rad_check_password : REQUEST → Int
  pairlist_read : String → Option (List PAIR_LIST)

/-- The hash table: the chain that hangs off each index of the array. -/
abbrev HashTable := Int → List PAIR_LIST

/-- The type `struct fastuser_instance`. -/
structure fastuser_instance where
  compat_mode : String
  hash_reload : Int
  hashsize : Int
  hashtable : HashTable
  defaults : List PAIR_LIST
  acctusers : List PAIR_LIST
  stats : Int
  usersfile : String
  acctusersfile : String
  next_reload : Int

/-! ## Machine arithmetic -/

/-- The number of values of an `unsigned long`. -/
def ULONG_RANGE : Nat := 2 ^ 64

/-- Conversion of an unsigned value to `int`: reduction modulo `2 ^ 32` into
the signed range. -/
def to_int (x : Nat) : Int :=
  if x % 2 ^ 32 < 2 ^ 31 then ((x % 2 ^ 32 : Nat) : Int)
  else ((x % 2 ^ 32 : Nat) : Int) - 2 ^ 32

/-- Conversion of a `long` to `unsigned long`. -/
def to_ulong (x : Int) : Nat := (x % (ULONG_RANGE : Int)).toNat

/-- The value of `a & ~0xffff` on a two's complement integer: the low sixteen
bits are cleared (`mask_high_eq_land` ties it to the bitwise operation). -/
def mask_high (a : Int) : Int := a - a % 65536

/-- The bytes of a C string, as `(unsigned char)*s` reads them. -/
def cbytes (s : String) : List Nat :=
  (s.data.flatMap String.utf8EncodeChar).map UInt8.toNat

/-! ## `fallthrough` -/

/-- The function `fallthrough`: see if a pair list contains
`Fall-Through = Yes`. -/
def fallthrough (env : Env) (vp : List VALUE_PAIR) : Int :=
  match env.pairfind vp env.PW_FALL_THROUGH with
  | some tmp => to_int tmp.lvalue
  | none => 0

/-! ## The compatibility rewrite of `fastuser_getfile` -/

/-- The body of the loop over the check items of an entry in
`fastuser_getfile`, for one pair: what the pair is after the iteration. -/
def rewrite_check_pair (env : Env) (compat_mode : Bool) (vp : VALUE_PAIR) : VALUE_PAIR :=
  if vp.operator ≠ T_OP_EQ then vp
  else if mask_high vp.attr ≠ 0 ∨ vp.attr < 0x100 then
    { vp with operator := T_OP_CMP_EQ }
  else if compat_mode then
    if vp.attr ≥ 0x100 ∧ vp.attr ≤ 0xffff ∧
        vp.attr ≠ env.PW_HINT ∧ vp.attr ≠ env.PW_HUNTGROUP_NAME then
      { vp with operator := T_OP_ADD }
    else
      { vp with operator := T_OP_CMP_EQ }
  else vp

/-- The loop over the check items of an entry in `fastuser_getfile`. -/
def rewrite_check (env : Env) (compat_mode : Bool) (check : List VALUE_PAIR) :
    List VALUE_PAIR :=
  check.map (rewrite_check_pair env compat_mode)

/-- An entry after the loop over its check items. The loop over the reply
items only writes to the log. -/
def rewrite_entry (env : Env) (compat_mode : Bool) (entry : PAIR_LIST) : PAIR_LIST :=
  { entry with check := rewrite_check env compat_mode entry.check }

/-! ## `fastuser_hash` and `fastuser_store` -/

/-- The loop of `fastuser_hash`: `hash = hash * 7907 + (unsigned char)*s++`
on an `unsigned long`. -/
def hash_loop : Nat → List Nat → Nat
  | hash, [] => hash
  | hash, c :: s => hash_loop ((hash * 7907 + c % 256) % ULONG_RANGE) s

/-- The function `fastuser_hash`: hashes the username sent to it and returns
the index into the hash table. The remainder is taken on `unsigned long` and
returned as an `int`. -/
def fastuser_hash (s : List Nat) (hashtablesize : Int) : Int :=
  to_int (hash_loop 0 s % to_ulong hashtablesize)

/-- The function `fastuser_store`: stores the entry at the end of the chain of
its index; in both branches the new entry is left with a null `next`. -/
def fastuser_store (hashtable : HashTable) (new : PAIR_LIST) (idx : Int) : HashTable :=
  fun i =>
    if i = idx then
      match hashtable idx with
      | [] => [new]
      | cur :: rest => (cur :: rest) ++ [new]
    else hashtable i

/-! ## `fastuser_getfile` and `fastuser_buildhash` -/

/-- The assignment `entry->lastdefault = lastdefault`. -/
def set_lastdefault (entry : PAIR_LIST) (lastdefault : Option Nat) : PAIR_LIST :=
  { entry with lastdefault := lastdefault }

/-- The loop over the entries in `fastuser_getfile`. The state is the local
`defaults`, the local `lastdefault` and the table behind `pair_list`; each
entry met is rewritten and, when `acct` is zero, moved to the end of the
default chain or stamped with `lastdefault` and stored in the table. -/
def getfile_loop (env : Env) (compat_mode : Bool) (hashsize : Int) (acct : Bool) :
    List PAIR_LIST → List PAIR_LIST × Option Nat × HashTable →
    List PAIR_LIST × Option Nat × HashTable
  | [], st => st
  | entry :: next, (defaults, lastdefault, pair_list) =>
    let entry := rewrite_entry env compat_mode entry
    if acct then getfile_loop env compat_mode hashsize acct next (defaults, lastdefault, pair_list)
    else if entry.name = "DEFAULT" then
      getfile_loop env compat_mode hashsize acct next
        (defaults ++ [entry], some entry.addr, pair_list)
    else
      let hashindex := fastuser_hash (cbytes entry.name) hashsize
      let entry := set_lastdefault entry lastdefault
      getfile_loop env compat_mode hashsize acct next
        (defaults, lastdefault, fastuser_store pair_list entry hashindex)

/-- The list the local `users` of `fastuser_getfile` points to after the loop.
With `acct` set no link was touched, so it is the list read, rewritten. With
`acct` zero the first entry is where the loop left it: in the default chain or
in the chain of its index, followed by what was stored after it. -/
def users_after (env : Env) (compat_mode : Bool) (hashsize : Int) (acct : Bool)
    (users defaults : List PAIR_LIST) (pair_list : HashTable) : List PAIR_LIST :=
  if acct then users.map (rewrite_entry env compat_mode)
  else
    match users with
    | [] => []
    | first :: _ =>
      let chain :=
        if first.name = "DEFAULT" then defaults
        else pair_list (fastuser_hash (cbytes first.name) hashsize)
      chain.dropWhile (fun e => e.addr ≠ first.addr)

/-- The function `fastuser_getfile`. The result is the return code, the list
behind `default_list` (`none` when the pointer is null) and the memory behind
`pair_list`, which is the table when `acct` is zero and whose cell 0 is the
list head written by `*pair_list = users` otherwise. -/
def fastuser_getfile (env : Env) (inst : fastuser_instance) (filename : String)
    (default_list : Option (List PAIR_LIST)) (pair_list : HashTable) (acct : Bool) :
    Int × Option (List PAIR_LIST) × HashTable :=
  match env.pairlist_read filename with
  | none => (-1, default_list, pair_list)
  | some users =>
    let compat_mode : Bool := decide (inst.compat_mode = "cistron")
    let st := getfile_loop env compat_mode inst.hashsize acct users ([], none, pair_list)
    if !acct && default_list.isSome then (0, some st.1, st.2.2)
    else
      let users := users_after env compat_mode inst.hashsize acct users st.1 st.2.2
      (0, default_list, fun i => if i = 0 then users else st.2.2 i)

/-- The function `fastuser_buildhash`: the return code and the instance
afterwards. The table statistics only write to the log. -/
def fastuser_buildhash (env : Env) (inst : fastuser_instance) : Int × fastuser_instance :=
  if !env.malloc_ok then (-1, inst)
  else
    let newhash : HashTable := fun _ => []
    let r := fastuser_getfile env inst inst.acctusersfile none (fun _ => inst.acctusers) true
    let inst := { inst with acctusers := r.2.2 0 }
    if r.1 ≠ 0 then (-1, inst)
    else
      let r := fastuser_getfile env inst inst.usersfile (some []) newhash false
      if r.1 ≠ 0 then (-1, inst)
      else (0, { inst with hashtable := r.2.2, defaults := r.2.1.getD [] })

/-! ## `fastuser_find` -/

/-- The function `fastuser_passcheck`: the check items of the entry are put in
`request->config_items` for the call of `rad_check_password` and the saved
items are put back, so the request is left as it was. -/
def fastuser_passcheck (env : Env) (request : REQUEST) (user : PAIR_LIST)
    (_name : String) : Int :=
  if env.rad_check_password { request with config_items := user.check } = 0 then 1 else 0

/-- The function `fastuser_find`: the first node of the chain, from `user` on,
that is the right user; `[]` when there is none. -/
def fastuser_find (env : Env) (request : REQUEST) :
    List PAIR_LIST → String → List PAIR_LIST
  | [], _ => []
  | cur :: next, username =>
    if cur.name = username ∧
        env.paircmp request.packet_vps cur.check request.reply_vps = 0 then
      if env.do_usercollide then
        if fastuser_passcheck env request cur username = 0 then
          fastuser_find env request next username
        else cur :: next
      else cur :: next
    else fastuser_find env request next username

/-! ## `fastuser_authorize` -/

/-- The state of `fastuser_authorize` between two steps: the request, the
pointer `user`, and the entries whose pairs have been copied and moved into
the request so far, in the order of the moves. -/
structure auth_state where
  request : REQUEST
  user : List PAIR_LIST
  merged : List PAIR_LIST

/-- What `fastuser_authorize` and `fastuser_preacct` hand back: the return
code, the request, and the entries merged, in the order of the moves. -/
structure auth_result where
  rcode : RLM_MODULE
  request : REQUEST
  merged : List PAIR_LIST

/-- The block `paircopy` / `pairmove` / `pairfree` for the check and the reply
list of one entry. -/
def merge_pairs (env : Env) (request : REQUEST) (e : PAIR_LIST) : REQUEST :=
  { request with
    config_items := env.pairmove request.config_items e.check
    reply_vps := env.pairmove request.reply_vps e.reply }

/-- The two lines `pairdelete(&request->reply->vps, PW_FALL_THROUGH);
return RLM_MODULE_UPDATED;`. -/
def return_updated (env : Env) (request : REQUEST) (merged : List PAIR_LIST) : auth_result :=
  { rcode := RLM_MODULE_UPDATED
    request := { request with
      reply_vps := env.pairdelete request.reply_vps env.PW_FALL_THROUGH }
    merged := merged }

/-- The end of `fastuser_authorize`, after the walk of the defaults. -/
def final_verdict (env : Env) (userfound defaultfound : Bool) (st : auth_state) : auth_result :=
  if userfound ∨ defaultfound then return_updated env st.request st.merged
  else { rcode := RLM_MODULE_NOTFOUND, request := st.request, merged := st.merged }

/-- The inner loop `while (userfound && user && curdefault == user->lastdefault)`
of `fastuser_authorize`. The first argument bounds the number of iterations;
every iteration moves `user` at least one node down its chain, so the length
of the chain is enough (`anchor_loop_fuel`). The result is on the left when
the function returned inside the loop and on the right when the loop ended. -/
def anchor_loop (env : Env) (name : String) (userfound : Bool) (curdefault : PAIR_LIST) :
    Nat → auth_state → auth_result ⊕ auth_state
  | 0, st => Sum.inr st
  | fuel + 1, st =>
    match st.user with
    | [] => Sum.inr st
    | user :: next =>
      if userfound ∧ some curdefault.addr = user.lastdefault then
        let request := merge_pairs env st.request user
        let merged := st.merged ++ [user]
        if fallthrough env user.reply = 0 then
          Sum.inl (return_updated env request merged)
        else
          anchor_loop env name userfound curdefault fuel
            { request := request, user := fastuser_find env request next name, merged := merged }
      else Sum.inr st

/-- The loop `while (curdefault)` of `fastuser_authorize`. -/
def defaults_walk (env : Env) (name : String) (userfound : Bool) :
    List PAIR_LIST → Bool → auth_state → auth_result
  | [], defaultfound, st => final_verdict env userfound defaultfound st
  | curdefault :: next, defaultfound, st =>
    let hit : Bool :=
      decide (env.paircmp st.request.packet_vps curdefault.check st.request.reply_vps = 0)
    let defaultfound := if hit then true else defaultfound
    let st : auth_state :=
      if hit then
        { st with
          request := merge_pairs env st.request curdefault
          merged := st.merged ++ [curdefault] }
      else st
    if fallthrough env curdefault.reply = 0 then final_verdict env userfound defaultfound st
    else
      match anchor_loop env name userfound curdefault st.user.length st with
      | Sum.inl r => r
      | Sum.inr st => defaults_walk env name userfound next defaultfound st

/-- The name `fastuser_authorize` and `fastuser_preacct` look up: the canonical
user name, or `"NONE"`. -/
def request_name (request : REQUEST) : String :=
  match request.username with
  | some namepair => namepair.strvalue
  | none => "NONE"

/-- The function `fastuser_authorize` from "Grab the canonical user name" on. -/
def authorize_search (env : Env) (inst : fastuser_instance) (request : REQUEST) : auth_result :=
  let name := request_name request
  let hashidx := fastuser_hash (cbytes name) inst.hashsize
  let user := fastuser_find env request (inst.hashtable hashidx) name
  let userfound : Bool := !user.isEmpty
  match user with
  | [] => defaults_walk env name userfound inst.defaults false
      { request := request, user := [], merged := [] }
  | u :: unext =>
    if userfound ∧ u.lastdefault = none then
      let request := merge_pairs env request u
      if fallthrough env u.reply = 0 then return_updated env request [u]
      else
        defaults_walk env name userfound inst.defaults false
          { request := request, user := fastuser_find env request unext name, merged := [u] }
    else
      defaults_walk env name userfound inst.defaults false
        { request := request, user := u :: unext, merged := [] }

/-- The function `fastuser_authorize`: the instance afterwards and the result;
`none` when the reload fails and the process exits. -/
def fastuser_authorize (env : Env) (inst : fastuser_instance) (request : REQUEST) :
    Option (fastuser_instance × auth_result) :=
  if inst.hash_reload ≠ 0 ∧ request.timestamp > inst.next_reload then
    let inst := { inst with next_reload := request.timestamp + inst.hash_reload }
    let r := fastuser_buildhash env inst
    if r.1 < 0 then none
    else some (r.2, authorize_search env r.2 request)
  else some (inst, authorize_search env inst request)

/-! ## `fastuser_preacct` -/

/-- The state of the loop of `fastuser_preacct`: `found`, the list behind
`config_pairs`, the local `reply_pairs`, and the entries merged so far. -/
structure preacct_state where
  found : Bool
  config_items : List VALUE_PAIR
  reply_pairs : List VALUE_PAIR
  merged : List PAIR_LIST

/-- The loop `for (pl = inst->acctusers; pl; pl = pl->next)` of
`fastuser_preacct`. -/
def preacct_loop (env : Env) (name : String) (request_pairs : List VALUE_PAIR) :
    List PAIR_LIST → preacct_state → preacct_state
  | [], st => st
  | pl :: next, st =>
    if name ≠ pl.name ∧ pl.name ≠ "DEFAULT" then
      preacct_loop env name request_pairs next st
    else if env.paircmp request_pairs pl.check st.reply_pairs = 0 then
      let st : preacct_state :=
        { found := true
          config_items := env.pairmove st.config_items pl.check
          reply_pairs := env.pairmove st.reply_pairs pl.reply
          merged := st.merged ++ [pl] }
      if fallthrough env pl.reply = 0 then st
      else preacct_loop env name request_pairs next st
    else preacct_loop env name request_pairs next st

/-- The function `fastuser_preacct`. -/
def fastuser_preacct (env : Env) (inst : fastuser_instance) (request : REQUEST) : auth_result :=
  let name := request_name request
  let st := preacct_loop env name request.packet_vps inst.acctusers
    { found := false, config_items := request.config_items, reply_pairs := [], merged := [] }
  let request := { request with config_items := st.config_items }
  if !st.found then { rcode := RLM_MODULE_NOOP, request := request, merged := st.merged }
  else { rcode := RLM_MODULE_OK, request := request, merged := st.merged }


/-! ## Reference definitions -/

/-- The compatibility rewrite of one check-pair as the specification words it:
an operator other than `EQ` is left unchanged; an `EQ` pair whose attribute id
lies outside the local-configuration range (id below `0x100`, or a bit above
the low sixteen set) becomes `CMP_EQ`; otherwise, in compatibility mode, the
pair becomes `ADD` unless its attribute is one of the two reserved
exceptions, in which case it becomes `CMP_EQ`. -/
def rewrite_reference (env : Env) (compat_mode : Bool) (vp : VALUE_PAIR) : VALUE_PAIR :=
  if vp.operator = T_OP_EQ then
    if vp.attr < 0x100 ∨ vp.attr / 65536 ≠ 0 then { vp with operator := T_OP_CMP_EQ }
    else if compat_mode then
      if vp.attr = env.PW_HINT ∨ vp.attr = env.PW_HUNTGROUP_NAME then
        { vp with operator := T_OP_CMP_EQ }
      else { vp with operator := T_OP_ADD }
    else vp
  else vp

/-- The polynomial of the specification: the sum over `i = 1..n` of
`name[i] * 7907 ^ (n - i)`. -/
def hash_sum (s : List Nat) : Nat :=
  ((List.range s.length).map (fun i => s.getD i 0 * 7907 ^ (s.length - (i + 1)))).sum

/-- The matching predicate of the specification for one entry: the name of
the entry equals the requested username, every check-pair compares true
against the request, and in credential-collision mode the password
verification passes as well. -/
def accepts (env : Env) (request : REQUEST) (name : String) (e : PAIR_LIST) : Prop :=
  e.name = name ∧
  env.paircmp request.packet_vps e.check request.reply_vps = 0 ∧
  (env.do_usercollide = true → fastuser_passcheck env request e name ≠ 0)

instance (env : Env) (request : REQUEST) (name : String) (e : PAIR_LIST) :
    Decidable (accepts env request name e) := by
  unfold accepts
  infer_instance

/-- The default entries the walk of the Default Chain visits when it is not
cut short by a user entry: every default up to and including the first whose
reply has no fall-through marker. -/
def visited_defaults (env : Env) : List PAIR_LIST → List PAIR_LIST
  | [] => []
  | d :: ds => if fallthrough env d.reply = 0 then [d] else d :: visited_defaults env ds

/-- The single sequential pass of the specification over a file-order list:
visit each entry whose name equals the username or is `"DEFAULT"`, merge it
when its check-pairs match the request, and stop after the first merged
entry that has no fall-through marker. The result is the entries merged. -/
def sequential_pass (env : Env) (request : REQUEST) (name : String) :
    List PAIR_LIST → List PAIR_LIST
  | [] => []
  | e :: es =>
    if e.name = name ∨ e.name = "DEFAULT" then
      if env.paircmp request.packet_vps e.check request.reply_vps = 0 then
        if fallthrough env e.reply = 0 then [e]
        else e :: sequential_pass env request name es
      else sequential_pass env request name es
    else sequential_pass env request name es

/-! ## The loaded file -/

/-- The entries of a users file in file order, each as the loop of
`fastuser_getfile` leaves it when `acct` is zero: the check items rewritten
and, for an entry that is not a `DEFAULT`, `lastdefault` set to the address
of the last `DEFAULT` before it (`ld` when there is none). -/
def loaded_entries (env : Env) (compat_mode : Bool) :
    Option Nat → List PAIR_LIST → List PAIR_LIST
  | _, [] => []
  | ld, e :: es =>
    if e.name = "DEFAULT" then
      rewrite_entry env compat_mode e :: loaded_entries env compat_mode (some e.addr) es
    else
      set_lastdefault (rewrite_entry env compat_mode e) ld ::
        loaded_entries env compat_mode ld es

/-- The node `stored` of a chain is the node `e` of the parsed file after the
loader's writes: the same address, name, reply items and line number, the
check items rewritten, and whatever the loader put in `lastdefault`. -/
def stored_as (env : Env) (compat_mode : Bool) (stored e : PAIR_LIST) : Prop :=
  stored = set_lastdefault (rewrite_entry env compat_mode e) stored.lastdefault

instance (env : Env) (compat_mode : Bool) (stored e : PAIR_LIST) :
    Decidable (stored_as env compat_mode stored e) := by
  unfold stored_as
  infer_instance

/-- The chain the table holds for the index of `name`, for a file whose
loaded entries are `entries`: the entries other than `DEFAULT` whose name has
the hash of `name`, in file order. -/
def chain_of (hashsize : Int) (name : String) (entries : List PAIR_LIST) : List PAIR_LIST :=
  entries.filter (fun e =>
    e.name ≠ "DEFAULT" ∧
      fastuser_hash (cbytes e.name) hashsize = fastuser_hash (cbytes name) hashsize)

/-- The default chain for a file whose loaded entries are `entries`. -/
def defaults_of (entries : List PAIR_LIST) : List PAIR_LIST :=
  entries.filter (fun e => e.name = "DEFAULT")

/-- The rest of one turn of the loop `while (curdefault)` after the test of
the fall-through marker: the inner loop at `curdefault`, then the walk of the
defaults that follow. -/
def resume_walk (env : Env) (name : String) (userfound : Bool) (curdefault : PAIR_LIST)
    (next : List PAIR_LIST) (defaultfound : Bool) (st : auth_state) : auth_result :=
  match anchor_loop env name userfound curdefault st.user.length st with
  | Sum.inl r => r
  | Sum.inr st => defaults_walk env name userfound next defaultfound st

/-! ## Concrete inputs -/

/-- An environment to run the module in: the dictionary numbers of the stock
dictionary, a `pairfind` that takes the first pair of the attribute, a
`paircmp` that wants every check item present in the request with the same
value, a `pairmove` that appends and a `pairdelete` that drops every pair of
the attribute. The users file is `users`; `collide` and `pw` set
`do_usercollide` and the answer of `rad_check_password`. -/
def example_env (users acct : List PAIR_LIST) (collide : Bool) (pw : Int) : Env :=
  { PW_FALL_THROUGH := 500
    PW_HINT := 1040
    PW_HUNTGROUP_NAME := 1031
    do_usercollide := collide
    malloc_ok := true
    pairfind := fun l a => l.find? (fun vp => vp.attr = a)
    paircmp := fun req check _ =>
      if check.all (fun c => req.any (fun r => r.attr = c.attr ∧ r.lvalue = c.lvalue)) then 0
      else -1
    pairmove := fun dst src => dst ++ src
    pairdelete := fun l a => l.filter (fun vp => vp.attr ≠ a)
    rad_check_password := fun _ => pw
    pairlist_read := fun f =>
      if f = "users" then some users else if f = "acct_users" then some acct else none }

/-- The environment `example_env` with a comparison that looks at the reply
list: a check list matches as long as the reply list holds no
`Framed-Protocol` yet. -/
def example_env_reply (users : List PAIR_LIST) : Env :=
  { example_env users [] false 0 with
    paircmp := fun _ _ reply => if reply.any (fun vp => vp.attr = 7) then -1 else 0 }

/-- An instance before the first build, with reloading switched off. -/
def example_inst (mode : String) : fastuser_instance :=
  { compat_mode := mode, hash_reload := 0, hashsize := 100000, hashtable := fun _ => [],
    defaults := [], acctusers := [], stats := 0, usersfile := "users",
    acctusersfile := "acct_users", next_reload := 0 }

/-- The reply item `Fall-Through = Yes`. -/
def fall_through_yes : VALUE_PAIR := ⟨500, T_OP_EQ, 1, ""⟩

/-- A reply item `Framed-Protocol` with a value that tells the entries apart. -/
def reply_item (n : Nat) : VALUE_PAIR := ⟨7, T_OP_EQ, n, ""⟩

/-- A check item `NAS-Port == n`. -/
def check_item (n : Nat) : VALUE_PAIR := ⟨5, T_OP_CMP_EQ, n, ""⟩

/-- A request of user `name` that carries `NAS-Port = 1`. -/
def example_request (name : String) : REQUEST :=
  { packet_vps := [⟨5, T_OP_EQ, 1, ""⟩], username := some ⟨1, T_OP_EQ, 0, name⟩,
    config_items := [], reply_vps := [], timestamp := 0 }

/-- The users file of the first scenario: `bob` with fall-through, a `DEFAULT`
without, `bob` again without. Every entry checks `NAS-Port == 1`. -/
def file_user_default_user : List PAIR_LIST :=
  [ ⟨1, "bob", [check_item 1], [reply_item 1, fall_through_yes], 1, none⟩,
    ⟨2, "DEFAULT", [check_item 1], [reply_item 2], 3, none⟩,
    ⟨3, "bob", [check_item 1], [reply_item 3], 5, none⟩ ]

/-- The users file of the second scenario: a `DEFAULT` with fall-through,
`bob` without, a `DEFAULT` without. Every entry checks `NAS-Port == 1`. -/
def file_default_user_default : List PAIR_LIST :=
  [ ⟨1, "DEFAULT", [check_item 1], [reply_item 1, fall_through_yes], 1, none⟩,
    ⟨2, "bob", [check_item 1], [reply_item 2], 3, none⟩,
    ⟨3, "DEFAULT", [check_item 1], [reply_item 3], 5, none⟩ ]

/-- A users file with the single entry `bob`, without fall-through. -/
def file_single_user : List PAIR_LIST :=
  [ ⟨1, "bob", [check_item 1], [reply_item 1], 1, none⟩ ]

/-- A users file whose `DEFAULT`, without fall-through, checks `NAS-Port == 2`
and is followed by an entry of `bob` that checks `NAS-Port == 1`. -/
def file_unmatched_default : List PAIR_LIST :=
  [ ⟨1, "DEFAULT", [check_item 2], [reply_item 1], 1, none⟩,
    ⟨2, "bob", [check_item 1], [reply_item 2], 3, none⟩ ]

/-- A users file with two entries of `bob`, the first with fall-through, and
no `DEFAULT`. -/
def file_two_users : List PAIR_LIST :=
  [ ⟨1, "bob", [check_item 1], [reply_item 1, fall_through_yes], 1, none⟩,
    ⟨2, "bob", [check_item 1], [reply_item 2], 3, none⟩ ]

/-- A users file with an entry of `bob` with fall-through and a `DEFAULT`. -/
def file_user_default : List PAIR_LIST :=
  [ ⟨1, "bob", [check_item 1], [reply_item 1, fall_through_yes], 1, none⟩,
    ⟨2, "DEFAULT", [check_item 1], [reply_item 2], 3, none⟩ ]

/-! ## The anchor of a named entry -/

/-- The value of the local `lastdefault` of `fastuser_getfile` after the
entries `pre` have gone through the loop, when it was `ld` before: the
address of the last `DEFAULT` entry of `pre`, and `ld` when `pre` holds
none. -/
def anchor_after : Option Nat → List PAIR_LIST → Option Nat
  | ld, [] => ld
  | ld, e :: es =>
    if e.name = "DEFAULT" then anchor_after (some e.addr) es else anchor_after ld es

/-- The entries of a list up to and including the first whose reply has no
fall-through marker. -/
def through_first_stop (env : Env) : List PAIR_LIST → List PAIR_LIST
  | [] => []
  | e :: es => if fallthrough env e.reply = 0 then [e] else e :: through_first_stop env es

/-- The test of `fastuser_authorize` for a reload: the configured interval is
not zero and the timestamp of the request is past the deadline. -/
def reload_due (inst : fastuser_instance) (request : REQUEST) : Prop :=
  inst.hash_reload ≠ 0 ∧ request.timestamp > inst.next_reload

instance (inst : fastuser_instance) (request : REQUEST) : Decidable (reload_due inst request) := by
  unfold reload_due
  infer_instance

/-! ## More concrete inputs -/

/-- An environment like `example_env` in which the users file cannot be read
while the accounting file holds `acct`. -/
def example_env_unreadable (acct : List PAIR_LIST) : Env :=
  { example_env [] acct false 0 with
    pairlist_read := fun f => if f = "acct_users" then some acct else none }

/-- An instance that holds a table, a default chain and an accounting list,
with a reload due every 600 seconds from time 0 on. -/
def example_inst_live : fastuser_instance :=
  { compat_mode := "cistron", hash_reload := 600, hashsize := 100000,
    hashtable := fun i => if i = 1377 then [⟨10, "bob", [], [], 1, none⟩] else [],
    defaults := [⟨11, "DEFAULT", [], [], 3, none⟩],
    acctusers := [⟨12, "DEFAULT", [], [], 1, none⟩],
    stats := 0, usersfile := "users", acctusersfile := "acct_users", next_reload := 0 }

/-- An accounting file: a `DEFAULT` with fall-through, then `alice` without. -/
def file_acct_default_alice : List PAIR_LIST :=
  [ ⟨1, "DEFAULT", [check_item 1], [reply_item 1, fall_through_yes], 1, none⟩,
    ⟨2, "alice", [check_item 1], [reply_item 2], 3, none⟩ ]

/-- A users file: a `DEFAULT` with fall-through followed by two entries of
`bob`, the first with fall-through. -/
def file_default_two_users : List PAIR_LIST :=
  [ ⟨1, "DEFAULT", [check_item 1], [reply_item 1, fall_through_yes], 1, none⟩,
    ⟨2, "bob", [check_item 1], [reply_item 2, fall_through_yes], 3, none⟩,
    ⟨3, "bob", [check_item 1], [reply_item 3], 5, none⟩ ]

/-! ## A pointer the inner loop never moves -/

/-- The inner loop of `fastuser_authorize` cannot run at any default: no user
entry was found, or the pointer `user` is null, or it rests on an entry whose
`lastdefault` is null, which no default equals. -/
def idle_user (userfound : Bool) (user : List PAIR_LIST) : Prop :=
  userfound = false ∨ user = [] ∨ ∃ u rest, user = u :: rest ∧ u.lastdefault = none

/-- An environment like `example_env` whose comparison reads the reply list it
is handed: once that list holds a `Framed-Protocol` item, no check item
compares equal. -/
def example_env_reply_sensitive (acct : List PAIR_LIST) : Env :=
  { example_env [] acct false 0 with
    paircmp := fun req check reply =>
      if reply.any (fun r => r.attr = 7) then -1
      else (example_env [] acct false 0).paircmp req check reply }

/-! # Theorems -/

/-! ## Machine arithmetic -/

theorem ldiff_low_sixteen (n : Nat) : Nat.ldiff n 65535 = n - n % 65536 := by
  have h1 : n - n % 65536 = (n >>> 16) <<< 16 := by
    rw [Nat.shiftRight_eq_div_pow, Nat.shiftLeft_eq]
    have := Nat.div_add_mod n 65536
    norm_num
    omega
  rw [h1]
  apply Nat.eq_of_testBit_eq
  intro i
  rw [Nat.testBit_ldiff, Nat.testBit_shiftLeft, Nat.testBit_shiftRight]
  have h2 : (65535 : Nat) = 2 ^ 16 - 1 := by norm_num
  rw [h2, Nat.testBit_two_pow_sub_one]
  by_cases hi : i < 16
  · simp [hi]
  · have : 16 ≤ i := by omega
    simp [hi, this]

theorem lor_low_sixteen (n : Nat) : n ||| 65535 = n - n % 65536 + 65535 := by
  have h3 : (65535 : Nat) < 2 ^ 16 := by norm_num
  have h1 : n - n % 65536 + 65535 = 2 ^ 16 * (n / 65536) ||| 65535 := by
    rw [← Nat.mul_add_lt_is_or h3]
    have := Nat.div_add_mod n 65536
    norm_num
    omega
  rw [h1]
  apply Nat.eq_of_testBit_eq
  intro i
  rw [Nat.testBit_lor, Nat.testBit_lor]
  have h2 : (65535 : Nat) = 2 ^ 16 - 1 := by norm_num
  have h4 : 2 ^ 16 * (n / 65536) = (n >>> 16) <<< 16 := by
    rw [Nat.shiftRight_eq_div_pow, Nat.shiftLeft_eq]
    norm_num
    ring
  rw [h4, Nat.testBit_shiftLeft, Nat.testBit_shiftRight, h2, Nat.testBit_two_pow_sub_one]
  by_cases hi : i < 16
  · simp [hi]
  · have : 16 ≤ i := by omega
    simp [hi, this]

/-- The arithmetic form of `mask_high` is the bitwise `a & ~0xffff` on two's
complement integers. -/
theorem mask_high_eq_land (a : Int) : mask_high a = Int.land a (Int.lnot 65535) := by
  unfold mask_high
  cases a with
  | ofNat n =>
    show (n : Int) - (n : Int) % 65536 = ((Nat.ldiff n 65535 : Nat) : Int)
    rw [ldiff_low_sixteen]
    omega
  | negSucc m =>
    show Int.negSucc m - Int.negSucc m % 65536 = Int.negSucc (m ||| 65535)
    rw [lor_low_sixteen, Int.negSucc_eq, Int.negSucc_eq]
    omega

/-! ## The compatibility rewrite -/

theorem mask_high_ne_zero_iff (a : Int) : mask_high a ≠ 0 ↔ a / 65536 ≠ 0 := by
  unfold mask_high
  omega

theorem rewrite_check_pair_eq_reference (env : Env) (compat_mode : Bool) (vp : VALUE_PAIR) :
    rewrite_check_pair env compat_mode vp = rewrite_reference env compat_mode vp := by
  unfold rewrite_check_pair rewrite_reference
  by_cases hop : vp.operator = T_OP_EQ
  · simp only [hop, ne_eq, not_true_eq_false, if_false, if_true]
    by_cases hout : vp.attr < 0x100 ∨ vp.attr / 65536 ≠ 0
    · have h1 : mask_high vp.attr ≠ 0 ∨ vp.attr < 0x100 := by
        rcases hout with h | h
        · exact Or.inr h
        · exact Or.inl ((mask_high_ne_zero_iff _).2 h)
      rw [if_pos h1, if_pos hout]
    · have h1 : ¬ (mask_high vp.attr ≠ 0 ∨ vp.attr < 0x100) := by
        rintro (h | h)
        · exact hout (Or.inr ((mask_high_ne_zero_iff _).1 h))
        · exact hout (Or.inl h)
      rw [if_neg h1, if_neg hout]
      cases compat_mode
      · simp
      · simp only [if_true]
        have hr : (0x100 : Int) ≤ vp.attr ∧ vp.attr ≤ 0xffff := by
          constructor
          · by_contra h
            exact hout (Or.inl (by omega))
          · by_contra h
            exact hout (Or.inr (by omega))
        by_cases hx : vp.attr = env.PW_HINT ∨ vp.attr = env.PW_HUNTGROUP_NAME
        · have h2 : ¬ (vp.attr ≥ 0x100 ∧ vp.attr ≤ 0xffff ∧
              vp.attr ≠ env.PW_HINT ∧ vp.attr ≠ env.PW_HUNTGROUP_NAME) := by
            rintro ⟨_, _, h3, h4⟩
            rcases hx with h | h
            · exact h3 h
            · exact h4 h
          rw [if_neg h2, if_pos hx]
        · have h2 : vp.attr ≥ 0x100 ∧ vp.attr ≤ 0xffff ∧
              vp.attr ≠ env.PW_HINT ∧ vp.attr ≠ env.PW_HUNTGROUP_NAME :=
            ⟨hr.1, hr.2, fun h => hx (Or.inl h), fun h => hx (Or.inr h)⟩
          rw [if_pos h2, if_neg hx]
  · simp [hop]

theorem rewrite_reference_operator (env : Env) (compat_mode : Bool) (vp : VALUE_PAIR) :
    (rewrite_reference env compat_mode vp).operator = vp.operator ∨
    (vp.operator = T_OP_EQ ∧
      ((rewrite_reference env compat_mode vp).operator = T_OP_CMP_EQ ∨
       (rewrite_reference env compat_mode vp).operator = T_OP_ADD)) := by
  unfold rewrite_reference
  split_ifs with h1 <;> simp [h1]

theorem rewrite_reference_cistron (env : Env) (vp : VALUE_PAIR) :
    (rewrite_reference env true vp).operator ≠ T_OP_EQ := by
  unfold rewrite_reference
  by_cases hop : vp.operator = T_OP_EQ
  · rw [if_pos hop]
    split_ifs <;> simp_all
  · rw [if_neg hop]
    exact hop

theorem rewrite_reference_of_ne (env : Env) (compat_mode : Bool) (vp : VALUE_PAIR)
    (hop : vp.operator ≠ T_OP_EQ) : rewrite_reference env compat_mode vp = vp := by
  unfold rewrite_reference
  rw [if_neg hop]

theorem rewrite_reference_idem (env : Env) (compat_mode : Bool) (vp : VALUE_PAIR) :
    rewrite_reference env compat_mode (rewrite_reference env compat_mode vp) =
      rewrite_reference env compat_mode vp := by
  by_cases hop : (rewrite_reference env compat_mode vp).operator = T_OP_EQ
  · have hsame : rewrite_reference env compat_mode vp = vp := by
      unfold rewrite_reference at hop ⊢
      split_ifs at hop ⊢ <;> simp_all
    rw [hsame]
    exact hsame
  · exact rewrite_reference_of_ne env compat_mode _ hop

/-- C8. The rewriting pass is idempotent in every mode, and it hands back a
list with a pair for every pair it was given. -/
theorem rewrite_check_idempotent (env : Env) (mode : String) (check : List VALUE_PAIR) :
    rewrite_check env (decide (mode = "cistron"))
        (rewrite_check env (decide (mode = "cistron")) check) =
      rewrite_check env (decide (mode = "cistron")) check ∧
    (rewrite_check env (decide (mode = "cistron")) check).length = check.length := by
  have hfun : rewrite_check_pair env (decide (mode = "cistron")) =
      rewrite_reference env (decide (mode = "cistron")) :=
    funext (rewrite_check_pair_eq_reference env _)
  unfold rewrite_check
  rw [hfun]
  refine ⟨?_, List.length_map _ _⟩
  rw [List.map_map]
  apply List.map_congr_left
  intro p _
  exact rewrite_reference_idem env _ p

/-! ## The hash -/

theorem hash_sum_nil : hash_sum [] = 0 := rfl

theorem hash_sum_cons (c : Nat) (s : List Nat) :
    hash_sum (c :: s) = c * 7907 ^ s.length + hash_sum s := by
  unfold hash_sum
  rw [List.length_cons, List.range_succ_eq_map, List.map_cons, List.sum_cons, List.map_map]
  congr 1
  congr 1
  apply List.map_congr_left
  intro i _
  simp only [Function.comp_apply, Nat.succ_eq_add_one, List.getD_cons_succ]
  congr 2
  omega

theorem hash_loop_eq (s : List Nat) (hb : ∀ b ∈ s, b < 256) (hash : Nat)
    (hh : hash < ULONG_RANGE) :
    hash_loop hash s = (hash * 7907 ^ s.length + hash_sum s) % ULONG_RANGE := by
  induction s generalizing hash with
  | nil =>
    simp only [hash_loop, List.length_nil, pow_zero, mul_one, hash_sum_nil, add_zero]
    exact (Nat.mod_eq_of_lt hh).symm
  | cons c s ih =>
    have hc : c % 256 = c := Nat.mod_eq_of_lt (hb c (List.mem_cons_self _ _))
    have hR : 0 < ULONG_RANGE := by unfold ULONG_RANGE; norm_num
    rw [hash_loop, ih (fun b hb' => hb b (List.mem_cons_of_mem _ hb')) _ (Nat.mod_lt _ hR),
      hc, hash_sum_cons, List.length_cons, Nat.add_mod, Nat.mul_mod, Nat.mod_mod,
      ← Nat.mul_mod, ← Nat.add_mod]
    congr 1
    ring

theorem to_int_of_lt (x : Nat) (h : x < 2 ^ 31) : to_int x = (x : Int) := by
  unfold to_int
  have h1 : x % 2 ^ 32 = x := Nat.mod_eq_of_lt (by omega)
  rw [h1, if_pos h]

theorem to_ulong_of_range (x : Int) (h0 : 0 ≤ x) (h1 : x < 2 ^ 64) :
    to_ulong x = x.toNat := by
  unfold to_ulong ULONG_RANGE
  congr 1
  exact Int.emod_eq_of_lt h0 (by norm_num; exact h1)

/-- C9, amended. For a name of bytes and a positive bucket count below
`2 ^ 64`, `fastuser_hash` is the conversion to `int` of the polynomial sum
reduced modulo `2 ^ 64` and then modulo the bucket count; for a bucket count
up to `2 ^ 31` this is the reduced number itself, and it is the sum modulo
the bucket count when the sum is below `2 ^ 64`. -/
theorem fastuser_hash_eq_sum (s : List Nat) (hashtablesize : Int)
    (hb : ∀ b ∈ s, b < 256) (hpos : 0 < hashtablesize) (hlt : hashtablesize < 2 ^ 64) :
    fastuser_hash s hashtablesize =
      to_int (hash_sum s % 2 ^ 64 % hashtablesize.toNat) ∧
    (hashtablesize ≤ 2 ^ 31 →
      fastuser_hash s hashtablesize = (hash_sum s : Int) % 2 ^ 64 % hashtablesize) ∧
    (hashtablesize ≤ 2 ^ 31 → hash_sum s < 2 ^ 64 →
      fastuser_hash s hashtablesize = (hash_sum s : Int) % hashtablesize) := by
  have hR : 0 < ULONG_RANGE := by unfold ULONG_RANGE; norm_num
  have hloop : hash_loop 0 s = hash_sum s % 2 ^ 64 := by
    rw [hash_loop_eq s hb 0 hR, zero_mul, zero_add]
    rfl
  have hmain : fastuser_hash s hashtablesize =
      to_int (hash_sum s % 2 ^ 64 % hashtablesize.toNat) := by
    unfold fastuser_hash
    rw [hloop, to_ulong_of_range _ (le_of_lt hpos) hlt]
  have hsmall : hashtablesize ≤ 2 ^ 31 →
      fastuser_hash s hashtablesize = (hash_sum s : Int) % 2 ^ 64 % hashtablesize := by
    intro hle
    have hn : (hashtablesize.toNat : Int) = hashtablesize := Int.toNat_of_nonneg (le_of_lt hpos)
    have hnpos : 0 < hashtablesize.toNat := by omega
    have hlt31 : hash_sum s % 2 ^ 64 % hashtablesize.toNat < 2 ^ 31 := by
      have := Nat.mod_lt (hash_sum s % 2 ^ 64) hnpos
      omega
    rw [hmain, to_int_of_lt _ hlt31]
    push_cast
    rw [hn]
  refine ⟨hmain, hsmall, ?_⟩
  intro hle hsum
  rw [hsmall hle]
  congr 1
  exact Int.emod_eq_of_lt (by positivity) (by exact_mod_cast hsum)

/-- C9, witness: the name `"bob"` and the default table size. -/
theorem fastuser_hash_eq_sum_witness :
    fastuser_hash [98, 111, 98] 100000 =
      to_int (hash_sum [98, 111, 98] % 2 ^ 64 % (100000 : Int).toNat) ∧
    ((100000 : Int) ≤ 2 ^ 31 →
      fastuser_hash [98, 111, 98] 100000 = (hash_sum [98, 111, 98] : Int) % 2 ^ 64 % 100000) ∧
    ((100000 : Int) ≤ 2 ^ 31 → hash_sum [98, 111, 98] < 2 ^ 64 →
      fastuser_hash [98, 111, 98] 100000 = (hash_sum [98, 111, 98] : Int) % 100000) :=
  fastuser_hash_eq_sum [98, 111, 98] 100000 (by decide) (by decide) (by decide)

/-- C9, counterexample. For the six bytes of `"robert"` and 100000 buckets the
code returns 81730 while the sum modulo the bucket count is 40386 (the
running hash wrapped at `2 ^ 64`); for the bytes of `"joe"` and `2 ^ 32`
buckets the code returns a negative `int`. -/
theorem fastuser_hash_ne_sum :
    fastuser_hash (cbytes "robert") 100000 = 81730 ∧
    ((hash_sum (cbytes "robert") % 100000 : Nat) : Int) = 40386 ∧
    fastuser_hash (cbytes "joe") (2 ^ 32) = -1961868020 ∧
    ((hash_sum (cbytes "joe") % 2 ^ 32 : Nat) : Int) = 2333099276 := by
  decide

/-! ## The partition made by `fastuser_getfile` -/

theorem fastuser_store_eq (hashtable : HashTable) (new : PAIR_LIST) (idx : Int) :
    fastuser_store hashtable new idx =
      fun i => if i = idx then hashtable idx ++ [new] else hashtable i := by
  funext i
  unfold fastuser_store
  by_cases h : i = idx
  · rw [if_pos h, if_pos h]
    cases hashtable idx <;> rfl
  · rw [if_neg h, if_neg h]

@[simp]
theorem rewrite_entry_name (env : Env) (c : Bool) (e : PAIR_LIST) :
    (rewrite_entry env c e).name = e.name := rfl

@[simp]
theorem rewrite_entry_addr (env : Env) (c : Bool) (e : PAIR_LIST) :
    (rewrite_entry env c e).addr = e.addr := rfl

@[simp]
theorem rewrite_entry_reply (env : Env) (c : Bool) (e : PAIR_LIST) :
    (rewrite_entry env c e).reply = e.reply := rfl

@[simp]
theorem rewrite_entry_check (env : Env) (c : Bool) (e : PAIR_LIST) :
    (rewrite_entry env c e).check = rewrite_check env c e.check := rfl

@[simp]
theorem set_lastdefault_name (e : PAIR_LIST) (ld : Option Nat) :
    (set_lastdefault e ld).name = e.name := rfl

@[simp]
theorem set_lastdefault_addr (e : PAIR_LIST) (ld : Option Nat) :
    (set_lastdefault e ld).addr = e.addr := rfl

@[simp]
theorem set_lastdefault_check (e : PAIR_LIST) (ld : Option Nat) :
    (set_lastdefault e ld).check = e.check := rfl

@[simp]
theorem set_lastdefault_reply (e : PAIR_LIST) (ld : Option Nat) :
    (set_lastdefault e ld).reply = e.reply := rfl

@[simp]
theorem set_lastdefault_lastdefault (e : PAIR_LIST) (ld : Option Nat) :
    (set_lastdefault e ld).lastdefault = ld := rfl

theorem getfile_loop_acct (env : Env) (c : Bool) (hs : Int) (users : List PAIR_LIST)
    (st : List PAIR_LIST × Option Nat × HashTable) :
    getfile_loop env c hs true users st = st := by
  induction users with
  | nil => rfl
  | cons e es ih =>
    obtain ⟨D, ld, T⟩ := st
    simp only [getfile_loop, if_true]
    exact ih

theorem getfile_loop_split (env : Env) (c : Bool) (hs : Int) (users : List PAIR_LIST)
    (D : List PAIR_LIST) (ld : Option Nat) (T : HashTable) :
    (getfile_loop env c hs false users (D, ld, T)).1 =
      D ++ (loaded_entries env c ld users).filter (fun e => e.name = "DEFAULT") ∧
    (getfile_loop env c hs false users (D, ld, T)).2.2 =
      fun i => T i ++ (loaded_entries env c ld users).filter
        (fun e => e.name ≠ "DEFAULT" ∧ fastuser_hash (cbytes e.name) hs = i) := by
  induction users generalizing D ld T with
  | nil =>
    simp [getfile_loop, loaded_entries]
  | cons e es ih =>
    by_cases hd : e.name = "DEFAULT"
    · have hstep : getfile_loop env c hs false (e :: es) (D, ld, T) =
          getfile_loop env c hs false es (D ++ [rewrite_entry env c e], some e.addr, T) := by
        simp [getfile_loop, rewrite_entry_name, hd, rewrite_entry_addr]
      rw [hstep]
      obtain ⟨h1, h2⟩ := ih (D ++ [rewrite_entry env c e]) (some e.addr) T
      rw [h1, h2]
      simp [loaded_entries, hd, rewrite_entry_name]
    · have hstep : getfile_loop env c hs false (e :: es) (D, ld, T) =
          getfile_loop env c hs false es (D, ld,
            fastuser_store T (set_lastdefault (rewrite_entry env c e) ld)
              (fastuser_hash (cbytes e.name) hs)) := by
        simp [getfile_loop, rewrite_entry_name, hd]
      rw [hstep]
      obtain ⟨h1, h2⟩ := ih D ld
        (fastuser_store T (set_lastdefault (rewrite_entry env c e) ld)
          (fastuser_hash (cbytes e.name) hs))
      rw [h1, h2, fastuser_store_eq]
      constructor
      · simp [loaded_entries, hd, rewrite_entry_name]
      · funext i
        by_cases hi : i = fastuser_hash (cbytes e.name) hs
        · subst hi
          simp [loaded_entries, hd, rewrite_entry_name]
        · have hi' : ¬ fastuser_hash (cbytes e.name) hs = i := fun h => hi h.symm
          simp [loaded_entries, hd, rewrite_entry_name, hi, hi']

theorem loaded_entries_cons_default (env : Env) (c : Bool) (ld : Option Nat) (e : PAIR_LIST)
    (es : List PAIR_LIST) (h : e.name = "DEFAULT") :
    loaded_entries env c ld (e :: es) =
      rewrite_entry env c e :: loaded_entries env c (some e.addr) es := by
  simp [loaded_entries, h]

theorem loaded_entries_cons_named (env : Env) (c : Bool) (ld : Option Nat) (e : PAIR_LIST)
    (es : List PAIR_LIST) (h : e.name ≠ "DEFAULT") :
    loaded_entries env c ld (e :: es) =
      (set_lastdefault (rewrite_entry env c e) ld) :: loaded_entries env c ld es := by
  simp [loaded_entries, h]

theorem loaded_entries_defaults (env : Env) (c : Bool) (ld : Option Nat)
    (users : List PAIR_LIST) :
    (loaded_entries env c ld users).filter (fun e => e.name = "DEFAULT") =
      (users.filter (fun e => e.name = "DEFAULT")).map (rewrite_entry env c) := by
  induction users generalizing ld with
  | nil => rfl
  | cons e es ih =>
    by_cases hd : e.name = "DEFAULT"
    · simp [loaded_entries, hd, rewrite_entry_name, ih]
    · simp [loaded_entries, hd, rewrite_entry_name, ih]

theorem loaded_entries_named (env : Env) (c : Bool) (ld : Option Nat)
    (users : List PAIR_LIST) (q : PAIR_LIST → Bool)
    (hq : ∀ e e2 : PAIR_LIST, e.name = e2.name → q e = q e2)
    (hqd : ∀ e, q e = true → e.name ≠ "DEFAULT") :
    List.Forall₂ (stored_as env c) ((loaded_entries env c ld users).filter q)
      (users.filter q) := by
  induction users generalizing ld with
  | nil => exact List.Forall₂.nil
  | cons e es ih =>
    by_cases hqe : q e = true
    · have hd : e.name ≠ "DEFAULT" := hqd e hqe
      have h1 : q (set_lastdefault (rewrite_entry env c e) ld) = true := by
        have h2 := hq (set_lastdefault (rewrite_entry env c e) ld) e rfl
        rw [h2]; exact hqe
      rw [loaded_entries_cons_named env c ld e es hd, List.filter_cons_of_pos h1,
        List.filter_cons_of_pos hqe]
      exact List.Forall₂.cons rfl (ih ld)
    · rw [List.filter_cons_of_neg hqe]
      by_cases hd : e.name = "DEFAULT"
      · have h1 : ¬ q (rewrite_entry env c e) = true := by
          rw [hq (rewrite_entry env c e) e rfl]; exact hqe
        rw [loaded_entries_cons_default env c ld e es hd, List.filter_cons_of_neg h1]
        exact ih _
      · have h1 : ¬ q (set_lastdefault (rewrite_entry env c e) ld) = true := by
          have h2 := hq (set_lastdefault (rewrite_entry env c e) ld) e rfl
          rw [h2]; exact hqe
        rw [loaded_entries_cons_named env c ld e es hd, List.filter_cons_of_neg h1]
        exact ih _

theorem fastuser_getfile_loaded (env : Env) (inst : fastuser_instance) (filename : String)
    (default_list users : List PAIR_LIST) (hread : env.pairlist_read filename = some users) :
    fastuser_getfile env inst filename (some default_list) (fun _ => []) false =
      (0,
        some ((loaded_entries env (decide (inst.compat_mode = "cistron")) none users).filter
          (fun e => e.name = "DEFAULT")),
        fun i => (loaded_entries env (decide (inst.compat_mode = "cistron")) none users).filter
          (fun e => e.name ≠ "DEFAULT" ∧ fastuser_hash (cbytes e.name) inst.hashsize = i)) := by
  obtain ⟨h1, h2⟩ := getfile_loop_split env (decide (inst.compat_mode = "cistron"))
    inst.hashsize users [] none (fun _ => [])
  unfold fastuser_getfile
  rw [hread]
  simp only [Bool.not_false, Option.isSome_some, Bool.and_self, if_true]
  rw [h1, h2]
  simp

theorem loaded_entries_check (env : Env) (c : Bool) (ld : Option Nat) (raw : List PAIR_LIST)
    (x : PAIR_LIST) (hx : x ∈ loaded_entries env c ld raw) :
    ∃ e ∈ raw, x.check = (rewrite_entry env c e).check := by
  induction raw generalizing ld with
  | nil => cases hx
  | cons e es ih =>
    by_cases hd : e.name = "DEFAULT"
    · rw [loaded_entries_cons_default env c ld e es hd] at hx
      rcases List.mem_cons.1 hx with rfl | hx'
      · exact ⟨e, List.mem_cons_self _ _, rfl⟩
      · obtain ⟨y, hy, h⟩ := ih _ hx'
        exact ⟨y, List.mem_cons_of_mem _ hy, h⟩
    · rw [loaded_entries_cons_named env c ld e es hd] at hx
      rcases List.mem_cons.1 hx with rfl | hx'
      · exact ⟨e, List.mem_cons_self _ _, rfl⟩
      · obtain ⟨y, hy, h⟩ := ih _ hx'
        exact ⟨y, List.mem_cons_of_mem _ hy, h⟩

/-- C10. A file read with `acct` zero into an empty table is split without
loss, duplication or reordering: the default chain is the `DEFAULT` entries
of the file in file order, and the chain of every index `i` is the other
entries whose name hashes to `i`, in file order; each node is the parsed
node with its check items rewritten (and `lastdefault` written, for the
named ones). -/
theorem fastuser_getfile_partition (env : Env) (inst : fastuser_instance) (filename : String)
    (default_list users : List PAIR_LIST)
    (hread : env.pairlist_read filename = some users) :
    (fastuser_getfile env inst filename (some default_list) (fun _ => []) false).1 = 0 ∧
    (fastuser_getfile env inst filename (some default_list) (fun _ => []) false).2.1 =
      some ((users.filter (fun e => e.name = "DEFAULT")).map
        (rewrite_entry env (decide (inst.compat_mode = "cistron")))) ∧
    ∀ i : Int,
      List.Forall₂ (stored_as env (decide (inst.compat_mode = "cistron")))
        ((fastuser_getfile env inst filename (some default_list) (fun _ => []) false).2.2 i)
        (users.filter (fun e =>
          e.name ≠ "DEFAULT" ∧ fastuser_hash (cbytes e.name) inst.hashsize = i)) := by
  rw [fastuser_getfile_loaded env inst filename default_list users hread]
  refine ⟨rfl, ?_, ?_⟩
  · show some _ = some _
    rw [loaded_entries_defaults]
  · intro i
    exact loaded_entries_named env _ none users _
      (fun e e2 h => by simp only [h])
      (fun e h => (of_decide_eq_true h).1)

/-- C10, witness: a file with a `DEFAULT` between two entries of one user. -/
theorem fastuser_getfile_partition_witness :
    (fastuser_getfile
      (example_env [⟨1, "bob", [], [], 1, none⟩, ⟨2, "DEFAULT", [], [], 3, none⟩,
        ⟨3, "bob", [], [], 5, none⟩] [] false 0)
      (example_inst "cistron") "users" (some []) (fun _ => []) false).1 = 0 ∧
    (fastuser_getfile
      (example_env [⟨1, "bob", [], [], 1, none⟩, ⟨2, "DEFAULT", [], [], 3, none⟩,
        ⟨3, "bob", [], [], 5, none⟩] [] false 0)
      (example_inst "cistron") "users" (some []) (fun _ => []) false).2.1 =
      some ((List.filter (fun e => e.name = "DEFAULT")
        [⟨1, "bob", [], [], 1, none⟩, ⟨2, "DEFAULT", [], [], 3, none⟩,
          ⟨3, "bob", [], [], 5, none⟩]).map
        (rewrite_entry (example_env [⟨1, "bob", [], [], 1, none⟩,
          ⟨2, "DEFAULT", [], [], 3, none⟩, ⟨3, "bob", [], [], 5, none⟩] [] false 0)
          (decide ((example_inst "cistron").compat_mode = "cistron")))) ∧
    ∀ i : Int,
      List.Forall₂ (stored_as (example_env [⟨1, "bob", [], [], 1, none⟩,
          ⟨2, "DEFAULT", [], [], 3, none⟩, ⟨3, "bob", [], [], 5, none⟩] [] false 0)
          (decide ((example_inst "cistron").compat_mode = "cistron")))
        ((fastuser_getfile
          (example_env [⟨1, "bob", [], [], 1, none⟩, ⟨2, "DEFAULT", [], [], 3, none⟩,
            ⟨3, "bob", [], [], 5, none⟩] [] false 0)
          (example_inst "cistron") "users" (some []) (fun _ => []) false).2.2 i)
        (List.filter (fun e =>
          e.name ≠ "DEFAULT" ∧
            fastuser_hash (cbytes e.name) (example_inst "cistron").hashsize = i)
          [⟨1, "bob", [], [], 1, none⟩, ⟨2, "DEFAULT", [], [], 3, none⟩,
            ⟨3, "bob", [], [], 5, none⟩]) :=
  fastuser_getfile_partition _ _ "users" [] _ (by decide)

/-! ## What the rewrite leaves in the loaded structures -/

theorem rewrite_check_pair_cistron (env : Env) (vp : VALUE_PAIR) :
    (rewrite_check_pair env true vp).operator ≠ T_OP_EQ := by
  rw [rewrite_check_pair_eq_reference]
  exact rewrite_reference_cistron env vp

theorem rewrite_check_pair_cistron_eq (env : Env) (vp : VALUE_PAIR)
    (hop : vp.operator = T_OP_EQ) :
    (rewrite_check_pair env true vp).operator = T_OP_CMP_EQ ∨
    (rewrite_check_pair env true vp).operator = T_OP_ADD := by
  rw [rewrite_check_pair_eq_reference]
  rcases rewrite_reference_operator env true vp with h | h
  · exact absurd (h.trans hop) (rewrite_reference_cistron env vp)
  · exact h.2

theorem rewrite_entry_check_cistron (env : Env) (e : PAIR_LIST) (vp : VALUE_PAIR)
    (h : vp ∈ (rewrite_entry env true e).check) : vp.operator ≠ T_OP_EQ := by
  obtain ⟨q, _, rfl⟩ := List.mem_map.1 h
  exact rewrite_check_pair_cistron env q

theorem fastuser_getfile_acct (env : Env) (inst : fastuser_instance) (filename : String)
    (default_list : Option (List PAIR_LIST)) (pair_list : HashTable) (users : List PAIR_LIST)
    (hread : env.pairlist_read filename = some users) :
    fastuser_getfile env inst filename default_list pair_list true =
      (0, default_list, fun i =>
        if i = 0 then users.map (rewrite_entry env (decide (inst.compat_mode = "cistron")))
        else pair_list i) := by
  unfold fastuser_getfile
  rw [hread]
  simp [getfile_loop_acct, users_after]

/-- C6, amended. In the mode `"cistron"` no check-pair with an attribute id
from 256 to 65535 carries `EQ` after `fastuser_getfile`, in the accounting
list, in the default chain or in any chain of the table; a pair read with
`EQ` has become `CMP_EQ` or `ADD`. -/
theorem fastuser_getfile_no_eq_cistron (env : Env) (inst : fastuser_instance)
    (filename : String) (users default_list : List PAIR_LIST) (pair_list : HashTable)
    (hmode : inst.compat_mode = "cistron")
    (hread : env.pairlist_read filename = some users) :
    (∀ e ∈ (fastuser_getfile env inst filename none pair_list true).2.2 0,
      ∀ vp ∈ e.check, 0x100 ≤ vp.attr → vp.attr ≤ 0xffff → vp.operator ≠ T_OP_EQ) ∧
    (∀ D, (fastuser_getfile env inst filename (some default_list) (fun _ => []) false).2.1
        = some D →
      ∀ e ∈ D, ∀ vp ∈ e.check, 0x100 ≤ vp.attr → vp.attr ≤ 0xffff → vp.operator ≠ T_OP_EQ) ∧
    (∀ i : Int,
      ∀ e ∈ (fastuser_getfile env inst filename (some default_list) (fun _ => []) false).2.2 i,
      ∀ vp ∈ e.check, 0x100 ≤ vp.attr → vp.attr ≤ 0xffff → vp.operator ≠ T_OP_EQ) ∧
    (∀ vp : VALUE_PAIR, vp.operator = T_OP_EQ →
      (rewrite_check_pair env (decide (inst.compat_mode = "cistron")) vp).operator = T_OP_CMP_EQ ∨
      (rewrite_check_pair env (decide (inst.compat_mode = "cistron")) vp).operator = T_OP_ADD) := by
  have hc : decide (inst.compat_mode = "cistron") = true := decide_eq_true hmode
  have hrun := fastuser_getfile_loaded env inst filename default_list users hread
  rw [hc] at hrun
  refine ⟨?_, ?_, ?_, ?_⟩
  · intro e he vp hvp _ _
    rw [fastuser_getfile_acct env inst filename none pair_list users hread, hc] at he
    simp only [if_true] at he
    obtain ⟨e0, _, rfl⟩ := List.mem_map.1 he
    exact rewrite_entry_check_cistron env e0 vp hvp
  · intro D hDeq e he vp hvp _ _
    rw [hrun] at hDeq
    cases hDeq
    obtain ⟨e0, _, h0⟩ := loaded_entries_check env true none users e (List.mem_filter.1 he).1
    rw [h0] at hvp
    exact rewrite_entry_check_cistron env e0 vp hvp
  · intro i e he vp hvp _ _
    rw [hrun] at he
    obtain ⟨e0, _, h0⟩ := loaded_entries_check env true none users e (List.mem_filter.1 he).1
    rw [h0] at hvp
    exact rewrite_entry_check_cistron env e0 vp hvp
  · intro vp hop
    rw [hc]
    exact rewrite_check_pair_cistron_eq env vp hop

/-- C6, amended, witness: a file whose only entry checks a server-side
attribute with `=`, read in the mode `"cistron"`. -/
theorem fastuser_getfile_no_eq_cistron_witness :
    (∀ e ∈ (fastuser_getfile
        (example_env [⟨1, "bob", [⟨1000, T_OP_EQ, 1, ""⟩], [], 1, none⟩] [] false 0)
        (example_inst "cistron") "users" none (fun _ => []) true).2.2 0,
      ∀ vp ∈ e.check, 0x100 ≤ vp.attr → vp.attr ≤ 0xffff → vp.operator ≠ T_OP_EQ) ∧
    (∀ D, (fastuser_getfile
        (example_env [⟨1, "bob", [⟨1000, T_OP_EQ, 1, ""⟩], [], 1, none⟩] [] false 0)
        (example_inst "cistron") "users" (some []) (fun _ => []) false).2.1 = some D →
      ∀ e ∈ D, ∀ vp ∈ e.check, 0x100 ≤ vp.attr → vp.attr ≤ 0xffff → vp.operator ≠ T_OP_EQ) ∧
    (∀ i : Int,
      ∀ e ∈ (fastuser_getfile
        (example_env [⟨1, "bob", [⟨1000, T_OP_EQ, 1, ""⟩], [], 1, none⟩] [] false 0)
        (example_inst "cistron") "users" (some []) (fun _ => []) false).2.2 i,
      ∀ vp ∈ e.check, 0x100 ≤ vp.attr → vp.attr ≤ 0xffff → vp.operator ≠ T_OP_EQ) ∧
    (∀ vp : VALUE_PAIR, vp.operator = T_OP_EQ →
      (rewrite_check_pair
        (example_env [⟨1, "bob", [⟨1000, T_OP_EQ, 1, ""⟩], [], 1, none⟩] [] false 0)
        (decide ((example_inst "cistron").compat_mode = "cistron")) vp).operator
          = T_OP_CMP_EQ ∨
      (rewrite_check_pair
        (example_env [⟨1, "bob", [⟨1000, T_OP_EQ, 1, ""⟩], [], 1, none⟩] [] false 0)
        (decide ((example_inst "cistron").compat_mode = "cistron")) vp).operator
          = T_OP_ADD) :=
  fastuser_getfile_no_eq_cistron _ (example_inst "cistron") "users"
    [⟨1, "bob", [⟨1000, T_OP_EQ, 1, ""⟩], [], 1, none⟩] [] (fun _ => []) (by decide) (by decide)

/-- C6, counterexample. Read in a mode other than `"cistron"`, the check-pair
with attribute id 1000 and operator `EQ` of the entry `bob` is still `EQ` in
the chain of the table; and read in the mode `"cistron"`, a check-pair with
attribute id 1000 and operator `SET` keeps `SET`, which is neither `CMP_EQ`
nor `ADD`. -/
theorem fastuser_getfile_keeps_eq :
    ((fastuser_getfile
        (example_env [⟨1, "bob", [⟨1000, T_OP_EQ, 1, ""⟩], [], 1, none⟩] [] false 0)
        (example_inst "no") "users" (some []) (fun _ => []) false).2.2
      (fastuser_hash (cbytes "bob") 100000)).map PAIR_LIST.check
      = [[⟨1000, T_OP_EQ, 1, ""⟩]] ∧
    ((fastuser_getfile
        (example_env [⟨1, "bob", [⟨1000, T_OP_SET, 1, ""⟩], [], 1, none⟩] [] false 0)
        (example_inst "cistron") "users" (some []) (fun _ => []) false).2.2
      (fastuser_hash (cbytes "bob") 100000)).map PAIR_LIST.check
      = [[⟨1000, T_OP_SET, 1, ""⟩]] := by
  decide

/-! ## `fastuser_find` -/

theorem fastuser_find_cons_accept (env : Env) (rq : REQUEST) (name : String) (cur : PAIR_LIST)
    (next : List PAIR_LIST) (h : accepts env rq name cur) :
    fastuser_find env rq (cur :: next) name = cur :: next := by
  obtain ⟨h1, h2, h3⟩ := h
  unfold fastuser_find
  rw [if_pos ⟨h1, h2⟩]
  by_cases hc : env.do_usercollide = true
  · rw [if_pos hc, if_neg (h3 hc)]
  · rw [if_neg hc]

theorem fastuser_find_cons_reject (env : Env) (rq : REQUEST) (name : String) (cur : PAIR_LIST)
    (next : List PAIR_LIST) (h : ¬ accepts env rq name cur) :
    fastuser_find env rq (cur :: next) name = fastuser_find env rq next name := by
  conv_lhs => unfold fastuser_find
  by_cases h12 : cur.name = name ∧ env.paircmp rq.packet_vps cur.check rq.reply_vps = 0
  · rw [if_pos h12]
    by_cases hc : env.do_usercollide = true
    · rw [if_pos hc]
      by_cases hp : fastuser_passcheck env rq cur name = 0
      · rw [if_pos hp]
      · exact absurd ⟨h12.1, h12.2, fun _ => hp⟩ h
    · exact absurd ⟨h12.1, h12.2, fun h' => absurd h' hc⟩ h
  · rw [if_neg h12]

theorem fastuser_find_nil (env : Env) (rq : REQUEST) (name : String) :
    fastuser_find env rq [] name = [] := rfl

theorem fastuser_find_length_le (env : Env) (rq : REQUEST) (name : String)
    (l : List PAIR_LIST) : (fastuser_find env rq l name).length ≤ l.length := by
  induction l with
  | nil => exact le_refl _
  | cons cur next ih =>
    by_cases h : accepts env rq name cur
    · rw [fastuser_find_cons_accept env rq name cur next h]
    · rw [fastuser_find_cons_reject env rq name cur next h]
      exact le_trans ih (Nat.le_succ _)

theorem fastuser_find_eq_nil_iff (env : Env) (rq : REQUEST) (name : String)
    (l : List PAIR_LIST) :
    fastuser_find env rq l name = [] ↔ ∀ e ∈ l, ¬ accepts env rq name e := by
  induction l with
  | nil => simp [fastuser_find_nil]
  | cons cur next ih =>
    by_cases h : accepts env rq name cur
    · rw [fastuser_find_cons_accept env rq name cur next h]
      constructor
      · intro h'; cases h'
      · intro h'; exact absurd h (h' cur (List.mem_cons_self _ _))
    · rw [fastuser_find_cons_reject env rq name cur next h, ih]
      constructor
      · intro h' e he
        rcases List.mem_cons.1 he with rfl | he'
        · exact h
        · exact h' e he'
      · intro h' e he
        exact h' e (List.mem_cons_of_mem _ he)

theorem fastuser_find_head_accepts (env : Env) (rq : REQUEST) (name : String)
    (l : List PAIR_LIST) (u : PAIR_LIST) (rest : List PAIR_LIST)
    (h : fastuser_find env rq l name = u :: rest) : accepts env rq name u ∧ u ∈ l := by
  induction l with
  | nil => cases h
  | cons cur next ih =>
    by_cases hacc : accepts env rq name cur
    · rw [fastuser_find_cons_accept env rq name cur next hacc] at h
      cases h
      exact ⟨hacc, List.mem_cons_self _ _⟩
    · rw [fastuser_find_cons_reject env rq name cur next hacc] at h
      exact ⟨(ih h).1, List.mem_cons_of_mem _ (ih h).2⟩

/-! ## The inner loop and the walk -/

theorem anchor_loop_nil (env : Env) (name : String) (uf : Bool) (d : PAIR_LIST) (n : Nat)
    (st : auth_state) (h : st.user = []) :
    anchor_loop env name uf d n st = Sum.inr st := by
  cases n with
  | zero => rfl
  | succ n => simp [anchor_loop, h]

theorem anchor_loop_skip (env : Env) (name : String) (uf : Bool) (d : PAIR_LIST) (n : Nat)
    (st : auth_state) (u : PAIR_LIST) (next : List PAIR_LIST) (h : st.user = u :: next)
    (hc : ¬ (uf = true ∧ some d.addr = u.lastdefault)) :
    anchor_loop env name uf d n st = Sum.inr st := by
  cases n with
  | zero => rfl
  | succ n => simp only [anchor_loop, h, if_neg hc]

theorem anchor_loop_return (env : Env) (name : String) (uf : Bool) (d : PAIR_LIST) (n : Nat)
    (st : auth_state) (u : PAIR_LIST) (next : List PAIR_LIST) (h : st.user = u :: next)
    (hc : uf = true ∧ some d.addr = u.lastdefault) (hft : fallthrough env u.reply = 0) :
    anchor_loop env name uf d (n + 1) st =
      Sum.inl (return_updated env (merge_pairs env st.request u) (st.merged ++ [u])) := by
  simp only [anchor_loop, h, if_pos hc, if_pos hft]

theorem anchor_loop_step (env : Env) (name : String) (uf : Bool) (d : PAIR_LIST) (n : Nat)
    (st : auth_state) (u : PAIR_LIST) (next : List PAIR_LIST) (h : st.user = u :: next)
    (hc : uf = true ∧ some d.addr = u.lastdefault) (hft : fallthrough env u.reply ≠ 0) :
    anchor_loop env name uf d (n + 1) st =
      anchor_loop env name uf d n
        { request := merge_pairs env st.request u
          user := fastuser_find env (merge_pairs env st.request u) next name
          merged := st.merged ++ [u] } := by
  simp only [anchor_loop, h, if_pos hc, if_neg hft]

/-- The bound on the iterations of the inner loop is enough: any bound not
below the length of the chain behind `user` gives the same result. -/
theorem anchor_loop_fuel (env : Env) (name : String) (uf : Bool) (d : PAIR_LIST) (n m : Nat)
    (st : auth_state) (hn : st.user.length ≤ n) (hm : st.user.length ≤ m) :
    anchor_loop env name uf d n st = anchor_loop env name uf d m st := by
  induction n generalizing m st with
  | zero =>
    have h0 : st.user = [] := List.length_eq_zero.1 (Nat.le_zero.1 hn)
    rw [anchor_loop_nil env name uf d 0 st h0, anchor_loop_nil env name uf d m st h0]
  | succ n ih =>
    cases hu : st.user with
    | nil => rw [anchor_loop_nil env name uf d _ st hu, anchor_loop_nil env name uf d m st hu]
    | cons u next =>
      by_cases hc : uf = true ∧ some d.addr = u.lastdefault
      · cases m with
        | zero => rw [hu] at hm; simp at hm
        | succ m =>
          by_cases hft : fallthrough env u.reply = 0
          · rw [anchor_loop_return env name uf d n st u next hu hc hft,
              anchor_loop_return env name uf d m st u next hu hc hft]
          · rw [anchor_loop_step env name uf d n st u next hu hc hft,
              anchor_loop_step env name uf d m st u next hu hc hft]
            have hlen := fastuser_find_length_le env (merge_pairs env st.request u) name next
            rw [hu] at hn hm
            simp only [List.length_cons] at hn hm
            exact ih m _ (by simp only; omega) (by simp only; omega)
      · rw [anchor_loop_skip env name uf d _ st u next hu hc,
          anchor_loop_skip env name uf d m st u next hu hc]

theorem defaults_walk_cons (env : Env) (name : String) (uf : Bool) (d : PAIR_LIST)
    (next : List PAIR_LIST) (df : Bool) (st : auth_state) :
    defaults_walk env name uf (d :: next) df st =
      if env.paircmp st.request.packet_vps d.check st.request.reply_vps = 0 then
        if fallthrough env d.reply = 0 then
          final_verdict env uf true
            { st with request := merge_pairs env st.request d, merged := st.merged ++ [d] }
        else
          resume_walk env name uf d next true
            { st with request := merge_pairs env st.request d, merged := st.merged ++ [d] }
      else
        if fallthrough env d.reply = 0 then final_verdict env uf df st
        else resume_walk env name uf d next df st := by
  by_cases hm : env.paircmp st.request.packet_vps d.check st.request.reply_vps = 0
  · by_cases hft : fallthrough env d.reply = 0
    · simp [defaults_walk, hm, hft]
    · simp only [defaults_walk, hm, hft, decide_True, if_true, if_false, resume_walk]
  · by_cases hft : fallthrough env d.reply = 0
    · simp [defaults_walk, hm, hft]
    · simp only [defaults_walk, hm, hft, decide_False, if_false, resume_walk]
      simp

theorem fastuser_authorize_no_reload (env : Env) (inst : fastuser_instance) (rq : REQUEST)
    (h : ¬ (inst.hash_reload ≠ 0 ∧ rq.timestamp > inst.next_reload)) :
    fastuser_authorize env inst rq = some (inst, authorize_search env inst rq) := by
  unfold fastuser_authorize
  rw [if_neg h]

/-! ## The instance after a build -/

theorem fastuser_buildhash_loaded (env : Env) (inst : fastuser_instance)
    (users : List PAIR_LIST) (hread : env.pairlist_read inst.usersfile = some users)
    (hok : (fastuser_buildhash env inst).1 = 0) :
    (fastuser_buildhash env inst).2.hashtable =
      (fun i => (loaded_entries env (decide (inst.compat_mode = "cistron")) none users).filter
        (fun e => e.name ≠ "DEFAULT" ∧ fastuser_hash (cbytes e.name) inst.hashsize = i)) ∧
    (fastuser_buildhash env inst).2.defaults =
      (loaded_entries env (decide (inst.compat_mode = "cistron")) none users).filter
        (fun e => e.name = "DEFAULT") ∧
    (fastuser_buildhash env inst).2.hashsize = inst.hashsize ∧
    (fastuser_buildhash env inst).2.hash_reload = inst.hash_reload ∧
    (fastuser_buildhash env inst).2.next_reload = inst.next_reload := by
  unfold fastuser_buildhash at hok ⊢
  by_cases hm : env.malloc_ok = true
  · simp only [hm, Bool.not_true, Bool.false_eq_true, if_false] at hok ⊢
    by_cases ha : (fastuser_getfile env inst inst.acctusersfile none
        (fun _ => inst.acctusers) true).1 ≠ 0
    · rw [if_pos ha] at hok
      simp at hok
    · rw [if_neg ha] at hok ⊢
      have hg := fastuser_getfile_loaded env
        { inst with acctusers := (fastuser_getfile env inst inst.acctusersfile none
            (fun _ => inst.acctusers) true).2.2 0 } inst.usersfile [] users hread
      simp only at hg
      rw [hg]
      simp
  · simp [hm] at hok

/-! ## One turn of the walk, and the search before it -/

theorem resume_walk_skip (env : Env) (name : String) (uf : Bool) (d : PAIR_LIST)
    (D : List PAIR_LIST) (df : Bool) (st : auth_state) (u : PAIR_LIST) (next : List PAIR_LIST)
    (h : st.user = u :: next) (hc : ¬ (uf = true ∧ some d.addr = u.lastdefault)) :
    resume_walk env name uf d D df st = defaults_walk env name uf D df st := by
  unfold resume_walk
  rw [anchor_loop_skip env name uf d _ st u next h hc]

theorem resume_walk_return (env : Env) (name : String) (uf : Bool) (d : PAIR_LIST)
    (D : List PAIR_LIST) (df : Bool) (st : auth_state) (u : PAIR_LIST) (next : List PAIR_LIST)
    (h : st.user = u :: next) (hc : uf = true ∧ some d.addr = u.lastdefault)
    (hft : fallthrough env u.reply = 0) :
    resume_walk env name uf d D df st =
      return_updated env (merge_pairs env st.request u) (st.merged ++ [u]) := by
  unfold resume_walk
  have hlen : st.user.length = next.length + 1 := by rw [h]; rfl
  rw [hlen, anchor_loop_return env name uf d _ st u next h hc hft]

theorem resume_walk_step (env : Env) (name : String) (uf : Bool) (d : PAIR_LIST)
    (D : List PAIR_LIST) (df : Bool) (st : auth_state) (u : PAIR_LIST) (next : List PAIR_LIST)
    (h : st.user = u :: next) (hc : uf = true ∧ some d.addr = u.lastdefault)
    (hft : fallthrough env u.reply ≠ 0) :
    resume_walk env name uf d D df st =
      resume_walk env name uf d D df
        { request := merge_pairs env st.request u
          user := fastuser_find env (merge_pairs env st.request u) next name
          merged := st.merged ++ [u] } := by
  unfold resume_walk
  have hlen : st.user.length = next.length + 1 := by rw [h]; rfl
  rw [hlen, anchor_loop_step env name uf d _ st u next h hc hft]
  rw [anchor_loop_fuel env name uf d next.length
    (fastuser_find env (merge_pairs env st.request u) next name).length _
    (fastuser_find_length_le env _ name next) (le_refl _)]

theorem authorize_search_nil (env : Env) (inst : fastuser_instance) (rq : REQUEST)
    (h : fastuser_find env rq
      (inst.hashtable (fastuser_hash (cbytes (request_name rq)) inst.hashsize))
      (request_name rq) = []) :
    authorize_search env inst rq =
      defaults_walk env (request_name rq) false inst.defaults false
        { request := rq, user := [], merged := [] } := by
  unfold authorize_search
  simp only [h]
  rfl

theorem authorize_search_anchored (env : Env) (inst : fastuser_instance) (rq : REQUEST)
    (u : PAIR_LIST) (rest : List PAIR_LIST)
    (h : fastuser_find env rq
      (inst.hashtable (fastuser_hash (cbytes (request_name rq)) inst.hashsize))
      (request_name rq) = u :: rest)
    (hld : u.lastdefault ≠ none) :
    authorize_search env inst rq =
      defaults_walk env (request_name rq) true inst.defaults false
        { request := rq, user := u :: rest, merged := [] } := by
  unfold authorize_search
  simp only [h]
  rw [if_neg (fun hc => hld hc.2)]
  rfl

theorem authorize_search_first (env : Env) (inst : fastuser_instance) (rq : REQUEST)
    (u : PAIR_LIST) (rest : List PAIR_LIST)
    (h : fastuser_find env rq
      (inst.hashtable (fastuser_hash (cbytes (request_name rq)) inst.hashsize))
      (request_name rq) = u :: rest)
    (hld : u.lastdefault = none) :
    authorize_search env inst rq =
      if fallthrough env u.reply = 0 then return_updated env (merge_pairs env rq u) [u]
      else
        defaults_walk env (request_name rq) true inst.defaults false
          { request := merge_pairs env rq u
            user := fastuser_find env (merge_pairs env rq u) rest (request_name rq)
            merged := [u] } := by
  unfold authorize_search
  simp only [h]
  rw [if_pos ⟨rfl, hld⟩]
  rfl

theorem fastuser_find_first (env : Env) (rq : REQUEST) (name : String)
    (pre rest : List PAIR_LIST) (u : PAIR_LIST)
    (hpre : ∀ e ∈ pre, ¬ accepts env rq name e) (hacc : accepts env rq name u) :
    fastuser_find env rq (pre ++ u :: rest) name = u :: rest := by
  induction pre with
  | nil => exact fastuser_find_cons_accept env rq name u rest hacc
  | cons e es ih =>
    rw [List.cons_append, fastuser_find_cons_reject env rq name e _
      (hpre e (List.mem_cons_self _ _))]
    exact ih (fun x hx => hpre x (List.mem_cons_of_mem _ hx))

/-! ## The verdict -/

theorem anchor_loop_inl_rcode (env : Env) (name : String) (uf : Bool) (d : PAIR_LIST) (n : Nat)
    (st : auth_state) (r : auth_result) (h : anchor_loop env name uf d n st = Sum.inl r) :
    r.rcode = RLM_MODULE_UPDATED := by
  induction n generalizing st with
  | zero => cases h
  | succ n ih =>
    cases hu : st.user with
    | nil => rw [anchor_loop_nil env name uf d _ st hu] at h; cases h
    | cons u next =>
      by_cases hc : uf = true ∧ some d.addr = u.lastdefault
      · by_cases hft : fallthrough env u.reply = 0
        · rw [anchor_loop_return env name uf d n st u next hu hc hft] at h
          cases h
          rfl
        · rw [anchor_loop_step env name uf d n st u next hu hc hft] at h
          exact ih _ h
      · rw [anchor_loop_skip env name uf d _ st u next hu hc] at h
        cases h

theorem defaults_walk_rcode_found (env : Env) (name : String) (D : List PAIR_LIST)
    (df : Bool) (st : auth_state) :
    (defaults_walk env name true D df st).rcode = RLM_MODULE_UPDATED := by
  induction D generalizing df st with
  | nil => simp [defaults_walk, final_verdict, return_updated]
  | cons d next ih =>
    rw [defaults_walk_cons]
    have hres : ∀ df2 st2, (resume_walk env name true d next df2 st2).rcode
        = RLM_MODULE_UPDATED := by
      intro df2 st2
      unfold resume_walk
      cases hrun : anchor_loop env name true d st2.user.length st2 with
      | inl r => exact anchor_loop_inl_rcode env name true d _ st2 r hrun
      | inr st3 => exact ih df2 st3
    split_ifs
    · simp [final_verdict, return_updated]
    · exact hres _ _
    · simp [final_verdict, return_updated]
    · exact hres _ _

theorem resume_walk_no_user (env : Env) (name : String) (uf : Bool) (d : PAIR_LIST)
    (next : List PAIR_LIST) (df : Bool) (st : auth_state) (h : st.user = []) :
    resume_walk env name uf d next df st = defaults_walk env name uf next df st := by
  unfold resume_walk
  rw [anchor_loop_nil env name uf d _ st h]

theorem defaults_walk_rcode_cases (env : Env) (name : String) (uf : Bool) (D : List PAIR_LIST)
    (df : Bool) (st : auth_state) :
    (defaults_walk env name uf D df st).rcode = RLM_MODULE_UPDATED ∨
    (defaults_walk env name uf D df st).rcode = RLM_MODULE_NOTFOUND := by
  induction D generalizing df st with
  | nil =>
    unfold defaults_walk final_verdict
    split_ifs
    · exact Or.inl rfl
    · exact Or.inr rfl
  | cons d next ih =>
    rw [defaults_walk_cons]
    have hres : ∀ df2 st2, (resume_walk env name uf d next df2 st2).rcode
          = RLM_MODULE_UPDATED ∨
        (resume_walk env name uf d next df2 st2).rcode = RLM_MODULE_NOTFOUND := by
      intro df2 st2
      unfold resume_walk
      cases hrun : anchor_loop env name uf d st2.user.length st2 with
      | inl r => exact Or.inl (anchor_loop_inl_rcode env name uf d _ st2 r hrun)
      | inr st3 => exact ih df2 st3
    have hfin : ∀ df2 st2, (final_verdict env uf df2 st2).rcode = RLM_MODULE_UPDATED ∨
        (final_verdict env uf df2 st2).rcode = RLM_MODULE_NOTFOUND := by
      intro df2 st2
      unfold final_verdict
      split_ifs
      · exact Or.inl rfl
      · exact Or.inr rfl
    split_ifs
    · exact hfin _ _
    · exact hres _ _
    · exact hfin _ _
    · exact hres _ _

theorem defaults_walk_notfound_iff (env : Env) (name : String) (D : List PAIR_LIST)
    (df : Bool) (rq : REQUEST) (m : List PAIR_LIST) :
    (defaults_walk env name false D df { request := rq, user := [], merged := m }).rcode
        = RLM_MODULE_NOTFOUND ↔
      (df = false ∧ ∀ d ∈ visited_defaults env D,
        env.paircmp rq.packet_vps d.check rq.reply_vps ≠ 0) := by
  induction D generalizing df rq m with
  | nil =>
    cases df <;> simp [defaults_walk, final_verdict, return_updated, visited_defaults]
  | cons d next ih =>
    rw [defaults_walk_cons]
    by_cases hm : env.paircmp rq.packet_vps d.check rq.reply_vps = 0
    · have hmem : d ∈ visited_defaults env (d :: next) := by
        unfold visited_defaults
        split_ifs <;> exact List.mem_cons_self _ _
      have hrhs : ¬ (df = false ∧ ∀ x ∈ visited_defaults env (d :: next),
          env.paircmp rq.packet_vps x.check rq.reply_vps ≠ 0) :=
        fun h => h.2 d hmem hm
      simp only [hm, if_true]
      by_cases hft : fallthrough env d.reply = 0
      · rw [if_pos hft]
        simp [final_verdict, return_updated, hrhs]
      · rw [if_neg hft, resume_walk_no_user env name false d next true _ rfl]
        have h2 := ih true (merge_pairs env rq d) (m ++ [d])
        simp only [Bool.true_eq_false, false_and, iff_false] at h2
        simp [h2, hrhs]
    · simp only [hm, if_false]
      by_cases hft : fallthrough env d.reply = 0
      · rw [if_pos hft]
        cases df <;> simp [final_verdict, return_updated, visited_defaults, hft, hm]
      · rw [if_neg hft, resume_walk_no_user env name false d next df _ rfl, ih df rq m]
        simp [visited_defaults, hft, hm]

/-- C3. When the first accepted entry `u` of the chain of the username has a
null `lastdefault` and a reply without fall-through marker, and no reload is
due, `fastuser_authorize` returns `RLM_MODULE_UPDATED` having merged `u`
and nothing else: the check set is the old one with the check-pairs of `u`
moved in, the reply set the old one with the reply-pairs of `u` moved in and
the marker deleted. The default chain plays no part. -/
theorem authorize_user_before_default (env : Env) (inst : fastuser_instance) (rq : REQUEST)
    (pre rest : List PAIR_LIST) (u : PAIR_LIST)
    (hreload : ¬ (inst.hash_reload ≠ 0 ∧ rq.timestamp > inst.next_reload))
    (hchain : inst.hashtable (fastuser_hash (cbytes (request_name rq)) inst.hashsize)
      = pre ++ u :: rest)
    (hpre : ∀ e ∈ pre, ¬ accepts env rq (request_name rq) e)
    (hacc : accepts env rq (request_name rq) u)
    (hld : u.lastdefault = none) (hft : fallthrough env u.reply = 0) :
    ∃ res, fastuser_authorize env inst rq = some (inst, res) ∧
      res.rcode = RLM_MODULE_UPDATED ∧ res.merged = [u] ∧
      res.request.config_items = env.pairmove rq.config_items u.check ∧
      res.request.reply_vps =
        env.pairdelete (env.pairmove rq.reply_vps u.reply) env.PW_FALL_THROUGH := by
  refine ⟨authorize_search env inst rq, fastuser_authorize_no_reload env inst rq hreload, ?_⟩
  have hfind := fastuser_find_first env rq (request_name rq) pre rest u hpre hacc
  unfold authorize_search
  simp only [hchain, hfind, hld, hft]
  simp [return_updated, merge_pairs]

/-- C3, witness: the file with the single entry `bob` and a request of
`bob`. -/
theorem authorize_user_before_default_witness :
    ∃ res, fastuser_authorize (example_env file_single_user [] false 0)
        (fastuser_buildhash (example_env file_single_user [] false 0)
          (example_inst "cistron")).2 (example_request "bob")
        = some ((fastuser_buildhash (example_env file_single_user [] false 0)
          (example_inst "cistron")).2, res) ∧
      res.rcode = RLM_MODULE_UPDATED ∧
      res.merged = [⟨1, "bob", [check_item 1], [reply_item 1], 1, none⟩] ∧
      res.request.config_items =
        (example_env file_single_user [] false 0).pairmove
          (example_request "bob").config_items [check_item 1] ∧
      res.request.reply_vps =
        (example_env file_single_user [] false 0).pairdelete
          ((example_env file_single_user [] false 0).pairmove
            (example_request "bob").reply_vps [reply_item 1])
          (example_env file_single_user [] false 0).PW_FALL_THROUGH :=
  authorize_user_before_default (example_env file_single_user [] false 0)
    (fastuser_buildhash (example_env file_single_user [] false 0) (example_inst "cistron")).2
    (example_request "bob") [] [] ⟨1, "bob", [check_item 1], [reply_item 1], 1, none⟩
    (by decide) (by decide) (by decide) (by decide) (by decide) (by decide)

/-- C4. With no reload due, `fastuser_authorize` returns
`RLM_MODULE_NOTFOUND` exactly when no entry of the chain of the username is
accepted by the matching predicate and no default entry visited by the walk
has check-pairs that match the request; otherwise it returns
`RLM_MODULE_UPDATED`. In particular it returns `RLM_MODULE_NOTFOUND` when
there is no default entry and no entry of the chain bears the username. -/
theorem authorize_notfound_iff (env : Env) (inst : fastuser_instance) (rq : REQUEST)
    (hreload : ¬ (inst.hash_reload ≠ 0 ∧ rq.timestamp > inst.next_reload)) :
    ∃ res, fastuser_authorize env inst rq = some (inst, res) ∧
      (res.rcode = RLM_MODULE_NOTFOUND ↔
        ((∀ e ∈ inst.hashtable (fastuser_hash (cbytes (request_name rq)) inst.hashsize),
            ¬ accepts env rq (request_name rq) e) ∧
          ∀ d ∈ visited_defaults env inst.defaults,
            env.paircmp rq.packet_vps d.check rq.reply_vps ≠ 0)) ∧
      (res.rcode ≠ RLM_MODULE_NOTFOUND → res.rcode = RLM_MODULE_UPDATED) ∧
      (inst.defaults = [] →
        (∀ e ∈ inst.hashtable (fastuser_hash (cbytes (request_name rq)) inst.hashsize),
          e.name ≠ request_name rq) →
        res.rcode = RLM_MODULE_NOTFOUND) := by
  refine ⟨authorize_search env inst rq, fastuser_authorize_no_reload env inst rq hreload, ?_⟩
  have hmain : ((authorize_search env inst rq).rcode = RLM_MODULE_NOTFOUND ↔
        ((∀ e ∈ inst.hashtable (fastuser_hash (cbytes (request_name rq)) inst.hashsize),
            ¬ accepts env rq (request_name rq) e) ∧
          ∀ d ∈ visited_defaults env inst.defaults,
            env.paircmp rq.packet_vps d.check rq.reply_vps ≠ 0)) ∧
      ((authorize_search env inst rq).rcode ≠ RLM_MODULE_NOTFOUND →
        (authorize_search env inst rq).rcode = RLM_MODULE_UPDATED) := by
    cases hfind : fastuser_find env rq
        (inst.hashtable (fastuser_hash (cbytes (request_name rq)) inst.hashsize))
        (request_name rq) with
    | nil =>
      have hnone := (fastuser_find_eq_nil_iff env rq (request_name rq) _).1 hfind
      rw [authorize_search_nil env inst rq hfind]
      constructor
      · rw [defaults_walk_notfound_iff]
        constructor
        · intro h; exact ⟨hnone, h.2⟩
        · intro h; exact ⟨rfl, h.2⟩
      · intro hne
        rcases defaults_walk_rcode_cases env (request_name rq) false inst.defaults false
          { request := rq, user := [], merged := [] } with h | h
        · exact h
        · exact absurd h hne
    | cons u rest =>
      have hacc := fastuser_find_head_accepts env rq (request_name rq) _ u rest hfind
      have hup : (authorize_search env inst rq).rcode = RLM_MODULE_UPDATED := by
        by_cases hld : u.lastdefault = none
        · rw [authorize_search_first env inst rq u rest hfind hld]
          split_ifs
          · rfl
          · exact defaults_walk_rcode_found env _ _ _ _
        · rw [authorize_search_anchored env inst rq u rest hfind hld]
          exact defaults_walk_rcode_found env _ _ _ _
      rw [hup]
      constructor
      · constructor
        · intro h; cases h
        · intro h; exact absurd hacc.1 (h.1 u hacc.2)
      · intro _; rfl
  refine ⟨hmain.1, hmain.2, ?_⟩
  intro hD hnames
  rw [hmain.1, hD]
  refine ⟨fun e he hacc => hnames e he hacc.1, ?_⟩
  intro d hd
  cases hd

/-- C4, witness: the file with the single entry `bob` and a request of
`alice`. -/
theorem authorize_notfound_iff_witness :
    ∃ res, fastuser_authorize (example_env file_single_user [] false 0)
        (fastuser_buildhash (example_env file_single_user [] false 0)
          (example_inst "cistron")).2 (example_request "alice")
        = some ((fastuser_buildhash (example_env file_single_user [] false 0)
          (example_inst "cistron")).2, res) ∧
      (res.rcode = RLM_MODULE_NOTFOUND ↔
        ((∀ e ∈ (fastuser_buildhash (example_env file_single_user [] false 0)
              (example_inst "cistron")).2.hashtable
            (fastuser_hash (cbytes (request_name (example_request "alice")))
              (fastuser_buildhash (example_env file_single_user [] false 0)
                (example_inst "cistron")).2.hashsize),
            ¬ accepts (example_env file_single_user [] false 0) (example_request "alice")
              (request_name (example_request "alice")) e) ∧
          ∀ d ∈ visited_defaults (example_env file_single_user [] false 0)
              (fastuser_buildhash (example_env file_single_user [] false 0)
                (example_inst "cistron")).2.defaults,
            (example_env file_single_user [] false 0).paircmp
              (example_request "alice").packet_vps d.check
              (example_request "alice").reply_vps ≠ 0)) ∧
      (res.rcode ≠ RLM_MODULE_NOTFOUND → res.rcode = RLM_MODULE_UPDATED) ∧
      ((fastuser_buildhash (example_env file_single_user [] false 0)
          (example_inst "cistron")).2.defaults = [] →
        (∀ e ∈ (fastuser_buildhash (example_env file_single_user [] false 0)
              (example_inst "cistron")).2.hashtable
            (fastuser_hash (cbytes (request_name (example_request "alice")))
              (fastuser_buildhash (example_env file_single_user [] false 0)
                (example_inst "cistron")).2.hashsize),
          e.name ≠ request_name (example_request "alice")) →
        res.rcode = RLM_MODULE_NOTFOUND) :=
  authorize_notfound_iff (example_env file_single_user [] false 0)
    (fastuser_buildhash (example_env file_single_user [] false 0) (example_inst "cistron")).2
    (example_request "alice") (by decide)

/-! ## The two scenarios of the specification -/

theorem bob_ne_default : ¬ ("bob" = "DEFAULT") := by decide

/-- C2, amended. For the file DEFAULT `A` (fall-through), user `bob` (no
fall-through), DEFAULT `B`, loaded by `fastuser_buildhash`, and a request of
`bob` that satisfies the check-pairs of `A` and of the entry of `bob` and,
in credential-collision mode, passes the password verification for that
entry, `fastuser_authorize` returns `RLM_MODULE_UPDATED` and merges `A`
and then `bob`, and nothing of `B`, whatever `B` holds: the check items
handed back are the incoming ones with the check items of `A` and then of
`bob` moved in, and the reply items are the incoming ones with the reply
items of `A` and then of `bob` moved in and the fall-through marker
deleted. -/
theorem authorize_default_then_user (env : Env) (inst : fastuser_instance) (rq : REQUEST)
    (A bob B : PAIR_LIST)
    (hread : env.pairlist_read inst.usersfile = some [A, bob, B])
    (hok : (fastuser_buildhash env inst).1 = 0)
    (hreload : ¬ (inst.hash_reload ≠ 0 ∧ rq.timestamp > inst.next_reload))
    (hA : A.name = "DEFAULT") (hbob : bob.name = "bob") (hB : B.name = "DEFAULT")
    (hftA : fallthrough env A.reply ≠ 0) (hftbob : fallthrough env bob.reply = 0)
    (hname : request_name rq = "bob")
    (hsatA : env.paircmp rq.packet_vps
      (rewrite_check env (decide (inst.compat_mode = "cistron")) A.check) rq.reply_vps = 0)
    (hsatbob : env.paircmp rq.packet_vps
      (rewrite_check env (decide (inst.compat_mode = "cistron")) bob.check) rq.reply_vps = 0)
    (hpw : env.do_usercollide = true →
      env.rad_check_password { rq with
        config_items := rewrite_check env (decide (inst.compat_mode = "cistron")) bob.check }
        = 0) :
    ∃ res, fastuser_authorize env (fastuser_buildhash env inst).2 rq
        = some ((fastuser_buildhash env inst).2, res) ∧
      res.rcode = RLM_MODULE_UPDATED ∧
      res.merged =
        [rewrite_entry env (decide (inst.compat_mode = "cistron")) A,
         set_lastdefault (rewrite_entry env (decide (inst.compat_mode = "cistron")) bob)
           (some A.addr)] ∧
      res.request.config_items =
        env.pairmove
          (env.pairmove rq.config_items
            (rewrite_check env (decide (inst.compat_mode = "cistron")) A.check))
          (rewrite_check env (decide (inst.compat_mode = "cistron")) bob.check) ∧
      res.request.reply_vps =
        env.pairdelete (env.pairmove (env.pairmove rq.reply_vps A.reply) bob.reply)
          env.PW_FALL_THROUGH := by
  obtain ⟨hT, hD, hhs, hhr, hnr⟩ := fastuser_buildhash_loaded env inst [A, bob, B] hread hok
  have hreload2 : ¬ ((fastuser_buildhash env inst).2.hash_reload ≠ 0 ∧
      rq.timestamp > (fastuser_buildhash env inst).2.next_reload) := by
    rw [hhr, hnr]; exact hreload
  refine ⟨_, fastuser_authorize_no_reload env _ rq hreload2, ?_⟩
  have hacc : accepts env rq "bob"
      (set_lastdefault (rewrite_entry env (decide (inst.compat_mode = "cistron")) bob)
        (some A.addr)) := by
    refine ⟨hbob, hsatbob, ?_⟩
    intro hc
    unfold fastuser_passcheck
    have := hpw hc
    simp only [set_lastdefault_check, rewrite_entry_check, this, if_true]
    decide
  have hchain : (fastuser_buildhash env inst).2.hashtable
      (fastuser_hash (cbytes (request_name rq)) (fastuser_buildhash env inst).2.hashsize) =
      [set_lastdefault (rewrite_entry env (decide (inst.compat_mode = "cistron")) bob)
        (some A.addr)] := by
    rw [hT, hhs, hname]
    simp [loaded_entries, hA, hbob, hB, bob_ne_default]
  have hdefs : (fastuser_buildhash env inst).2.defaults =
      [rewrite_entry env (decide (inst.compat_mode = "cistron")) A,
       rewrite_entry env (decide (inst.compat_mode = "cistron")) B] := by
    rw [hD]
    simp [loaded_entries, hA, hbob, hB, bob_ne_default]
  have hfind : fastuser_find env rq ((fastuser_buildhash env inst).2.hashtable
      (fastuser_hash (cbytes (request_name rq)) (fastuser_buildhash env inst).2.hashsize))
      (request_name rq) = [set_lastdefault
        (rewrite_entry env (decide (inst.compat_mode = "cistron")) bob) (some A.addr)] := by
    rw [hchain, hname]
    exact fastuser_find_cons_accept env rq "bob" _ [] hacc
  rw [authorize_search_anchored env _ rq _ [] hfind (by simp), hdefs, defaults_walk_cons]
  have hsatA' : env.paircmp rq.packet_vps
      (rewrite_entry env (decide (inst.compat_mode = "cistron")) A).check rq.reply_vps = 0 :=
    hsatA
  have hftA' : fallthrough env
      (rewrite_entry env (decide (inst.compat_mode = "cistron")) A).reply ≠ 0 := hftA
  simp only [hsatA', if_true, if_neg hftA']
  rw [resume_walk_return env _ true
    (rewrite_entry env (decide (inst.compat_mode = "cistron")) A) _ true _
    (set_lastdefault (rewrite_entry env (decide (inst.compat_mode = "cistron")) bob)
      (some A.addr)) [] rfl ⟨rfl, rfl⟩ hftbob]
  simp [return_updated, merge_pairs]

/-- C2, amended, witness: the file of the second scenario and a request of
`bob`. -/
theorem authorize_default_then_user_witness :
    ∃ res, fastuser_authorize (example_env file_default_user_default [] false 0)
        (fastuser_buildhash (example_env file_default_user_default [] false 0)
          (example_inst "cistron")).2 (example_request "bob")
        = some ((fastuser_buildhash (example_env file_default_user_default [] false 0)
          (example_inst "cistron")).2, res) ∧
      res.rcode = RLM_MODULE_UPDATED ∧
      res.merged =
        [rewrite_entry (example_env file_default_user_default [] false 0)
          (decide ((example_inst "cistron").compat_mode = "cistron"))
          ⟨1, "DEFAULT", [check_item 1], [reply_item 1, fall_through_yes], 1, none⟩,
         set_lastdefault (rewrite_entry (example_env file_default_user_default [] false 0)
          (decide ((example_inst "cistron").compat_mode = "cistron"))
          ⟨2, "bob", [check_item 1], [reply_item 2], 3, none⟩)
           (some (PAIR_LIST.addr
             ⟨1, "DEFAULT", [check_item 1], [reply_item 1, fall_through_yes], 1, none⟩))] ∧
      res.request.config_items =
        (example_env file_default_user_default [] false 0).pairmove
          ((example_env file_default_user_default [] false 0).pairmove
            (example_request "bob").config_items
            (rewrite_check (example_env file_default_user_default [] false 0)
              (decide ((example_inst "cistron").compat_mode = "cistron"))
              (PAIR_LIST.check
                ⟨1, "DEFAULT", [check_item 1], [reply_item 1, fall_through_yes], 1, none⟩)))
          (rewrite_check (example_env file_default_user_default [] false 0)
            (decide ((example_inst "cistron").compat_mode = "cistron"))
            (PAIR_LIST.check ⟨2, "bob", [check_item 1], [reply_item 2], 3, none⟩)) ∧
      res.request.reply_vps =
        (example_env file_default_user_default [] false 0).pairdelete
          ((example_env file_default_user_default [] false 0).pairmove
            ((example_env file_default_user_default [] false 0).pairmove
              (example_request "bob").reply_vps
              (PAIR_LIST.reply
                ⟨1, "DEFAULT", [check_item 1], [reply_item 1, fall_through_yes], 1, none⟩))
            (PAIR_LIST.reply ⟨2, "bob", [check_item 1], [reply_item 2], 3, none⟩))
          (example_env file_default_user_default [] false 0).PW_FALL_THROUGH :=
  authorize_default_then_user (example_env file_default_user_default [] false 0)
    (example_inst "cistron") (example_request "bob")
    ⟨1, "DEFAULT", [check_item 1], [reply_item 1, fall_through_yes], 1, none⟩
    ⟨2, "bob", [check_item 1], [reply_item 2], 3, none⟩
    ⟨3, "DEFAULT", [check_item 1], [reply_item 3], 5, none⟩
    (by decide) (by decide) (by decide) (by decide) (by decide) (by decide) (by decide)
    (by decide) (by decide) (by decide) (by decide) (by decide)

/-- C2, counterexample. The file is `DEFAULT` (address 1, fall-through),
user `bob` (address 2, no fall-through), `DEFAULT` (address 3, no
fall-through); credential-collision mode is on and the password verification
fails. The request of `bob` satisfies the check-pairs of all three entries,
yet `fastuser_find` passes over the entry of `bob`, and `fastuser_authorize`
returns `RLM_MODULE_UPDATED` having merged the two `DEFAULT` entries, at
the addresses 1 and 3, and not the entry of `bob`. -/
theorem authorize_default_user_default_password :
    (example_env file_default_user_default [] true 1).do_usercollide = true ∧
    (∀ e ∈ file_default_user_default,
      (example_env file_default_user_default [] true 1).paircmp
        (example_request "bob").packet_vps e.check [] = 0) ∧
    fastuser_find (example_env file_default_user_default [] true 1) (example_request "bob")
      ((fastuser_buildhash (example_env file_default_user_default [] true 1)
        (example_inst "cistron")).2.hashtable (fastuser_hash (cbytes "bob") 100000)) "bob"
      = [] ∧
    (fastuser_authorize (example_env file_default_user_default [] true 1)
        (fastuser_buildhash (example_env file_default_user_default [] true 1)
          (example_inst "cistron")).2 (example_request "bob")).map
      (fun r => (r.2.rcode, r.2.merged.map PAIR_LIST.addr, r.2.request.reply_vps))
      = some (RLM_MODULE_UPDATED, [1, 3], [reply_item 1, reply_item 3]) := by
  decide

theorem final_verdict_merged (env : Env) (uf df : Bool) (st : auth_state) :
    (final_verdict env uf df st).merged = st.merged := by
  unfold final_verdict
  split_ifs <;> rfl

theorem merge_pairs_packet (env : Env) (rq : REQUEST) (e : PAIR_LIST) :
    (merge_pairs env rq e).packet_vps = rq.packet_vps := rfl

theorem accepts_congr (env : Env) (rq1 rq2 : REQUEST) (name : String) (e : PAIR_LIST)
    (hcol : env.do_usercollide = false)
    (hpure : ∀ q ch r1 r2, env.paircmp q ch r1 = env.paircmp q ch r2)
    (hpk : rq1.packet_vps = rq2.packet_vps) :
    accepts env rq1 name e ↔ accepts env rq2 name e := by
  unfold accepts
  rw [hpk, hpure rq2.packet_vps e.check rq1.reply_vps rq2.reply_vps, hcol]
  simp

theorem fastuser_find_congr (env : Env) (rq1 rq2 : REQUEST) (name : String)
    (l : List PAIR_LIST) (hcol : env.do_usercollide = false)
    (hpure : ∀ q ch r1 r2, env.paircmp q ch r1 = env.paircmp q ch r2)
    (hpk : rq1.packet_vps = rq2.packet_vps) :
    fastuser_find env rq1 l name = fastuser_find env rq2 l name := by
  induction l with
  | nil => rfl
  | cons cur next ih =>
    by_cases h : accepts env rq2 name cur
    · rw [fastuser_find_cons_accept env rq2 name cur next h,
        fastuser_find_cons_accept env rq1 name cur next
          ((accepts_congr env rq1 rq2 name cur hcol hpure hpk).2 h)]
    · rw [fastuser_find_cons_reject env rq2 name cur next h,
        fastuser_find_cons_reject env rq1 name cur next
          (fun h' => h ((accepts_congr env rq1 rq2 name cur hcol hpure hpk).1 h'))]
      exact ih

theorem chain_of_cons_default (hs : Int) (name : String) (e : PAIR_LIST)
    (S : List PAIR_LIST) (hd : e.name = "DEFAULT") :
    chain_of hs name (e :: S) = chain_of hs name S := by
  unfold chain_of
  rw [List.filter_cons_of_neg]
  simp [hd]

theorem defaults_of_cons_default (e : PAIR_LIST) (S : List PAIR_LIST)
    (hd : e.name = "DEFAULT") : defaults_of (e :: S) = e :: defaults_of S := by
  unfold defaults_of
  rw [List.filter_cons_of_pos]
  simp [hd]

theorem defaults_of_cons_named (e : PAIR_LIST) (S : List PAIR_LIST)
    (hd : e.name ≠ "DEFAULT") : defaults_of (e :: S) = defaults_of S := by
  unfold defaults_of
  rw [List.filter_cons_of_neg]
  simp [hd]

theorem mem_chain_of (hs : Int) (name : String) (S : List PAIR_LIST) (x : PAIR_LIST)
    (h : x ∈ chain_of hs name S) : x ∈ S ∧ x.name ≠ "DEFAULT" := by
  unfold chain_of at h
  have h2 := List.mem_filter.1 h
  exact ⟨h2.1, (of_decide_eq_true h2.2).1⟩

theorem find_chain_cons_accept (env : Env) (rq : REQUEST) (hs : Int) (name : String)
    (e : PAIR_LIST) (S : List PAIR_LIST) (hd : e.name ≠ "DEFAULT")
    (hacc : accepts env rq name e) :
    fastuser_find env rq (chain_of hs name (e :: S)) name = e :: chain_of hs name S := by
  have hin : chain_of hs name (e :: S) = e :: chain_of hs name S := by
    unfold chain_of
    rw [List.filter_cons_of_pos]
    have hn := hacc.1
    exact decide_eq_true ⟨hd, by rw [hn]⟩
  rw [hin]
  exact fastuser_find_cons_accept env rq name e _ hacc

theorem find_chain_cons_reject (env : Env) (rq : REQUEST) (hs : Int) (name : String)
    (e : PAIR_LIST) (S : List PAIR_LIST) (hacc : ¬ accepts env rq name e) :
    fastuser_find env rq (chain_of hs name (e :: S)) name =
      fastuser_find env rq (chain_of hs name S) name := by
  by_cases hin : (decide (e.name ≠ "DEFAULT" ∧
      fastuser_hash (cbytes e.name) hs = fastuser_hash (cbytes name) hs)) = true
  · have h1 : chain_of hs name (e :: S) = e :: chain_of hs name S := by
      unfold chain_of
      exact List.filter_cons_of_pos hin
    rw [h1]
    exact fastuser_find_cons_reject env rq name e _ hacc
  · have h1 : chain_of hs name (e :: S) = chain_of hs name S := by
      unfold chain_of
      exact List.filter_cons_of_neg hin
    rw [h1]

theorem loaded_lastdefault (env : Env) (c : Bool) (ld : Option Nat) (raw : List PAIR_LIST)
    (x : PAIR_LIST) (hx : x ∈ loaded_entries env c ld raw) (hn : x.name ≠ "DEFAULT") :
    x.lastdefault = ld ∨ ∃ y ∈ raw, x.lastdefault = some y.addr := by
  induction raw generalizing ld with
  | nil => cases hx
  | cons e es ih =>
    by_cases hd : e.name = "DEFAULT"
    · rw [loaded_entries_cons_default env c ld e es hd] at hx
      rcases List.mem_cons.1 hx with rfl | hx'
      · exact absurd hd hn
      · rcases ih (some e.addr) hx' with h | ⟨y, hy, h⟩
        · exact Or.inr ⟨e, List.mem_cons_self _ _, h⟩
        · exact Or.inr ⟨y, List.mem_cons_of_mem _ hy, h⟩
    · rw [loaded_entries_cons_named env c ld e es hd] at hx
      rcases List.mem_cons.1 hx with rfl | hx'
      · exact Or.inl rfl
      · rcases ih ld hx' with h | ⟨y, hy, h⟩
        · exact Or.inl h
        · exact Or.inr ⟨y, List.mem_cons_of_mem _ hy, h⟩

theorem resume_walk_pass (env : Env) (name : String) (uf : Bool) (d : PAIR_LIST)
    (D : List PAIR_LIST) (df : Bool) (st : auth_state)
    (h : ∀ u next, st.user = u :: next → some d.addr ≠ u.lastdefault) :
    resume_walk env name uf d D df st = defaults_walk env name uf D df st := by
  cases hu : st.user with
  | nil => exact resume_walk_no_user env name uf d D df st hu
  | cons u next =>
    exact resume_walk_skip env name uf d D df st u next hu (fun hc => h u next hu hc.2)

theorem sequential_pass_cons_skip (env : Env) (rq : REQUEST) (name : String) (e : PAIR_LIST)
    (S : List PAIR_LIST)
    (h : ¬ ((e.name = name ∨ e.name = "DEFAULT") ∧
      env.paircmp rq.packet_vps e.check rq.reply_vps = 0)) :
    sequential_pass env rq name (e :: S) = sequential_pass env rq name S := by
  conv_lhs => unfold sequential_pass
  by_cases h1 : e.name = name ∨ e.name = "DEFAULT"
  · rw [if_pos h1, if_neg (fun h2 => h ⟨h1, h2⟩)]
  · rw [if_neg h1]

theorem sequential_pass_cons_stop (env : Env) (rq : REQUEST) (name : String) (e : PAIR_LIST)
    (S : List PAIR_LIST) (h1 : e.name = name ∨ e.name = "DEFAULT")
    (h2 : env.paircmp rq.packet_vps e.check rq.reply_vps = 0)
    (hft : fallthrough env e.reply = 0) :
    sequential_pass env rq name (e :: S) = [e] := by
  conv_lhs => unfold sequential_pass
  rw [if_pos h1, if_pos h2, if_pos hft]

theorem sequential_pass_cons_go (env : Env) (rq : REQUEST) (name : String) (e : PAIR_LIST)
    (S : List PAIR_LIST) (h1 : e.name = name ∨ e.name = "DEFAULT")
    (h2 : env.paircmp rq.packet_vps e.check rq.reply_vps = 0)
    (hft : fallthrough env e.reply ≠ 0) :
    sequential_pass env rq name (e :: S) = e :: sequential_pass env rq name S := by
  conv_lhs => unfold sequential_pass
  rw [if_pos h1, if_pos h2, if_neg hft]

theorem walk_at_default (env : Env) (name : String) (rq : REQUEST)
    (hpure : ∀ q ch r1 r2, env.paircmp q ch r1 = env.paircmp q ch r2)
    (d : PAIR_LIST) (S : List PAIR_LIST) (uf df : Bool) (rq1 : REQUEST)
    (m user : List PAIR_LIST)
    (hd : d.name = "DEFAULT") (hpk : rq1.packet_vps = rq.packet_vps)
    (hdef : fallthrough env d.reply = 0 → env.paircmp rq.packet_vps d.check rq.reply_vps = 0)
    (hrest : ∀ (df2 : Bool) (rq2 : REQUEST) (m2 : List PAIR_LIST),
      rq2.packet_vps = rq.packet_vps →
      (resume_walk env name uf d (defaults_of S) df2
        { request := rq2, user := user, merged := m2 }).merged =
        m2 ++ sequential_pass env rq name S) :
    (defaults_walk env name uf (d :: defaults_of S) df
      { request := rq1, user := user, merged := m }).merged =
      m ++ sequential_pass env rq name (d :: S) := by
  rw [defaults_walk_cons]
  have hcmp : env.paircmp rq1.packet_vps d.check rq1.reply_vps =
      env.paircmp rq.packet_vps d.check rq.reply_vps := by
    rw [hpk]; exact hpure _ _ _ _
  simp only [hcmp]
  by_cases hm : env.paircmp rq.packet_vps d.check rq.reply_vps = 0
  · rw [if_pos hm]
    by_cases hft : fallthrough env d.reply = 0
    · rw [if_pos hft, final_verdict_merged,
        sequential_pass_cons_stop env rq name d S (Or.inr hd) hm hft]
    · rw [if_neg hft, sequential_pass_cons_go env rq name d S (Or.inr hd) hm hft,
        hrest true (merge_pairs env rq1 d) (m ++ [d]) hpk]
      simp
  · rw [if_neg hm]
    have hft : fallthrough env d.reply ≠ 0 := fun h => hm (hdef h)
    rw [if_neg hft, sequential_pass_cons_skip env rq name d S (fun h => hm h.2),
      hrest df rq1 m hpk]

theorem resume_walk_merged (env : Env) (c : Bool) (hs : Int) (name : String) (rq : REQUEST)
    (uf : Bool) (hcol : env.do_usercollide = false)
    (hpure : ∀ q ch r1 r2, env.paircmp q ch r1 = env.paircmp q ch r2)
    (raw : List PAIR_LIST) :
    ∀ (d : PAIR_LIST) (df : Bool) (rq1 : REQUEST) (m : List PAIR_LIST),
      rq1.packet_vps = rq.packet_vps →
      d.addr ∉ raw.map PAIR_LIST.addr →
      (raw.map PAIR_LIST.addr).Nodup →
      (∀ x ∈ raw, x.name = "DEFAULT" → fallthrough env x.reply = 0 →
        env.paircmp rq.packet_vps (rewrite_check env c x.check) rq.reply_vps = 0) →
      (∀ x ∈ chain_of hs name (loaded_entries env c (some d.addr) raw),
        accepts env rq name x → uf = true) →
      (resume_walk env name uf d (defaults_of (loaded_entries env c (some d.addr) raw)) df
        { request := rq1
          user := fastuser_find env rq
            (chain_of hs name (loaded_entries env c (some d.addr) raw)) name
          merged := m }).merged =
        m ++ sequential_pass env rq name (loaded_entries env c (some d.addr) raw) := by
  induction raw with
  | nil =>
    intro d df rq1 m _ _ _ _ _
    rw [resume_walk_no_user env name uf d _ df _ rfl]
    simp [loaded_entries, defaults_of, defaults_walk, final_verdict_merged, sequential_pass]
  | cons e es ih =>
    intro d df rq1 m hpk hdn hnd hdef huf
    have hdn' : d.addr ∉ es.map PAIR_LIST.addr := fun h =>
      hdn (by rw [List.map_cons]; exact List.mem_cons_of_mem _ h)
    have hde : d.addr ≠ e.addr := fun h =>
      hdn (by rw [List.map_cons, h]; exact List.mem_cons_self _ _)
    rw [List.map_cons, List.nodup_cons] at hnd
    have hdef' : ∀ x ∈ es, x.name = "DEFAULT" → fallthrough env x.reply = 0 →
        env.paircmp rq.packet_vps (rewrite_check env c x.check) rq.reply_vps = 0 :=
      fun x hx => hdef x (List.mem_cons_of_mem _ hx)
    by_cases hd : e.name = "DEFAULT"
    · -- a default: the inner loop at `d` passes, the walk moves on to it
      rw [loaded_entries_cons_default env c _ e es hd,
        chain_of_cons_default hs name _ _ (by simpa using hd),
        defaults_of_cons_default _ _ (by simpa using hd)]
      have hpass : ∀ u next,
          fastuser_find env rq
            (chain_of hs name (loaded_entries env c (some e.addr) es)) name = u :: next →
          some d.addr ≠ u.lastdefault := by
        intro u next hu hc
        have hmem := (fastuser_find_head_accepts env rq name _ u next hu).2
        obtain ⟨hin, hnd'⟩ := mem_chain_of hs name _ u hmem
        rcases loaded_lastdefault env c _ es u hin hnd' with h | ⟨y, hy, h⟩
        · rw [h] at hc
          exact hde (Option.some.inj hc)
        · rw [h] at hc
          exact hdn' (by rw [Option.some.inj hc]; exact List.mem_map_of_mem _ hy)
      rw [resume_walk_pass env name uf d _ df _ hpass]
      apply walk_at_default env name rq hpure (rewrite_entry env c e) _ uf df rq1 m _
        (by simpa using hd) hpk
      · intro hft
        exact hdef e (List.mem_cons_self _ _) hd hft
      · intro df2 rq2 m2 hpk2
        exact ih (rewrite_entry env c e) df2 rq2 m2 hpk2 hnd.1 hnd.2 hdef'
          (fun x hx hacc => huf x (by
            rw [loaded_entries_cons_default env c _ e es hd,
              chain_of_cons_default hs name _ _ (by simpa using hd)]
            exact hx) hacc)
    · -- a named entry, anchored at `d`
      rw [loaded_entries_cons_named env c _ e es hd,
        defaults_of_cons_named _ _ (by simpa using hd)]
      have hufes : ∀ x ∈ chain_of hs name (loaded_entries env c (some d.addr) es),
          accepts env rq name x → uf = true := by
        intro x hx hacc
        apply huf x _ hacc
        rw [loaded_entries_cons_named env c _ e es hd]
        unfold chain_of at hx ⊢
        exact List.mem_filter.2 ⟨List.mem_cons_of_mem _ (List.mem_filter.1 hx).1,
          (List.mem_filter.1 hx).2⟩
      by_cases hacc : accepts env rq name (set_lastdefault (rewrite_entry env c e) (some d.addr))
      · have hfind := find_chain_cons_accept env rq hs name _
          (loaded_entries env c (some d.addr) es) (by simpa using hd) hacc
        rw [hfind]
        have hufT : uf = true := by
          apply huf _ _ hacc
          rw [loaded_entries_cons_named env c _ e es hd]
          exact (fastuser_find_head_accepts env rq name _ _ _ hfind).2
        have hrel : (set_lastdefault (rewrite_entry env c e) (some d.addr)).name = name ∨
            (set_lastdefault (rewrite_entry env c e) (some d.addr)).name = "DEFAULT" :=
          Or.inl hacc.1
        by_cases hft : fallthrough env
            (set_lastdefault (rewrite_entry env c e) (some d.addr)).reply = 0
        · rw [resume_walk_return env name uf d _ df _ _ _ rfl ⟨hufT, rfl⟩ hft,
            sequential_pass_cons_stop env rq name _ _ hrel hacc.2.1 hft]
          rfl
        · rw [resume_walk_step env name uf d _ df _ _ _ rfl ⟨hufT, rfl⟩ hft,
            sequential_pass_cons_go env rq name _ _ hrel hacc.2.1 hft]
          simp only
          rw [fastuser_find_congr env (merge_pairs env rq1 _) rq name _ hcol hpure
            (by rw [merge_pairs_packet]; exact hpk),
            ih d df _ (m ++ [_]) (by rw [merge_pairs_packet]; exact hpk) hdn' hnd.2 hdef' hufes]
          simp
      · rw [find_chain_cons_reject env rq hs name _ _ hacc,
          sequential_pass_cons_skip env rq name _ _ (by
            rintro ⟨h1 | h1, h2⟩
            · exact hacc ⟨h1, h2, fun h => by rw [hcol] at h; cases h⟩
            · exact hd h1)]
        exact ih d df rq1 m hpk hdn' hnd.2 hdef' hufes

theorem accepts_set_lastdefault (env : Env) (rq : REQUEST) (name : String) (x : PAIR_LIST)
    (ld : Option Nat) :
    accepts env rq name (set_lastdefault x ld) ↔ accepts env rq name x := Iff.rfl

theorem defaults_walk_at_default (env : Env) (c : Bool) (hs : Int) (name : String)
    (rq : REQUEST) (uf : Bool) (hcol : env.do_usercollide = false)
    (hpure : ∀ q ch r1 r2, env.paircmp q ch r1 = env.paircmp q ch r2)
    (e : PAIR_LIST) (es : List PAIR_LIST) (ld : Option Nat) (df : Bool) (rq1 : REQUEST)
    (m : List PAIR_LIST) (hd : e.name = "DEFAULT")
    (hpk : rq1.packet_vps = rq.packet_vps)
    (hnd : ((e :: es).map PAIR_LIST.addr).Nodup)
    (hdef : ∀ x ∈ e :: es, x.name = "DEFAULT" → fallthrough env x.reply = 0 →
      env.paircmp rq.packet_vps (rewrite_check env c x.check) rq.reply_vps = 0)
    (huf : ∀ x ∈ chain_of hs name (loaded_entries env c ld (e :: es)),
      accepts env rq name x → uf = true) :
    (defaults_walk env name uf (defaults_of (loaded_entries env c ld (e :: es))) df
      { request := rq1
        user := fastuser_find env rq (chain_of hs name (loaded_entries env c ld (e :: es))) name
        merged := m }).merged =
      m ++ sequential_pass env rq name (loaded_entries env c ld (e :: es)) := by
  rw [List.map_cons, List.nodup_cons] at hnd
  have huf' : ∀ x ∈ chain_of hs name (loaded_entries env c (some e.addr) es),
      accepts env rq name x → uf = true := by
    intro x hx hacc
    apply huf x _ hacc
    rw [loaded_entries_cons_default env c _ e es hd,
      chain_of_cons_default hs name _ _ (by simpa using hd)]
    exact hx
  rw [loaded_entries_cons_default env c _ e es hd,
    chain_of_cons_default hs name _ _ (by simpa using hd),
    defaults_of_cons_default _ _ (by simpa using hd)]
  apply walk_at_default env name rq hpure (rewrite_entry env c e) _ uf df rq1 m _
    (by simpa using hd) hpk
  · intro hft
    exact hdef e (List.mem_cons_self _ _) hd hft
  · intro df2 rq2 m2 hpk2
    exact resume_walk_merged env c hs name rq uf hcol hpure es (rewrite_entry env c e)
      df2 rq2 m2 hpk2 hnd.1 hnd.2 (fun x hx => hdef x (List.mem_cons_of_mem _ hx)) huf'

theorem defaults_walk_merged (env : Env) (c : Bool) (hs : Int) (name : String)
    (rq : REQUEST) (uf : Bool) (hcol : env.do_usercollide = false)
    (hpure : ∀ q ch r1 r2, env.paircmp q ch r1 = env.paircmp q ch r2)
    (raw : List PAIR_LIST) :
    ∀ (df : Bool) (rq1 : REQUEST) (m : List PAIR_LIST),
      rq1.packet_vps = rq.packet_vps →
      (raw.map PAIR_LIST.addr).Nodup →
      (∀ x ∈ raw, x.name = "DEFAULT" → fallthrough env x.reply = 0 →
        env.paircmp rq.packet_vps (rewrite_check env c x.check) rq.reply_vps = 0) →
      (∀ x ∈ chain_of hs name (loaded_entries env c none raw),
        accepts env rq name x → uf = true) →
      (∀ x ∈ raw.takeWhile (fun e => e.name ≠ "DEFAULT"),
        ¬ accepts env rq name (rewrite_entry env c x)) →
      (defaults_walk env name uf (defaults_of (loaded_entries env c none raw)) df
        { request := rq1
          user := fastuser_find env rq (chain_of hs name (loaded_entries env c none raw)) name
          merged := m }).merged =
        m ++ sequential_pass env rq name (loaded_entries env c none raw) := by
  induction raw with
  | nil =>
    intro df rq1 m _ _ _ _ _
    simp [loaded_entries, defaults_of, defaults_walk, final_verdict_merged, sequential_pass]
  | cons e es ih =>
    intro df rq1 m hpk hnd hdef huf hpre
    by_cases hd : e.name = "DEFAULT"
    · exact defaults_walk_at_default env c hs name rq uf hcol hpure e es none df rq1 m hd hpk
        hnd hdef huf
    · have hnacc : ¬ accepts env rq name (set_lastdefault (rewrite_entry env c e) none) := by
        apply hpre e
        rw [List.takeWhile_cons_of_pos (by simpa using hd)]
        exact List.mem_cons_self _ _
      rw [List.map_cons, List.nodup_cons] at hnd
      rw [loaded_entries_cons_named env c _ e es hd,
        defaults_of_cons_named _ _ (by simpa using hd),
        find_chain_cons_reject env rq hs name _ _ hnacc,
        sequential_pass_cons_skip env rq name _ _ (by
          rintro ⟨h1 | h1, h2⟩
          · exact hnacc ⟨h1, h2, fun h => by rw [hcol] at h; cases h⟩
          · exact hd h1)]
      apply ih df rq1 m hpk hnd.2 (fun x hx => hdef x (List.mem_cons_of_mem _ hx))
      · intro x hx hacc
        apply huf x _ hacc
        rw [loaded_entries_cons_named env c _ e es hd]
        unfold chain_of at hx ⊢
        exact List.mem_filter.2 ⟨List.mem_cons_of_mem _ (List.mem_filter.1 hx).1,
          (List.mem_filter.1 hx).2⟩
      · intro x hx
        apply hpre x
        rw [List.takeWhile_cons_of_pos (by simpa using hd)]
        exact List.mem_cons_of_mem _ hx

theorem authorize_search_congr (env : Env) (inst inst2 : fastuser_instance) (rq : REQUEST)
    (hfind : fastuser_find env rq
        (inst.hashtable (fastuser_hash (cbytes (request_name rq)) inst.hashsize))
        (request_name rq) =
      fastuser_find env rq
        (inst2.hashtable (fastuser_hash (cbytes (request_name rq)) inst2.hashsize))
        (request_name rq))
    (hdefs : inst.defaults = inst2.defaults) :
    authorize_search env inst rq = authorize_search env inst2 rq := by
  cases h2 : fastuser_find env rq
      (inst2.hashtable (fastuser_hash (cbytes (request_name rq)) inst2.hashsize))
      (request_name rq) with
  | nil =>
    rw [authorize_search_nil env inst rq (hfind.trans h2), authorize_search_nil env inst2 rq h2,
      hdefs]
  | cons u rest =>
    by_cases hld : u.lastdefault = none
    · rw [authorize_search_first env inst rq u rest (hfind.trans h2) hld,
        authorize_search_first env inst2 rq u rest h2 hld, hdefs]
    · rw [authorize_search_anchored env inst rq u rest (hfind.trans h2) hld,
        authorize_search_anchored env inst2 rq u rest h2 hld, hdefs]

theorem authorize_search_merged (env : Env) (c : Bool) (rq : REQUEST)
    (hcol : env.do_usercollide = false)
    (hpure : ∀ q ch r1 r2, env.paircmp q ch r1 = env.paircmp q ch r2)
    (raw : List PAIR_LIST) :
    ∀ (inst : fastuser_instance),
      inst.hashtable (fastuser_hash (cbytes (request_name rq)) inst.hashsize) =
        chain_of inst.hashsize (request_name rq) (loaded_entries env c none raw) →
      inst.defaults = defaults_of (loaded_entries env c none raw) →
      (raw.map PAIR_LIST.addr).Nodup →
      (∀ x ∈ raw, x.name = "DEFAULT" → fallthrough env x.reply = 0 →
        env.paircmp rq.packet_vps (rewrite_check env c x.check) rq.reply_vps = 0) →
      ((raw.takeWhile (fun e => e.name ≠ "DEFAULT")).filter
        (fun e => decide (accepts env rq (request_name rq) (rewrite_entry env c e)))).length
          ≤ 1 →
      (authorize_search env inst rq).merged =
        sequential_pass env rq (request_name rq) (loaded_entries env c none raw) := by
  induction raw with
  | nil =>
    intro inst hT hD _ _ _
    have hfind : fastuser_find env rq
        (inst.hashtable (fastuser_hash (cbytes (request_name rq)) inst.hashsize))
        (request_name rq) = [] := by
      rw [hT]; rfl
    rw [authorize_search_nil env inst rq hfind, hD]
    simp [loaded_entries, defaults_of, defaults_walk, final_verdict_merged, sequential_pass]
  | cons e es ih =>
    intro inst hT hD hnd hdef hone
    by_cases hd : e.name = "DEFAULT"
    · -- the file starts with a default: every user entry is anchored
      cases hf : fastuser_find env rq
          (chain_of inst.hashsize (request_name rq) (loaded_entries env c none (e :: es)))
          (request_name rq) with
      | nil =>
        have hfind : fastuser_find env rq
            (inst.hashtable (fastuser_hash (cbytes (request_name rq)) inst.hashsize))
            (request_name rq) = [] := by
          rw [hT]; exact hf
        rw [authorize_search_nil env inst rq hfind, hD]
        have hnone := (fastuser_find_eq_nil_iff env rq (request_name rq) _).1 hf
        have hw := defaults_walk_at_default env c inst.hashsize (request_name rq) rq false
          hcol hpure e es none false rq [] hd rfl hnd hdef
          (fun x hx hacc => absurd hacc (hnone x hx))
        rw [hf] at hw
        rw [hw, List.nil_append]
      | cons u rest =>
        have hfind : fastuser_find env rq
            (inst.hashtable (fastuser_hash (cbytes (request_name rq)) inst.hashsize))
            (request_name rq) = u :: rest := by
          rw [hT]; exact hf
        have hld : u.lastdefault ≠ none := by
          have hmem := (fastuser_find_head_accepts env rq (request_name rq) _ u rest hf).2
          obtain ⟨hin, hn⟩ := mem_chain_of _ _ _ u hmem
          rw [loaded_entries_cons_default env c _ e es hd] at hin
          rcases List.mem_cons.1 hin with rfl | hin'
          · exact absurd (by simpa using hd) hn
          · rcases loaded_lastdefault env c _ es u hin' hn with h | ⟨y, _, h⟩
            · rw [h]; simp
            · rw [h]; simp
        rw [authorize_search_anchored env inst rq u rest hfind hld, hD]
        have hw := defaults_walk_at_default env c inst.hashsize (request_name rq) rq true
          hcol hpure e es none false rq [] hd rfl hnd hdef (fun _ _ _ => rfl)
        rw [hf] at hw
        rw [hw, List.nil_append]
    · have hnd' := hnd
      rw [List.map_cons, List.nodup_cons] at hnd'
      have hdef' : ∀ x ∈ es, x.name = "DEFAULT" → fallthrough env x.reply = 0 →
          env.paircmp rq.packet_vps (rewrite_check env c x.check) rq.reply_vps = 0 :=
        fun x hx => hdef x (List.mem_cons_of_mem _ hx)
      rw [List.takeWhile_cons_of_pos (by simpa using hd)] at hone
      by_cases hacc : accepts env rq (request_name rq) (rewrite_entry env c e)
      · -- the first accepted entry, before any default
        rw [List.filter_cons_of_pos (by simpa using hacc)] at hone
        have hpre : ∀ x ∈ es.takeWhile (fun e => e.name ≠ "DEFAULT"),
            ¬ accepts env rq (request_name rq) (rewrite_entry env c x) := by
          intro x hx hax
          have hmem : x ∈ (es.takeWhile (fun e => e.name ≠ "DEFAULT")).filter
              (fun e => decide (accepts env rq (request_name rq) (rewrite_entry env c e))) :=
            List.mem_filter.2 ⟨hx, by simpa using hax⟩
          have hlen := List.length_pos_of_mem hmem
          simp only [List.length_cons] at hone
          omega
        have hf := find_chain_cons_accept env rq inst.hashsize (request_name rq)
          (set_lastdefault (rewrite_entry env c e) none)
          (loaded_entries env c none es) (by simpa using hd) hacc
        have hfind : fastuser_find env rq
            (inst.hashtable (fastuser_hash (cbytes (request_name rq)) inst.hashsize))
            (request_name rq) = set_lastdefault (rewrite_entry env c e) none ::
              chain_of inst.hashsize (request_name rq) (loaded_entries env c none es) := by
          rw [hT, loaded_entries_cons_named env c _ e es hd]; exact hf
        have hrel : (set_lastdefault (rewrite_entry env c e) none).name = request_name rq ∨
            (set_lastdefault (rewrite_entry env c e) none).name = "DEFAULT" := Or.inl hacc.1
        rw [authorize_search_first env inst rq _ _ hfind rfl,
          loaded_entries_cons_named env c _ e es hd]
        by_cases hft : fallthrough env (set_lastdefault (rewrite_entry env c e) none).reply = 0
        · rw [if_pos hft, sequential_pass_cons_stop env rq _ _ _ hrel hacc.2.1 hft]
          rfl
        · rw [if_neg hft, sequential_pass_cons_go env rq _ _ _ hrel hacc.2.1 hft, hD,
            loaded_entries_cons_named env c _ e es hd,
            defaults_of_cons_named _ _ (by simpa using hd),
            fastuser_find_congr env (merge_pairs env rq _) rq _ _ hcol hpure
              (merge_pairs_packet env rq _),
            defaults_walk_merged env c inst.hashsize (request_name rq) rq true hcol hpure es
              false _ [_] (merge_pairs_packet env rq _) hnd'.2 hdef' (fun _ _ _ => rfl) hpre]
          rfl
      · -- an entry that is not accepted: the search goes past it
        rw [List.filter_cons_of_neg (by simpa using hacc)] at hone
        have hf := find_chain_cons_reject env rq inst.hashsize (request_name rq)
          (set_lastdefault (rewrite_entry env c e) none)
          (loaded_entries env c none es) hacc
        have hcongr := authorize_search_congr env inst
          { inst with
            hashtable := fun _ =>
              chain_of inst.hashsize (request_name rq) (loaded_entries env c none es)
            defaults := defaults_of (loaded_entries env c none es) } rq
          (by
            rw [hT, loaded_entries_cons_named env c _ e es hd]
            exact hf)
          (by
            rw [hD, loaded_entries_cons_named env c _ e es hd,
              defaults_of_cons_named _ _ (by simpa using hd)])
        rw [hcongr, loaded_entries_cons_named env c _ e es hd,
          sequential_pass_cons_skip env rq _ _ _ (by
            rintro ⟨h1 | h1, h2⟩
            · exact hacc ⟨h1, h2, fun h => by rw [hcol] at h; cases h⟩
            · exact hd h1)]
        exact ih _ rfl rfl hnd'.2 hdef' hone

theorem sequential_pass_addr (env : Env) (c : Bool) (rq : REQUEST) (name : String)
    (raw : List PAIR_LIST) (ld : Option Nat) :
    (sequential_pass env rq name (loaded_entries env c ld raw)).map PAIR_LIST.addr =
      (sequential_pass env rq name (raw.map (rewrite_entry env c))).map PAIR_LIST.addr := by
  induction raw generalizing ld with
  | nil => rfl
  | cons e es ih =>
    by_cases hd : e.name = "DEFAULT"
    · rw [loaded_entries_cons_default env c ld e es hd, List.map_cons]
      unfold sequential_pass
      split_ifs <;> simp [ih]
    · rw [loaded_entries_cons_named env c ld e es hd, List.map_cons]
      unfold sequential_pass
      simp only [set_lastdefault_name, set_lastdefault_check, set_lastdefault_reply]
      split_ifs <;> simp [ih]

/-- C5, amended. For a file loaded by `fastuser_buildhash` whose nodes have
distinct addresses, with credential-collision mode off and a comparison that
does not look at the reply list, when every `DEFAULT` entry without
fall-through marker matches the request and at most one entry accepted for
the username precedes the first `DEFAULT`, the entries merged by
`fastuser_authorize` over the table and the default chain are the entries
merged by the single sequential pass over the file-order list, in the same
order. -/
theorem authorize_eq_sequential_pass (env : Env) (inst : fastuser_instance) (rq : REQUEST)
    (users : List PAIR_LIST)
    (hread : env.pairlist_read inst.usersfile = some users)
    (hok : (fastuser_buildhash env inst).1 = 0)
    (hreload : ¬ (inst.hash_reload ≠ 0 ∧ rq.timestamp > inst.next_reload))
    (hnd : (users.map PAIR_LIST.addr).Nodup)
    (hcol : env.do_usercollide = false)
    (hpure : ∀ q ch r1 r2, env.paircmp q ch r1 = env.paircmp q ch r2)
    (hdef : ∀ d ∈ users, d.name = "DEFAULT" → fallthrough env d.reply = 0 →
      env.paircmp rq.packet_vps
        (rewrite_check env (decide (inst.compat_mode = "cistron")) d.check) rq.reply_vps = 0)
    (hone : ((users.takeWhile (fun e => e.name ≠ "DEFAULT")).filter
      (fun e => decide (e.name = request_name rq ∧
        env.paircmp rq.packet_vps
          (rewrite_check env (decide (inst.compat_mode = "cistron")) e.check)
          rq.reply_vps = 0))).length ≤ 1) :
    ∃ res, fastuser_authorize env (fastuser_buildhash env inst).2 rq
        = some ((fastuser_buildhash env inst).2, res) ∧
      res.merged = sequential_pass env rq (request_name rq)
        (loaded_entries env (decide (inst.compat_mode = "cistron")) none users) ∧
      res.merged.map PAIR_LIST.addr =
        (sequential_pass env rq (request_name rq)
          (users.map (rewrite_entry env (decide (inst.compat_mode = "cistron"))))).map
          PAIR_LIST.addr := by
  obtain ⟨hT, hD, hhs, hhr, hnr⟩ := fastuser_buildhash_loaded env inst users hread hok
  have hreload2 : ¬ ((fastuser_buildhash env inst).2.hash_reload ≠ 0 ∧
      rq.timestamp > (fastuser_buildhash env inst).2.next_reload) := by
    rw [hhr, hnr]; exact hreload
  refine ⟨_, fastuser_authorize_no_reload env _ rq hreload2, ?_⟩
  have hfilter : (users.takeWhile (fun e => e.name ≠ "DEFAULT")).filter
      (fun e => decide (accepts env rq (request_name rq)
        (rewrite_entry env (decide (inst.compat_mode = "cistron")) e))) =
      (users.takeWhile (fun e => e.name ≠ "DEFAULT")).filter
      (fun e => decide (e.name = request_name rq ∧
        env.paircmp rq.packet_vps
          (rewrite_check env (decide (inst.compat_mode = "cistron")) e.check)
          rq.reply_vps = 0)) := by
    apply List.filter_congr
    intro x _
    unfold accepts
    simp [hcol]
  have hmain := authorize_search_merged env (decide (inst.compat_mode = "cistron")) rq hcol
    hpure users (fastuser_buildhash env inst).2
    (by rw [hT, hhs]; rfl) (by rw [hD]; rfl) hnd hdef (by rw [hfilter]; exact hone)
  refine ⟨hmain, ?_⟩
  rw [hmain, sequential_pass_addr]

/-- C5, amended, witness: the file of the second scenario and a request of
`bob`. -/
theorem authorize_eq_sequential_pass_witness :
    ∃ res, fastuser_authorize (example_env file_default_user_default [] false 0)
        (fastuser_buildhash (example_env file_default_user_default [] false 0)
          (example_inst "cistron")).2 (example_request "bob")
        = some ((fastuser_buildhash (example_env file_default_user_default [] false 0)
          (example_inst "cistron")).2, res) ∧
      res.merged = sequential_pass (example_env file_default_user_default [] false 0)
        (example_request "bob") (request_name (example_request "bob"))
        (loaded_entries (example_env file_default_user_default [] false 0)
          (decide ((example_inst "cistron").compat_mode = "cistron")) none
          file_default_user_default) ∧
      res.merged.map PAIR_LIST.addr =
        (sequential_pass (example_env file_default_user_default [] false 0)
          (example_request "bob") (request_name (example_request "bob"))
          (file_default_user_default.map
            (rewrite_entry (example_env file_default_user_default [] false 0)
              (decide ((example_inst "cistron").compat_mode = "cistron"))))).map
          PAIR_LIST.addr :=
  authorize_eq_sequential_pass (example_env file_default_user_default [] false 0)
    (example_inst "cistron") (example_request "bob") file_default_user_default
    (by decide) (by decide) (by decide) (by decide) (by decide) (fun _ _ _ _ => rfl)
    (by decide) (by decide)

/-- C5, counterexample. Four runs in which `fastuser_authorize` and the
sequential pass merge different entries (given by their addresses), for a
request of `bob` with `NAS-Port = 1`: (1) a `DEFAULT` without fall-through
that does not match ends the walk, so `bob` behind it is not merged; (2) of
two entries of `bob` before any `DEFAULT` only the first is merged; (3) in
credential-collision mode an entry whose password step fails is not merged;
(4) with a comparison that looks at the reply list the `DEFAULT` is tested
against the reply list as it is after `bob` was merged. -/
theorem authorize_ne_sequential_pass :
    ((fastuser_authorize (example_env file_unmatched_default [] false 0)
        (fastuser_buildhash (example_env file_unmatched_default [] false 0)
          (example_inst "cistron")).2 (example_request "bob")).map
        (fun r => r.2.merged.map PAIR_LIST.addr) = some [] ∧
      (sequential_pass (example_env file_unmatched_default [] false 0)
        (example_request "bob") "bob"
        (file_unmatched_default.map
          (rewrite_entry (example_env file_unmatched_default [] false 0) true))).map
        PAIR_LIST.addr = [2]) ∧
    ((fastuser_authorize (example_env file_two_users [] false 0)
        (fastuser_buildhash (example_env file_two_users [] false 0)
          (example_inst "cistron")).2 (example_request "bob")).map
        (fun r => r.2.merged.map PAIR_LIST.addr) = some [1] ∧
      (sequential_pass (example_env file_two_users [] false 0)
        (example_request "bob") "bob"
        (file_two_users.map
          (rewrite_entry (example_env file_two_users [] false 0) true))).map
        PAIR_LIST.addr = [1, 2]) ∧
    ((fastuser_authorize (example_env file_single_user [] true (-1))
        (fastuser_buildhash (example_env file_single_user [] true (-1))
          (example_inst "cistron")).2 (example_request "bob")).map
        (fun r => r.2.merged.map PAIR_LIST.addr) = some [] ∧
      (sequential_pass (example_env file_single_user [] true (-1))
        (example_request "bob") "bob"
        (file_single_user.map
          (rewrite_entry (example_env file_single_user [] true (-1)) true))).map
        PAIR_LIST.addr = [1]) ∧
    ((fastuser_authorize (example_env_reply file_user_default)
        (fastuser_buildhash (example_env_reply file_user_default)
          (example_inst "cistron")).2 (example_request "bob")).map
        (fun r => r.2.merged.map PAIR_LIST.addr) = some [1] ∧
      (sequential_pass (example_env_reply file_user_default)
        (example_request "bob") "bob"
        (file_user_default.map
          (rewrite_entry (example_env_reply file_user_default) true))).map
        PAIR_LIST.addr = [1, 2]) := by
  decide

/-! ## The range of the hash -/

/-- C20. For a table size from 1 to `2 ^ 31 - 1` the `int` that
`fastuser_hash` returns is an index of the table, for every name; hence a
file read into an empty table leaves every cell outside the table empty. -/
theorem fastuser_hash_in_bounds (s : List Nat) (hashtablesize : Int)
    (hpos : 0 < hashtablesize) (hle : hashtablesize ≤ 2 ^ 31 - 1) :
    0 ≤ fastuser_hash s hashtablesize ∧ fastuser_hash s hashtablesize < hashtablesize ∧
    ∀ (env : Env) (inst : fastuser_instance) (filename : String)
      (default_list users : List PAIR_LIST),
      inst.hashsize = hashtablesize → env.pairlist_read filename = some users →
      ∀ i : Int, i < 0 ∨ hashtablesize ≤ i →
        (fastuser_getfile env inst filename (some default_list) (fun _ => []) false).2.2 i
          = [] := by
  have hbound : ∀ t : List Nat, 0 ≤ fastuser_hash t hashtablesize ∧
      fastuser_hash t hashtablesize < hashtablesize := by
    intro t
    unfold fastuser_hash
    rw [to_ulong_of_range _ (le_of_lt hpos) (by omega)]
    have hn : (hashtablesize.toNat : Int) = hashtablesize := Int.toNat_of_nonneg (le_of_lt hpos)
    have hnpos : 0 < hashtablesize.toNat := by omega
    have hlt := Nat.mod_lt (hash_loop 0 t) hnpos
    rw [to_int_of_lt _ (by omega)]
    constructor
    · exact Int.natCast_nonneg _
    · omega
  refine ⟨(hbound s).1, (hbound s).2, ?_⟩
  intro env inst filename default_list users hhs hread i hi
  rw [fastuser_getfile_loaded env inst filename default_list users hread]
  apply List.filter_eq_nil_iff.2
  intro e _ hc
  have h2 := (of_decide_eq_true hc).2
  rw [hhs] at h2
  have hb := hbound (cbytes e.name)
  omega

/-- C20, witness: the name `"bob"` and the default table size. -/
theorem fastuser_hash_in_bounds_witness :
    0 ≤ fastuser_hash (cbytes "bob") 100000 ∧ fastuser_hash (cbytes "bob") 100000 < 100000 ∧
    ∀ (env : Env) (inst : fastuser_instance) (filename : String)
      (default_list users : List PAIR_LIST),
      inst.hashsize = 100000 → env.pairlist_read filename = some users →
      ∀ i : Int, i < 0 ∨ (100000 : Int) ≤ i →
        (fastuser_getfile env inst filename (some default_list) (fun _ => []) false).2.2 i
          = [] :=
  fastuser_hash_in_bounds (cbytes "bob") 100000 (by decide) (by decide)

/-! ## `fastuser_find`, stated against the matching predicate -/

theorem fastuser_find_split (env : Env) (rq : REQUEST) (name : String)
    (l : List PAIR_LIST) (u : PAIR_LIST) (rest : List PAIR_LIST)
    (h : fastuser_find env rq l name = u :: rest) :
    ∃ pre, l = pre ++ u :: rest ∧ ∀ e ∈ pre, ¬ accepts env rq name e := by
  induction l with
  | nil => cases h
  | cons cur next ih =>
    by_cases hacc : accepts env rq name cur
    · rw [fastuser_find_cons_accept env rq name cur next hacc] at h
      cases h
      exact ⟨[], rfl, fun e he => by cases he⟩
    · rw [fastuser_find_cons_reject env rq name cur next hacc] at h
      obtain ⟨pre, hpre, hno⟩ := ih h
      refine ⟨cur :: pre, by rw [hpre]; rfl, ?_⟩
      intro e he
      rcases List.mem_cons.1 he with rfl | he'
      · exact hacc
      · exact hno e he'

/-- C16. `fastuser_find` returns the first entry of the chain that the
matching predicate accepts (the name is the username, the check-pairs
compare true and, in credential-collision mode, the password verification
passes): entries before it that are not accepted, among them those that
fail the password verification, are passed over; what it returns is
accepted and preceded by no accepted entry; and it returns null exactly
when the chain holds no accepted entry. -/
theorem fastuser_find_spec (env : Env) (rq : REQUEST) (name : String)
    (chain : List PAIR_LIST) :
    (∀ pre u rest, chain = pre ++ u :: rest → (∀ e ∈ pre, ¬ accepts env rq name e) →
      accepts env rq name u → fastuser_find env rq chain name = u :: rest) ∧
    (∀ u rest, fastuser_find env rq chain name = u :: rest →
      accepts env rq name u ∧
      ∃ pre, chain = pre ++ u :: rest ∧ ∀ e ∈ pre, ¬ accepts env rq name e) ∧
    (fastuser_find env rq chain name = [] ↔ ∀ e ∈ chain, ¬ accepts env rq name e) ∧
    (∀ e : PAIR_LIST, accepts env rq name e ↔
      (e.name = name ∧ env.paircmp rq.packet_vps e.check rq.reply_vps = 0 ∧
        (env.do_usercollide = true →
          env.rad_check_password { rq with config_items := e.check } = 0))) ∧
    (∀ cur next, cur.name = name →
      env.paircmp rq.packet_vps cur.check rq.reply_vps = 0 →
      env.do_usercollide = true →
      env.rad_check_password { rq with config_items := cur.check } ≠ 0 →
      fastuser_find env rq (cur :: next) name = fastuser_find env rq next name) := by
  have hpass : ∀ e : PAIR_LIST, fastuser_passcheck env rq e name ≠ 0 ↔
      env.rad_check_password { rq with config_items := e.check } = 0 := by
    intro e
    unfold fastuser_passcheck
    split_ifs with h
    · simp [h]
    · simp [h]
  refine ⟨?_, ?_, fastuser_find_eq_nil_iff env rq name chain, ?_, ?_⟩
  · intro pre u rest hc hpre hacc
    rw [hc]
    exact fastuser_find_first env rq name pre rest u hpre hacc
  · intro u rest h
    exact ⟨(fastuser_find_head_accepts env rq name chain u rest h).1,
      fastuser_find_split env rq name chain u rest h⟩
  · intro e
    unfold accepts
    rw [hpass e]
  · intro cur next _ _ hc hpw
    apply fastuser_find_cons_reject
    intro hacc
    exact hpw ((hpass cur).1 (hacc.2.2 hc))

/-! ## The reload test -/

theorem fastuser_buildhash_frame (env : Env) (inst : fastuser_instance) :
    (fastuser_buildhash env inst).2.next_reload = inst.next_reload ∧
    (fastuser_buildhash env inst).2.hash_reload = inst.hash_reload ∧
    (fastuser_buildhash env inst).2.hashsize = inst.hashsize := by
  unfold fastuser_buildhash
  dsimp only
  split_ifs <;> exact ⟨rfl, rfl, rfl⟩

theorem fastuser_getfile_rcode (env : Env) (inst : fastuser_instance) (filename : String)
    (default_list : Option (List PAIR_LIST)) (pair_list : HashTable) (acct : Bool) :
    (fastuser_getfile env inst filename default_list pair_list acct).1 =
      if (env.pairlist_read filename).isSome then 0 else -1 := by
  unfold fastuser_getfile
  cases env.pairlist_read filename with
  | none => rfl
  | some users =>
    dsimp only
    split_ifs <;> simp_all

theorem fastuser_buildhash_rcode (env : Env) (inst : fastuser_instance) :
    (fastuser_buildhash env inst).1 = 0 ↔
      env.malloc_ok = true ∧ (env.pairlist_read inst.acctusersfile).isSome ∧
        (env.pairlist_read inst.usersfile).isSome := by
  unfold fastuser_buildhash
  dsimp only
  simp only [fastuser_getfile_rcode]
  cases env.malloc_ok <;> cases env.pairlist_read inst.acctusersfile <;>
    cases env.pairlist_read inst.usersfile <;> simp

theorem fastuser_buildhash_files (env : Env) (inst : fastuser_instance) :
    (fastuser_buildhash env inst).2.usersfile = inst.usersfile ∧
    (fastuser_buildhash env inst).2.acctusersfile = inst.acctusersfile ∧
    (fastuser_buildhash env inst).2.compat_mode = inst.compat_mode := by
  unfold fastuser_buildhash
  dsimp only
  split_ifs <;> exact ⟨rfl, rfl, rfl⟩

/-- C15. `fastuser_authorize` rebuilds the database exactly when the reload
interval is not zero and the timestamp of the request is past the deadline.
When the test fails the instance is handed back as it was. When it holds and
`fastuser_buildhash` does not fail, the call returns: the instance handed
back is the one `fastuser_buildhash` leaves when run on the instance with
the deadline moved to timestamp plus interval, the search runs on that
instance, and the deadline stays at timestamp plus interval; this is the
case whenever the table can be allocated and both files can be read. When
the test holds and the build fails the call ends the process; with every
file unreadable the call ends the process exactly when the test holds. With
an interval of zero the instance, deadline included, is never changed. -/
theorem fastuser_authorize_reload (env : Env) (inst : fastuser_instance) (rq : REQUEST) :
    (¬ reload_due inst rq →
      fastuser_authorize env inst rq = some (inst, authorize_search env inst rq)) ∧
    (reload_due inst rq →
      ¬ (fastuser_buildhash env
        { inst with next_reload := rq.timestamp + inst.hash_reload }).1 < 0 →
      fastuser_authorize env inst rq =
        some ((fastuser_buildhash env
            { inst with next_reload := rq.timestamp + inst.hash_reload }).2,
          authorize_search env (fastuser_buildhash env
            { inst with next_reload := rq.timestamp + inst.hash_reload }).2 rq) ∧
      (fastuser_buildhash env
        { inst with next_reload := rq.timestamp + inst.hash_reload }).2.next_reload =
          rq.timestamp + inst.hash_reload) ∧
    (reload_due inst rq → env.malloc_ok = true →
      (env.pairlist_read inst.acctusersfile).isSome →
      (env.pairlist_read inst.usersfile).isSome →
      ∃ inst2 res, fastuser_authorize env inst rq = some (inst2, res) ∧
        inst2 = (fastuser_buildhash env
          { inst with next_reload := rq.timestamp + inst.hash_reload }).2 ∧
        inst2.next_reload = rq.timestamp + inst.hash_reload ∧
        res = authorize_search env inst2 rq) ∧
    (reload_due inst rq →
      ∀ inst2 res, fastuser_authorize env inst rq = some (inst2, res) →
        inst2 = (fastuser_buildhash env
          { inst with next_reload := rq.timestamp + inst.hash_reload }).2 ∧
        inst2.next_reload = rq.timestamp + inst.hash_reload) ∧
    (reload_due inst rq →
      (fastuser_buildhash env
        { inst with next_reload := rq.timestamp + inst.hash_reload }).1 < 0 →
      fastuser_authorize env inst rq = none) ∧
    ((∀ f, env.pairlist_read f = none) →
      (fastuser_authorize env inst rq = none ↔ reload_due inst rq)) ∧
    (inst.hash_reload = 0 →
      fastuser_authorize env inst rq = some (inst, authorize_search env inst rq)) := by
  have hno : ¬ reload_due inst rq →
      fastuser_authorize env inst rq = some (inst, authorize_search env inst rq) :=
    fun h => fastuser_authorize_no_reload env inst rq h
  have hyes : reload_due inst rq → fastuser_authorize env inst rq =
      if (fastuser_buildhash env
          { inst with next_reload := rq.timestamp + inst.hash_reload }).1 < 0 then none
      else some ((fastuser_buildhash env
          { inst with next_reload := rq.timestamp + inst.hash_reload }).2,
        authorize_search env (fastuser_buildhash env
          { inst with next_reload := rq.timestamp + inst.hash_reload }).2 rq) := by
    intro h
    have h2 : inst.hash_reload ≠ 0 ∧ rq.timestamp > inst.next_reload := h
    unfold fastuser_authorize
    rw [if_pos h2]
  have hgood : reload_due inst rq →
      ¬ (fastuser_buildhash env
        { inst with next_reload := rq.timestamp + inst.hash_reload }).1 < 0 →
      fastuser_authorize env inst rq =
        some ((fastuser_buildhash env
            { inst with next_reload := rq.timestamp + inst.hash_reload }).2,
          authorize_search env (fastuser_buildhash env
            { inst with next_reload := rq.timestamp + inst.hash_reload }).2 rq) ∧
      (fastuser_buildhash env
        { inst with next_reload := rq.timestamp + inst.hash_reload }).2.next_reload =
          rq.timestamp + inst.hash_reload := by
    intro hdue hfine
    rw [hyes hdue, if_neg hfine]
    exact ⟨rfl, (fastuser_buildhash_frame env _).1⟩
  refine ⟨hno, hgood, ?_, ?_, ?_, ?_, ?_⟩
  · intro hdue hm ha hu
    have hrc : (fastuser_buildhash env
        { inst with next_reload := rq.timestamp + inst.hash_reload }).1 = 0 :=
      (fastuser_buildhash_rcode env _).2 ⟨hm, ha, hu⟩
    obtain ⟨h1, h2⟩ := hgood hdue (by rw [hrc]; decide)
    exact ⟨_, _, h1, rfl, h2, rfl⟩
  · intro hdue inst2 res h
    rw [hyes hdue] at h
    by_cases hfail : (fastuser_buildhash env
        { inst with next_reload := rq.timestamp + inst.hash_reload }).1 < 0
    · rw [if_pos hfail] at h
      cases h
    · rw [if_neg hfail] at h
      cases h
      exact ⟨rfl, (fastuser_buildhash_frame env _).1⟩
  · intro hdue hfail
    rw [hyes hdue, if_pos hfail]
  · intro hread
    constructor
    · intro h
      by_contra hdue
      rw [hno hdue] at h
      cases h
    · intro hdue
      rw [hyes hdue]
      have hfail : (fastuser_buildhash env
          { inst with next_reload := rq.timestamp + inst.hash_reload }).1 < 0 := by
        unfold fastuser_buildhash fastuser_getfile
        simp only [hread]
        split_ifs <;> simp_all
      rw [if_pos hfail]
  · intro h0
    exact hno (fun h => h.1 h0)

/-- C15, a reload that is due and succeeds: the instance with an interval of
600 and the deadline 0, the users file of the second scenario, and a request
of `bob` at time 1000. The call returns the rebuilt instance, whose deadline
is 1600, and the result of the search on it. -/
theorem fastuser_authorize_reload_witness :
    fastuser_authorize (example_env file_default_user_default [] false 0) example_inst_live
        { example_request "bob" with timestamp := 1000 } =
      some ((fastuser_buildhash (example_env file_default_user_default [] false 0)
          { example_inst_live with next_reload := 1000 + example_inst_live.hash_reload }).2,
        authorize_search (example_env file_default_user_default [] false 0)
          (fastuser_buildhash (example_env file_default_user_default [] false 0)
            { example_inst_live with
              next_reload := 1000 + example_inst_live.hash_reload }).2
          { example_request "bob" with timestamp := 1000 }) ∧
    (fastuser_buildhash (example_env file_default_user_default [] false 0)
      { example_inst_live with
        next_reload := 1000 + example_inst_live.hash_reload }).2.next_reload = 1600 :=
  (fastuser_authorize_reload (example_env file_default_user_default [] false 0)
    example_inst_live { example_request "bob" with timestamp := 1000 }).2.1
    (by decide) (by decide)

/-! ## A failed build -/

theorem fastuser_getfile_unreadable (env : Env) (inst : fastuser_instance) (filename : String)
    (default_list : Option (List PAIR_LIST)) (pair_list : HashTable) (acct : Bool)
    (hread : env.pairlist_read filename = none) :
    fastuser_getfile env inst filename default_list pair_list acct =
      (-1, default_list, pair_list) := by
  unfold fastuser_getfile
  rw [hread]

/-- What a failed build leaves: the table and the default chain are the old
ones in every case, and the accounting list is the old one when the
accounting file could not be read. -/
theorem fastuser_buildhash_failure (env : Env) (inst : fastuser_instance)
    (hfail : (fastuser_buildhash env inst).1 ≠ 0) :
    (fastuser_buildhash env inst).2.hashtable = inst.hashtable ∧
    (fastuser_buildhash env inst).2.defaults = inst.defaults ∧
    (env.pairlist_read inst.acctusersfile = none →
      (fastuser_buildhash env inst).2.acctusers = inst.acctusers) := by
  unfold fastuser_buildhash at hfail ⊢
  dsimp only at hfail ⊢
  split_ifs at hfail ⊢
  · exact ⟨rfl, rfl, fun _ => rfl⟩
  · refine ⟨rfl, rfl, fun h => ?_⟩
    rw [fastuser_getfile_unreadable env inst _ _ _ _ h]
  · refine ⟨rfl, rfl, fun h => ?_⟩
    rw [fastuser_getfile_unreadable env inst _ _ _ _ h]
  · exact absurd rfl hfail

/-- C14, the code at the failing input. The instance holds a table, a default
chain and an accounting list; the accounting file can be read and the users
file cannot. `fastuser_buildhash` fails, the table and the default chain
are the old ones, and the accounting list is the new one, not the list the
instance held before. -/
theorem fastuser_buildhash_failure_replaces_acct :
    (fastuser_buildhash (example_env_unreadable file_acct_default_alice) example_inst_live).1
      = -1 ∧
    (fastuser_buildhash (example_env_unreadable file_acct_default_alice)
      example_inst_live).2.acctusers = file_acct_default_alice ∧
    example_inst_live.acctusers = [⟨12, "DEFAULT", [], [], 1, none⟩] ∧
    (fastuser_buildhash (example_env_unreadable file_acct_default_alice)
      example_inst_live).2.defaults = example_inst_live.defaults ∧
    (fastuser_buildhash (example_env_unreadable file_acct_default_alice)
      example_inst_live).2.hashtable 1377 = example_inst_live.hashtable 1377 := by
  decide

/-! ## The fall-through marker in the reply -/

theorem anchor_loop_inl_form (env : Env) (name : String) (uf : Bool) (d : PAIR_LIST) (n : Nat)
    (st : auth_state) (r : auth_result) (h : anchor_loop env name uf d n st = Sum.inl r) :
    ∃ q m, r = return_updated env q m := by
  induction n generalizing st with
  | zero => cases h
  | succ n ih =>
    cases hu : st.user with
    | nil => rw [anchor_loop_nil env name uf d _ st hu] at h; cases h
    | cons u next =>
      by_cases hc : uf = true ∧ some d.addr = u.lastdefault
      · by_cases hft : fallthrough env u.reply = 0
        · rw [anchor_loop_return env name uf d n st u next hu hc hft] at h
          cases h
          exact ⟨_, _, rfl⟩
        · rw [anchor_loop_step env name uf d n st u next hu hc hft] at h
          exact ih _ h
      · rw [anchor_loop_skip env name uf d _ st u next hu hc] at h
        cases h

theorem final_verdict_updated_form (env : Env) (uf df : Bool) (st : auth_state)
    (h : (final_verdict env uf df st).rcode = RLM_MODULE_UPDATED) :
    ∃ q m, final_verdict env uf df st = return_updated env q m := by
  unfold final_verdict at h ⊢
  split_ifs at h ⊢
  exact ⟨_, _, rfl⟩

theorem defaults_walk_updated_form (env : Env) (name : String) (uf : Bool)
    (D : List PAIR_LIST) (df : Bool) (st : auth_state)
    (h : (defaults_walk env name uf D df st).rcode = RLM_MODULE_UPDATED) :
    ∃ q m, defaults_walk env name uf D df st = return_updated env q m := by
  induction D generalizing df st with
  | nil =>
    have h2 : defaults_walk env name uf [] df st = final_verdict env uf df st := by
      unfold defaults_walk; rfl
    rw [h2] at h ⊢
    exact final_verdict_updated_form env uf df st h
  | cons d next ih =>
    have hres : ∀ df2 st2,
        (resume_walk env name uf d next df2 st2).rcode = RLM_MODULE_UPDATED →
        ∃ q m, resume_walk env name uf d next df2 st2 = return_updated env q m := by
      intro df2 st2
      unfold resume_walk
      cases hrun : anchor_loop env name uf d st2.user.length st2 with
      | inl r => intro _; exact anchor_loop_inl_form env name uf d _ st2 r hrun
      | inr st3 => exact ih df2 st3
    rw [defaults_walk_cons] at h ⊢
    split_ifs at h ⊢
    · exact final_verdict_updated_form env uf _ _ h
    · exact hres _ _ h
    · exact final_verdict_updated_form env uf _ _ h
    · exact hres _ _ h

theorem authorize_search_updated_form (env : Env) (inst : fastuser_instance) (rq : REQUEST)
    (h : (authorize_search env inst rq).rcode = RLM_MODULE_UPDATED) :
    ∃ q m, authorize_search env inst rq = return_updated env q m := by
  cases hfind : fastuser_find env rq
      (inst.hashtable (fastuser_hash (cbytes (request_name rq)) inst.hashsize))
      (request_name rq) with
  | nil =>
    rw [authorize_search_nil env inst rq hfind] at h ⊢
    exact defaults_walk_updated_form env _ _ _ _ _ h
  | cons u rest =>
    by_cases hld : u.lastdefault = none
    · rw [authorize_search_first env inst rq u rest hfind hld] at h ⊢
      split_ifs at h ⊢
      · exact ⟨_, _, rfl⟩
      · exact defaults_walk_updated_form env _ _ _ _ _ h
    · rw [authorize_search_anchored env inst rq u rest hfind hld] at h ⊢
      exact defaults_walk_updated_form env _ _ _ _ _ h

/-- C12. Whenever `fastuser_authorize` returns `RLM_MODULE_UPDATED`, by the
return before the walk, by the return inside the walk or by the final
verdict, a reload having taken place or not, the reply list it hands back
is the result of `pairdelete` for the fall-through attribute; so, with a
`pairdelete` that leaves no pair of the attribute it deletes, the reply
list holds no fall-through marker, and `fallthrough` finds none when
`pairfind` finds nothing after a `pairdelete`. -/
theorem fastuser_authorize_strips_marker (env : Env) (inst inst2 : fastuser_instance)
    (rq : REQUEST) (res : auth_result)
    (hrun : fastuser_authorize env inst rq = some (inst2, res))
    (hrc : res.rcode = RLM_MODULE_UPDATED) :
    (∃ l, res.request.reply_vps = env.pairdelete l env.PW_FALL_THROUGH) ∧
    ((∀ l vp, vp ∈ env.pairdelete l env.PW_FALL_THROUGH → vp.attr ≠ env.PW_FALL_THROUGH) →
      ∀ vp ∈ res.request.reply_vps, vp.attr ≠ env.PW_FALL_THROUGH) ∧
    ((∀ l, env.pairfind (env.pairdelete l env.PW_FALL_THROUGH) env.PW_FALL_THROUGH = none) →
      env.pairfind res.request.reply_vps env.PW_FALL_THROUGH = none ∧
      fallthrough env res.request.reply_vps = 0) := by
  have hsearch : ∃ i, res = authorize_search env i rq := by
    unfold fastuser_authorize at hrun
    dsimp only at hrun
    split_ifs at hrun
    · cases hrun
      exact ⟨_, rfl⟩
    · cases hrun
      exact ⟨_, rfl⟩
  obtain ⟨i, rfl⟩ := hsearch
  obtain ⟨q, m, hform⟩ := authorize_search_updated_form env i rq hrc
  have hreply : (authorize_search env i rq).request.reply_vps =
      env.pairdelete q.reply_vps env.PW_FALL_THROUGH := by
    rw [hform]; rfl
  refine ⟨⟨_, hreply⟩, ?_, ?_⟩
  · intro hdel vp hvp
    rw [hreply] at hvp
    exact hdel _ vp hvp
  · intro hfind
    have h1 : env.pairfind (authorize_search env i rq).request.reply_vps
        env.PW_FALL_THROUGH = none := by
      rw [hreply]; exact hfind _
    refine ⟨h1, ?_⟩
    unfold fallthrough
    rw [h1]

/-- C12, witness: the file of the second scenario and a request of `bob`. -/
theorem fastuser_authorize_strips_marker_witness :
    (∃ l, (authorize_search (example_env file_default_user_default [] false 0)
        (fastuser_buildhash (example_env file_default_user_default [] false 0)
          (example_inst "cistron")).2 (example_request "bob")).request.reply_vps =
      (example_env file_default_user_default [] false 0).pairdelete l
        (example_env file_default_user_default [] false 0).PW_FALL_THROUGH) ∧
    ((∀ l vp, vp ∈ (example_env file_default_user_default [] false 0).pairdelete l
          (example_env file_default_user_default [] false 0).PW_FALL_THROUGH →
        vp.attr ≠ (example_env file_default_user_default [] false 0).PW_FALL_THROUGH) →
      ∀ vp ∈ (authorize_search (example_env file_default_user_default [] false 0)
        (fastuser_buildhash (example_env file_default_user_default [] false 0)
          (example_inst "cistron")).2 (example_request "bob")).request.reply_vps,
        vp.attr ≠ (example_env file_default_user_default [] false 0).PW_FALL_THROUGH) ∧
    ((∀ l, (example_env file_default_user_default [] false 0).pairfind
        ((example_env file_default_user_default [] false 0).pairdelete l
          (example_env file_default_user_default [] false 0).PW_FALL_THROUGH)
        (example_env file_default_user_default [] false 0).PW_FALL_THROUGH = none) →
      (example_env file_default_user_default [] false 0).pairfind
        (authorize_search (example_env file_default_user_default [] false 0)
          (fastuser_buildhash (example_env file_default_user_default [] false 0)
            (example_inst "cistron")).2 (example_request "bob")).request.reply_vps
        (example_env file_default_user_default [] false 0).PW_FALL_THROUGH = none ∧
      fallthrough (example_env file_default_user_default [] false 0)
        (authorize_search (example_env file_default_user_default [] false 0)
          (fastuser_buildhash (example_env file_default_user_default [] false 0)
            (example_inst "cistron")).2 (example_request "bob")).request.reply_vps = 0) :=
  fastuser_authorize_strips_marker (example_env file_default_user_default [] false 0)
    (fastuser_buildhash (example_env file_default_user_default [] false 0)
      (example_inst "cistron")).2
    (fastuser_buildhash (example_env file_default_user_default [] false 0)
      (example_inst "cistron")).2
    (example_request "bob")
    (authorize_search (example_env file_default_user_default [] false 0)
      (fastuser_buildhash (example_env file_default_user_default [] false 0)
        (example_inst "cistron")).2 (example_request "bob"))
    (fastuser_authorize_no_reload _ _ _ (by decide)) (by decide)

/-! ## `fastuser_preacct` -/

theorem sequential_pass_eq_filter (env : Env) (rq : REQUEST) (name : String)
    (q : PAIR_LIST → Bool)
    (hq : ∀ e, q e = true ↔ ((e.name = name ∨ e.name = "DEFAULT") ∧
      env.paircmp rq.packet_vps e.check rq.reply_vps = 0))
    (l : List PAIR_LIST) :
    sequential_pass env rq name l = through_first_stop env (l.filter q) := by
  induction l with
  | nil => rfl
  | cons e es ih =>
    by_cases h : (e.name = name ∨ e.name = "DEFAULT") ∧
        env.paircmp rq.packet_vps e.check rq.reply_vps = 0
    · rw [List.filter_cons_of_pos ((hq e).2 h)]
      by_cases hft : fallthrough env e.reply = 0
      · rw [sequential_pass_cons_stop env rq name e es h.1 h.2 hft]
        simp [through_first_stop, hft]
      · rw [sequential_pass_cons_go env rq name e es h.1 h.2 hft, ih]
        simp [through_first_stop, hft]
    · rw [List.filter_cons_of_neg (fun hc => h ((hq e).1 hc)),
        sequential_pass_cons_skip env rq name e es h, ih]

theorem preacct_loop_spec (env : Env) (rq : REQUEST) (name : String)
    (hpure : ∀ q ch r1 r2, env.paircmp q ch r1 = env.paircmp q ch r2)
    (l : List PAIR_LIST) (st : preacct_state) :
    (preacct_loop env name rq.packet_vps l st).merged =
      st.merged ++ sequential_pass env rq name l ∧
    ((preacct_loop env name rq.packet_vps l st).found = true ↔
      (st.found = true ∨ sequential_pass env rq name l ≠ [])) := by
  induction l generalizing st with
  | nil => simp [preacct_loop, sequential_pass]
  | cons pl next ih =>
    by_cases hrel : pl.name = name ∨ pl.name = "DEFAULT"
    · have hcont : ¬ (name ≠ pl.name ∧ pl.name ≠ "DEFAULT") := by
        rintro ⟨h1, h2⟩
        rcases hrel with h | h
        · exact h1 h.symm
        · exact h2 h
      by_cases hm : env.paircmp rq.packet_vps pl.check rq.reply_vps = 0
      · have hm2 : env.paircmp rq.packet_vps pl.check st.reply_pairs = 0 := by
          rw [hpure _ _ st.reply_pairs rq.reply_vps]; exact hm
        by_cases hft : fallthrough env pl.reply = 0
        · rw [sequential_pass_cons_stop env rq name pl next hrel hm hft]
          simp [preacct_loop, hcont, hm2, hft]
        · rw [sequential_pass_cons_go env rq name pl next hrel hm hft]
          have hstep : preacct_loop env name rq.packet_vps (pl :: next) st =
              preacct_loop env name rq.packet_vps next
                { found := true
                  config_items := env.pairmove st.config_items pl.check
                  reply_pairs := env.pairmove st.reply_pairs pl.reply
                  merged := st.merged ++ [pl] } := by
            simp [preacct_loop, hcont, hm2, hft]
          rw [hstep]
          obtain ⟨h1, h2⟩ := ih
            { found := true
              config_items := env.pairmove st.config_items pl.check
              reply_pairs := env.pairmove st.reply_pairs pl.reply
              merged := st.merged ++ [pl] }
          rw [h1, h2]
          simp
      · have hm2 : ¬ env.paircmp rq.packet_vps pl.check st.reply_pairs = 0 := by
          rw [hpure _ _ st.reply_pairs rq.reply_vps]; exact hm
        rw [sequential_pass_cons_skip env rq name pl next (fun h => hm h.2)]
        have hstep : preacct_loop env name rq.packet_vps (pl :: next) st =
            preacct_loop env name rq.packet_vps next st := by
          simp [preacct_loop, hcont, hm2]
        rw [hstep]
        exact ih st
    · have hcont : name ≠ pl.name ∧ pl.name ≠ "DEFAULT" :=
        ⟨fun h => hrel (Or.inl h.symm), fun h => hrel (Or.inr h)⟩
      rw [sequential_pass_cons_skip env rq name pl next (fun h => hrel h.1)]
      have hstep : preacct_loop env name rq.packet_vps (pl :: next) st =
          preacct_loop env name rq.packet_vps next st := by
        simp [preacct_loop, hcont]
      rw [hstep]
      exact ih st

theorem preacct_loop_frame (env : Env) (name : String) (pk : List VALUE_PAIR)
    (l : List PAIR_LIST) :
    ∀ st : preacct_state, ∃ t : List PAIR_LIST,
      (preacct_loop env name pk l st).merged = st.merged ++ t ∧
      (preacct_loop env name pk l st).config_items =
        t.foldl (fun c e => env.pairmove c e.check) st.config_items ∧
      (preacct_loop env name pk l st).reply_pairs =
        t.foldl (fun r e => env.pairmove r e.reply) st.reply_pairs ∧
      (t = [] → preacct_loop env name pk l st = st) ∧
      (t ≠ [] → (preacct_loop env name pk l st).found = true ∧
        ∃ pl ∈ l, (name = pl.name ∨ pl.name = "DEFAULT") ∧
          env.paircmp pk pl.check st.reply_pairs = 0) := by
  induction l with
  | nil =>
    intro st
    exact ⟨[], by simp [preacct_loop], rfl, rfl, fun _ => rfl, fun h => absurd rfl h⟩
  | cons pl next ih =>
    intro st
    by_cases hcont : name ≠ pl.name ∧ pl.name ≠ "DEFAULT"
    · have hstep : preacct_loop env name pk (pl :: next) st =
          preacct_loop env name pk next st := by
        simp [preacct_loop, hcont]
      rw [hstep]
      obtain ⟨t, h1, h2, h3, h4, h5⟩ := ih st
      refine ⟨t, h1, h2, h3, h4, fun ht => ?_⟩
      obtain ⟨hf, x, hx, hq, hm⟩ := h5 ht
      exact ⟨hf, x, List.mem_cons_of_mem _ hx, hq, hm⟩
    · have hq : name = pl.name ∨ pl.name = "DEFAULT" := by
        by_cases hn : name = pl.name
        · exact Or.inl hn
        · right
          by_contra hd
          exact hcont ⟨hn, hd⟩
      by_cases hm : env.paircmp pk pl.check st.reply_pairs = 0
      · by_cases hft : fallthrough env pl.reply = 0
        · have hstep : preacct_loop env name pk (pl :: next) st =
              { found := true
                config_items := env.pairmove st.config_items pl.check
                reply_pairs := env.pairmove st.reply_pairs pl.reply
                merged := st.merged ++ [pl] } := by
            simp [preacct_loop, hcont, hm, hft]
          rw [hstep]
          exact ⟨[pl], rfl, rfl, rfl, (fun h => by cases h),
            fun _ => ⟨rfl, pl, List.mem_cons_self _ _, hq, hm⟩⟩
        · have hstep : preacct_loop env name pk (pl :: next) st =
              preacct_loop env name pk next
                { found := true
                  config_items := env.pairmove st.config_items pl.check
                  reply_pairs := env.pairmove st.reply_pairs pl.reply
                  merged := st.merged ++ [pl] } := by
            simp [preacct_loop, hcont, hm, hft]
          rw [hstep]
          obtain ⟨t, h1, h2, h3, h4, h5⟩ := ih
            { found := true
              config_items := env.pairmove st.config_items pl.check
              reply_pairs := env.pairmove st.reply_pairs pl.reply
              merged := st.merged ++ [pl] }
          refine ⟨pl :: t, ?_, ?_, ?_, (fun h => by cases h), fun _ => ⟨?_, pl,
            List.mem_cons_self _ _, hq, hm⟩⟩
          · rw [h1]; simp
          · rw [h2]; rfl
          · rw [h3]; rfl
          · by_cases ht : t = []
            · rw [h4 ht]
            · exact (h5 ht).1
      · have hstep : preacct_loop env name pk (pl :: next) st =
            preacct_loop env name pk next st := by
          simp [preacct_loop, hcont, hm]
        rw [hstep]
        obtain ⟨t, h1, h2, h3, h4, h5⟩ := ih st
        refine ⟨t, h1, h2, h3, h4, fun ht => ?_⟩
        obtain ⟨hf, x, hx, hq2, hm2⟩ := h5 ht
        exact ⟨hf, x, List.mem_cons_of_mem _ hx, hq2, hm2⟩

theorem through_first_stop_eq_nil (env : Env) (l : List PAIR_LIST) :
    through_first_stop env l = [] ↔ l = [] := by
  cases l with
  | nil => simp [through_first_stop]
  | cons e es =>
    unfold through_first_stop
    split_ifs <;> simp

/-- C13, amended. With a comparison that is a function of the request and
the check-pairs, `fastuser_preacct` merges, in file order, the entries whose
name is the username or `"DEFAULT"` and whose check-pairs match the
request, up to and including the first of them whose reply has no
fall-through marker, and nothing after it; this is the sequential pass of
the specification. The request handed back is the incoming one with the
check items of exactly these entries moved into `config_items`, one
`pairmove` after the other in that order. It returns `RLM_MODULE_NOOP`
exactly when it merged nothing, which is when no entry of the list has such
a name and matching check-pairs, and `RLM_MODULE_OK` otherwise. For a
`DEFAULT` with fall-through followed by an entry of the user without, both
matching, it merges the two in that order. -/
theorem fastuser_preacct_spec (env : Env) (inst : fastuser_instance) (rq : REQUEST)
    (hpure : ∀ q ch r1 r2, env.paircmp q ch r1 = env.paircmp q ch r2) :
    (fastuser_preacct env inst rq).merged =
      through_first_stop env (inst.acctusers.filter (fun e =>
        decide ((e.name = request_name rq ∨ e.name = "DEFAULT") ∧
          env.paircmp rq.packet_vps e.check rq.reply_vps = 0))) ∧
    (fastuser_preacct env inst rq).merged =
      sequential_pass env rq (request_name rq) inst.acctusers ∧
    (fastuser_preacct env inst rq).request.config_items =
      (through_first_stop env (inst.acctusers.filter (fun e =>
        decide ((e.name = request_name rq ∨ e.name = "DEFAULT") ∧
          env.paircmp rq.packet_vps e.check rq.reply_vps = 0)))).foldl
        (fun c e => env.pairmove c e.check) rq.config_items ∧
    (fastuser_preacct env inst rq).request =
      { rq with config_items := (fastuser_preacct env inst rq).request.config_items } ∧
    ((fastuser_preacct env inst rq).rcode = RLM_MODULE_NOOP ↔
      (fastuser_preacct env inst rq).merged = []) ∧
    ((fastuser_preacct env inst rq).rcode = RLM_MODULE_NOOP ↔
      ∀ e ∈ inst.acctusers, ¬ ((e.name = request_name rq ∨ e.name = "DEFAULT") ∧
        env.paircmp rq.packet_vps e.check rq.reply_vps = 0)) ∧
    ((fastuser_preacct env inst rq).rcode ≠ RLM_MODULE_NOOP →
      (fastuser_preacct env inst rq).rcode = RLM_MODULE_OK) ∧
    (∀ d a, inst.acctusers = [d, a] → d.name = "DEFAULT" → a.name = request_name rq →
      env.paircmp rq.packet_vps d.check rq.reply_vps = 0 →
      env.paircmp rq.packet_vps a.check rq.reply_vps = 0 →
      fallthrough env d.reply ≠ 0 → fallthrough env a.reply = 0 →
      (fastuser_preacct env inst rq).merged = [d, a] ∧
      (fastuser_preacct env inst rq).rcode = RLM_MODULE_OK ∧
      (fastuser_preacct env inst rq).request.config_items =
        env.pairmove (env.pairmove rq.config_items d.check) a.check) := by
  obtain ⟨h1, h2⟩ := preacct_loop_spec env rq (request_name rq) hpure inst.acctusers
    { found := false, config_items := rq.config_items, reply_pairs := [], merged := [] }
  obtain ⟨t, f1, f2, _, _, _⟩ := preacct_loop_frame env (request_name rq) rq.packet_vps
    inst.acctusers
    { found := false, config_items := rq.config_items, reply_pairs := [], merged := [] }
  simp only [List.nil_append, Bool.false_eq_true, false_or] at h1 h2 f1 f2
  have hmerged : (fastuser_preacct env inst rq).merged =
      sequential_pass env rq (request_name rq) inst.acctusers := by
    unfold fastuser_preacct
    dsimp only
    split_ifs <;> exact h1
  have hfilter : sequential_pass env rq (request_name rq) inst.acctusers =
      through_first_stop env (inst.acctusers.filter (fun e =>
        decide ((e.name = request_name rq ∨ e.name = "DEFAULT") ∧
          env.paircmp rq.packet_vps e.check rq.reply_vps = 0))) :=
    sequential_pass_eq_filter env rq _ _ (fun e => by simp) _
  have hconf : (fastuser_preacct env inst rq).request.config_items =
      (sequential_pass env rq (request_name rq) inst.acctusers).foldl
        (fun c e => env.pairmove c e.check) rq.config_items := by
    have ht : t = sequential_pass env rq (request_name rq) inst.acctusers := by
      rw [← f1, h1]
    rw [← ht, ← f2]
    unfold fastuser_preacct
    dsimp only
    split_ifs <;> rfl
  have hreq : (fastuser_preacct env inst rq).request =
      { rq with config_items := (fastuser_preacct env inst rq).request.config_items } := by
    unfold fastuser_preacct
    dsimp only
    split_ifs <;> rfl
  have hnoop : (fastuser_preacct env inst rq).rcode = RLM_MODULE_NOOP ↔
      (fastuser_preacct env inst rq).merged = [] := by
    rw [hmerged]
    unfold fastuser_preacct
    dsimp only
    by_cases hf : (preacct_loop env (request_name rq) rq.packet_vps inst.acctusers
        { found := false, config_items := rq.config_items, reply_pairs := [],
          merged := [] }).found = true
    · have hne := h2.1 hf
      simp [hf, hne]
    · have hnil : sequential_pass env rq (request_name rq) inst.acctusers = [] := by
        by_contra hne
        exact hf (h2.2 hne)
      simp [hf, hnil]
  have hok : (fastuser_preacct env inst rq).rcode ≠ RLM_MODULE_NOOP →
      (fastuser_preacct env inst rq).rcode = RLM_MODULE_OK := by
    unfold fastuser_preacct
    dsimp only
    split_ifs
    · intro h; exact absurd rfl h
    · intro _; rfl
  have hnone : (fastuser_preacct env inst rq).rcode = RLM_MODULE_NOOP ↔
      ∀ e ∈ inst.acctusers, ¬ ((e.name = request_name rq ∨ e.name = "DEFAULT") ∧
        env.paircmp rq.packet_vps e.check rq.reply_vps = 0) := by
    rw [hnoop, hmerged, hfilter, through_first_stop_eq_nil, List.filter_eq_nil_iff]
    constructor
    · intro h e he hc
      exact h e he (decide_eq_true hc)
    · intro h e he hc
      exact h e he (of_decide_eq_true hc)
  refine ⟨by rw [hmerged]; exact hfilter, hmerged, by rw [hconf, hfilter], hreq, hnoop,
    hnone, hok, ?_⟩
  intro d a hl hd ha hmd hma hftd hfta
  have hseq : sequential_pass env rq (request_name rq) inst.acctusers = [d, a] := by
    rw [hl, sequential_pass_cons_go env rq _ d [a] (Or.inr hd) hmd hftd,
      sequential_pass_cons_stop env rq _ a [] (Or.inl ha) hma hfta]
  have hm : (fastuser_preacct env inst rq).merged = [d, a] := by
    rw [hmerged, hseq]
  refine ⟨hm, hok ?_, by rw [hconf, hseq]; rfl⟩
  intro hn
  rw [hnoop.1 hn] at hm
  cases hm

/-! ## The anchors written by the loader -/

theorem anchor_after_append (ld : Option Nat) (p q : List PAIR_LIST) :
    anchor_after ld (p ++ q) = anchor_after (anchor_after ld p) q := by
  induction p generalizing ld with
  | nil => rfl
  | cons e es ih =>
    by_cases hd : e.name = "DEFAULT"
    · simp only [List.cons_append, anchor_after, hd, if_true]
      exact ih _
    · simp only [List.cons_append, anchor_after, hd, if_false]
      exact ih _

theorem anchor_after_no_default (ld : Option Nat) (p : List PAIR_LIST)
    (h : ∀ x ∈ p, x.name ≠ "DEFAULT") : anchor_after ld p = ld := by
  induction p with
  | nil => rfl
  | cons e es ih =>
    have he : e.name ≠ "DEFAULT" := h e (List.mem_cons_self _ _)
    simp only [anchor_after, he, if_false]
    exact ih (fun x hx => h x (List.mem_cons_of_mem _ hx))

theorem anchor_after_last (ld : Option Nat) (p1 p2 : List PAIR_LIST) (d : PAIR_LIST)
    (hd : d.name = "DEFAULT") (h2 : ∀ y ∈ p2, y.name ≠ "DEFAULT") :
    anchor_after ld (p1 ++ d :: p2) = some d.addr := by
  rw [anchor_after_append]
  simp only [anchor_after, hd, if_true]
  exact anchor_after_no_default _ p2 h2

theorem anchor_after_cases (ld : Option Nat) (p : List PAIR_LIST) :
    (anchor_after ld p = ld ∧ ∀ x ∈ p, x.name ≠ "DEFAULT") ∨
    ∃ p1 d p2, p = p1 ++ d :: p2 ∧ d.name = "DEFAULT" ∧ (∀ y ∈ p2, y.name ≠ "DEFAULT") ∧
      anchor_after ld p = some d.addr := by
  induction p generalizing ld with
  | nil => exact Or.inl ⟨rfl, fun x hx => by cases hx⟩
  | cons e es ih =>
    by_cases hd : e.name = "DEFAULT"
    · right
      rcases ih (some e.addr) with ⟨h1, h2⟩ | ⟨p1, d, p2, hp, hdn, hno, ha⟩
      · refine ⟨[], e, es, rfl, hd, h2, ?_⟩
        simp only [anchor_after, hd, if_true]
        exact h1
      · refine ⟨e :: p1, d, p2, by rw [hp]; rfl, hdn, hno, ?_⟩
        simp only [anchor_after, hd, if_true]
        exact ha
    · rcases ih ld with ⟨h1, h2⟩ | ⟨p1, d, p2, hp, hdn, hno, ha⟩
      · left
        refine ⟨?_, ?_⟩
        · simp only [anchor_after, hd, if_false]
          exact h1
        · intro x hx
          rcases List.mem_cons.1 hx with rfl | hx'
          · exact hd
          · exact h2 x hx'
      · right
        refine ⟨e :: p1, d, p2, by rw [hp]; rfl, hdn, hno, ?_⟩
        simp only [anchor_after, hd, if_false]
        exact ha

theorem loaded_entries_append (env : Env) (c : Bool) (ld : Option Nat)
    (p q : List PAIR_LIST) :
    loaded_entries env c ld (p ++ q) =
      loaded_entries env c ld p ++ loaded_entries env c (anchor_after ld p) q := by
  induction p generalizing ld with
  | nil => rfl
  | cons e es ih =>
    by_cases hd : e.name = "DEFAULT"
    · rw [List.cons_append, loaded_entries_cons_default env c ld e _ hd,
        loaded_entries_cons_default env c ld e _ hd, ih]
      simp [anchor_after, hd]
    · rw [List.cons_append, loaded_entries_cons_named env c ld e _ hd,
        loaded_entries_cons_named env c ld e _ hd, ih]
      simp [anchor_after, hd]

theorem loaded_entries_addr (env : Env) (c : Bool) (ld : Option Nat) (raw : List PAIR_LIST) :
    (loaded_entries env c ld raw).map PAIR_LIST.addr = raw.map PAIR_LIST.addr := by
  induction raw generalizing ld with
  | nil => rfl
  | cons e es ih =>
    by_cases hd : e.name = "DEFAULT"
    · rw [loaded_entries_cons_default env c ld e _ hd, List.map_cons, List.map_cons, ih]
      rfl
    · rw [loaded_entries_cons_named env c ld e _ hd, List.map_cons, List.map_cons, ih]
      rfl

theorem loaded_node_unique (env : Env) (c : Bool) (ld : Option Nat)
    (pre post : List PAIR_LIST) (e x : PAIR_LIST)
    (hnd : ((pre ++ e :: post).map PAIR_LIST.addr).Nodup)
    (hn : e.name ≠ "DEFAULT")
    (hx : x ∈ loaded_entries env c ld (pre ++ e :: post)) (hxa : x.addr = e.addr) :
    x = set_lastdefault (rewrite_entry env c e) (anchor_after ld pre) := by
  rw [List.map_append, List.map_cons] at hnd
  have hnd2 := List.nodup_append.1 hnd
  have hpre : e.addr ∉ pre.map PAIR_LIST.addr := fun h =>
    hnd2.2.2 h (List.mem_cons_self _ _)
  have hpost : e.addr ∉ post.map PAIR_LIST.addr := (List.nodup_cons.1 hnd2.2.1).1
  rw [loaded_entries_append, loaded_entries_cons_named env c _ e post hn] at hx
  rcases List.mem_append.1 hx with h | h
  · exfalso
    apply hpre
    rw [← loaded_entries_addr env c ld pre, ← hxa]
    exact List.mem_map_of_mem _ h
  · rcases List.mem_cons.1 h with h | h
    · exact h
    · exfalso
      apply hpost
      rw [← loaded_entries_addr env c (anchor_after ld pre) post, ← hxa]
      exact List.mem_map_of_mem _ h

theorem loaded_node_mem (env : Env) (c : Bool) (hs : Int) (ld : Option Nat)
    (pre post : List PAIR_LIST) (e : PAIR_LIST) (hn : e.name ≠ "DEFAULT") :
    set_lastdefault (rewrite_entry env c e) (anchor_after ld pre) ∈
      (loaded_entries env c ld (pre ++ e :: post)).filter
        (fun x => x.name ≠ "DEFAULT" ∧
          fastuser_hash (cbytes x.name) hs = fastuser_hash (cbytes e.name) hs) := by
  rw [loaded_entries_append, loaded_entries_cons_named env c _ e post hn]
  apply List.mem_filter.2
  refine ⟨List.mem_append_right _ (List.mem_cons_self _ _), ?_⟩
  exact decide_eq_true ⟨hn, rfl⟩

theorem loaded_default_mem (env : Env) (c : Bool) (ld : Option Nat)
    (p1 p2 : List PAIR_LIST) (d : PAIR_LIST) (hd : d.name = "DEFAULT") :
    rewrite_entry env c d ∈
      (loaded_entries env c ld (p1 ++ d :: p2)).filter (fun x => x.name = "DEFAULT") := by
  rw [loaded_entries_append, loaded_entries_cons_default env c _ d p2 hd]
  apply List.mem_filter.2
  refine ⟨List.mem_append_right _ (List.mem_cons_self _ _), ?_⟩
  exact decide_eq_true hd

/-- C11. After a file is read with `acct` zero into an empty table, the node
stored for a named entry `e` of the file carries in `lastdefault` the
address of the `DEFAULT` entry that precedes `e` with no other `DEFAULT`
in between, and null exactly when no `DEFAULT` precedes `e`; the entry
referenced is in the default chain. -/
theorem fastuser_getfile_lastdefault (env : Env) (inst : fastuser_instance)
    (filename : String) (default_list pre post : List PAIR_LIST) (e : PAIR_LIST)
    (hread : env.pairlist_read filename = some (pre ++ e :: post))
    (hnd : ((pre ++ e :: post).map PAIR_LIST.addr).Nodup)
    (hn : e.name ≠ "DEFAULT") :
    (∃ x ∈ (fastuser_getfile env inst filename (some default_list) (fun _ => []) false).2.2
        (fastuser_hash (cbytes e.name) inst.hashsize), x.addr = e.addr) ∧
    ∀ (i : Int) (x : PAIR_LIST),
      x ∈ (fastuser_getfile env inst filename (some default_list) (fun _ => []) false).2.2 i →
      x.addr = e.addr →
      x.lastdefault = anchor_after none pre ∧
      (x.lastdefault = none ↔ ∀ d ∈ pre, d.name ≠ "DEFAULT") ∧
      (∀ p1 d p2, pre = p1 ++ d :: p2 → d.name = "DEFAULT" →
        (∀ y ∈ p2, y.name ≠ "DEFAULT") →
        x.lastdefault = some d.addr ∧
        ∃ D, (fastuser_getfile env inst filename (some default_list)
            (fun _ => []) false).2.1 = some D ∧
          rewrite_entry env (decide (inst.compat_mode = "cistron")) d ∈ D) ∧
      (∀ a, x.lastdefault = some a →
        ∃ D, (fastuser_getfile env inst filename (some default_list)
            (fun _ => []) false).2.1 = some D ∧ ∃ d ∈ D, d.addr = a) := by
  rw [fastuser_getfile_loaded env inst filename default_list _ hread]
  refine ⟨⟨_, loaded_node_mem env _ inst.hashsize none pre post e hn, rfl⟩, ?_⟩
  intro i x hx hxa
  have hxl := (List.mem_filter.1 hx).1
  have hxeq := loaded_node_unique env _ none pre post e x hnd hn hxl hxa
  have hld : x.lastdefault = anchor_after none pre := by rw [hxeq]; rfl
  have hlast : ∀ p1 d p2, pre = p1 ++ d :: p2 → d.name = "DEFAULT" →
      (∀ y ∈ p2, y.name ≠ "DEFAULT") →
      x.lastdefault = some d.addr ∧
      ∃ D, some ((loaded_entries env (decide (inst.compat_mode = "cistron")) none
          (pre ++ e :: post)).filter (fun x => x.name = "DEFAULT")) = some D ∧
        rewrite_entry env (decide (inst.compat_mode = "cistron")) d ∈ D := by
    intro p1 d p2 hp hd hno
    refine ⟨by rw [hld, hp]; exact anchor_after_last none p1 p2 d hd hno, _, rfl, ?_⟩
    rw [hp, List.append_assoc, List.cons_append]
    exact loaded_default_mem env _ none p1 (p2 ++ e :: post) d hd
  refine ⟨hld, ?_, hlast, ?_⟩
  · rw [hld]
    rcases anchor_after_cases none pre with ⟨h1, h2⟩ | ⟨p1, d, p2, hp, hd, _, ha⟩
    · exact ⟨fun _ => h2, fun _ => h1⟩
    · rw [ha]
      constructor
      · intro h; cases h
      · intro h
        exact absurd hd (h d (by rw [hp]; exact List.mem_append_right _ (List.mem_cons_self _ _)))
  · intro a ha
    rcases anchor_after_cases none pre with ⟨h1, _⟩ | ⟨p1, d, p2, hp, hd, hno, hanc⟩
    · rw [hld, h1] at ha
      cases ha
    · obtain ⟨h3, D, hD, hmem⟩ := hlast p1 d p2 hp hd hno
      refine ⟨D, hD, _, hmem, ?_⟩
      rw [h3] at ha
      exact (Option.some.inj ha)

/-- C11, witness: in the file of the first scenario the second entry of `bob`
follows the `DEFAULT`. -/
theorem fastuser_getfile_lastdefault_witness :
    (∃ x ∈ (fastuser_getfile (example_env file_user_default_user [] false 0)
        (example_inst "cistron") "users" (some []) (fun _ => []) false).2.2
        (fastuser_hash (cbytes (PAIR_LIST.name
          ⟨3, "bob", [check_item 1], [reply_item 3], 5, none⟩))
          (example_inst "cistron").hashsize),
      x.addr = PAIR_LIST.addr ⟨3, "bob", [check_item 1], [reply_item 3], 5, none⟩) ∧
    ∀ (i : Int) (x : PAIR_LIST),
      x ∈ (fastuser_getfile (example_env file_user_default_user [] false 0)
        (example_inst "cistron") "users" (some []) (fun _ => []) false).2.2 i →
      x.addr = PAIR_LIST.addr ⟨3, "bob", [check_item 1], [reply_item 3], 5, none⟩ →
      x.lastdefault = anchor_after none
        [⟨1, "bob", [check_item 1], [reply_item 1, fall_through_yes], 1, none⟩,
         ⟨2, "DEFAULT", [check_item 1], [reply_item 2], 3, none⟩] ∧
      (x.lastdefault = none ↔
        ∀ d ∈ [(⟨1, "bob", [check_item 1], [reply_item 1, fall_through_yes], 1, none⟩ :
            PAIR_LIST),
          ⟨2, "DEFAULT", [check_item 1], [reply_item 2], 3, none⟩], d.name ≠ "DEFAULT") ∧
      (∀ p1 d p2,
        [(⟨1, "bob", [check_item 1], [reply_item 1, fall_through_yes], 1, none⟩ : PAIR_LIST),
          ⟨2, "DEFAULT", [check_item 1], [reply_item 2], 3, none⟩] = p1 ++ d :: p2 →
        d.name = "DEFAULT" → (∀ y ∈ p2, y.name ≠ "DEFAULT") →
        x.lastdefault = some d.addr ∧
        ∃ D, (fastuser_getfile (example_env file_user_default_user [] false 0)
            (example_inst "cistron") "users" (some []) (fun _ => []) false).2.1 = some D ∧
          rewrite_entry (example_env file_user_default_user [] false 0)
            (decide ((example_inst "cistron").compat_mode = "cistron")) d ∈ D) ∧
      (∀ a, x.lastdefault = some a →
        ∃ D, (fastuser_getfile (example_env file_user_default_user [] false 0)
            (example_inst "cistron") "users" (some []) (fun _ => []) false).2.1 = some D ∧
          ∃ d ∈ D, d.addr = a) :=
  fastuser_getfile_lastdefault (example_env file_user_default_user [] false 0)
    (example_inst "cistron") "users" []
    [⟨1, "bob", [check_item 1], [reply_item 1, fall_through_yes], 1, none⟩,
     ⟨2, "DEFAULT", [check_item 1], [reply_item 2], 3, none⟩] []
    ⟨3, "bob", [check_item 1], [reply_item 3], 5, none⟩
    (by decide) (by decide) (by decide)

/-! ## Several user entries at one default -/

theorem anchor_after_mem_addr (ld : Option Nat) (p : List PAIR_LIST) (a : Nat)
    (h : anchor_after ld p = some a) : ld = some a ∨ a ∈ p.map PAIR_LIST.addr := by
  rcases anchor_after_cases ld p with ⟨h1, _⟩ | ⟨p1, d, p2, hp, _, _, ha⟩
  · left; rw [← h1]; exact h
  · right
    rw [ha] at h
    rw [← Option.some.inj h, hp]
    exact List.mem_map_of_mem _ (List.mem_append_right _ (List.mem_cons_self _ _))

/-- C17, amended. In a loaded file with distinct nodes, two named entries
`u1` and `u2`, `u2` after `u1`, carry the same `lastdefault` exactly when
no `DEFAULT` lies between them in the file. When the entry the scan
advances to carries the anchor of the entry just merged, the inner loop at
that default merges it as well: with `u1` falling through and `u2` not,
the function returns having merged the two, one after the other. -/
theorem same_anchor_iff_no_default_between (env : Env) (inst : fastuser_instance)
    (filename : String) (default_list p mid post : List PAIR_LIST) (u1 u2 : PAIR_LIST)
    (hread : env.pairlist_read filename = some (p ++ u1 :: (mid ++ u2 :: post)))
    (hnd : ((p ++ u1 :: (mid ++ u2 :: post)).map PAIR_LIST.addr).Nodup)
    (hn1 : u1.name ≠ "DEFAULT") (hn2 : u2.name ≠ "DEFAULT") :
    (∀ (i j : Int) (x1 x2 : PAIR_LIST),
      x1 ∈ (fastuser_getfile env inst filename (some default_list) (fun _ => []) false).2.2 i →
      x2 ∈ (fastuser_getfile env inst filename (some default_list) (fun _ => []) false).2.2 j →
      x1.addr = u1.addr → x2.addr = u2.addr →
      (x2.lastdefault = x1.lastdefault ↔ ∀ m ∈ mid, m.name ≠ "DEFAULT")) ∧
    (∀ (name : String) (d x1 x2 : PAIR_LIST) (D next rest : List PAIR_LIST) (df : Bool)
      (st : auth_state),
      st.user = x1 :: next → some d.addr = x1.lastdefault →
      x2.lastdefault = x1.lastdefault →
      fallthrough env x1.reply ≠ 0 → fallthrough env x2.reply = 0 →
      fastuser_find env (merge_pairs env st.request x1) next name = x2 :: rest →
      resume_walk env name true d D df st =
        return_updated env (merge_pairs env (merge_pairs env st.request x1) x2)
          (st.merged ++ [x1] ++ [x2])) := by
  constructor
  · intro i j x1 x2 hx1 hx2 ha1 ha2
    rw [fastuser_getfile_loaded env inst filename default_list _ hread] at hx1 hx2
    have h1 := loaded_node_unique env _ none p (mid ++ u2 :: post) u1 x1 hnd hn1
      (List.mem_filter.1 hx1).1 ha1
    have hnd2 : (((p ++ u1 :: mid) ++ u2 :: post).map PAIR_LIST.addr).Nodup := by
      rw [List.append_assoc, List.cons_append]; exact hnd
    have hx2' : x2 ∈ loaded_entries env (decide (inst.compat_mode = "cistron")) none
        ((p ++ u1 :: mid) ++ u2 :: post) := by
      rw [List.append_assoc, List.cons_append]; exact (List.mem_filter.1 hx2).1
    have h2 := loaded_node_unique env _ none (p ++ u1 :: mid) post u2 x2 hnd2 hn2 hx2' ha2
    have hl1 : x1.lastdefault = anchor_after none p := by rw [h1]; rfl
    have hl2 : x2.lastdefault = anchor_after (anchor_after none p) mid := by
      rw [h2, set_lastdefault_lastdefault, anchor_after_append]
      simp only [anchor_after, hn1, if_false]
    rw [hl1, hl2]
    constructor
    · intro heq m hm hmd
      rcases anchor_after_cases (anchor_after none p) mid with ⟨_, hno⟩ |
        ⟨q1, d, q2, hq, hd, _, ha⟩
      · exact hno m hm hmd
      · rw [ha] at heq
        have hdmid : d.addr ∈ mid.map PAIR_LIST.addr := by
          rw [hq]
          exact List.mem_map_of_mem _ (List.mem_append_right _ (List.mem_cons_self _ _))
        rcases anchor_after_mem_addr none p d.addr heq.symm with h | h
        · cases h
        · rw [List.map_append, List.map_cons, List.map_append] at hnd
          exact (List.nodup_append.1 hnd).2.2 h
            (List.mem_cons_of_mem _ (List.mem_append_left _ hdmid))
    · intro hno
      exact anchor_after_no_default _ mid hno
  · intro name d x1 x2 D next rest df st hu hanc hsame hft1 hft2 hfind
    rw [resume_walk_step env name true d D df st x1 next hu ⟨rfl, hanc⟩ hft1,
      resume_walk_return env name true d D df _ x2 rest hfind
        ⟨rfl, by rw [hsame]; exact hanc⟩ hft2]

/-- C17, amended, witness: the file with a `DEFAULT` followed by two entries
of `bob`. -/
theorem same_anchor_iff_no_default_between_witness :
    (∀ (i j : Int) (x1 x2 : PAIR_LIST),
      x1 ∈ (fastuser_getfile (example_env file_default_two_users [] false 0)
        (example_inst "cistron") "users" (some []) (fun _ => []) false).2.2 i →
      x2 ∈ (fastuser_getfile (example_env file_default_two_users [] false 0)
        (example_inst "cistron") "users" (some []) (fun _ => []) false).2.2 j →
      x1.addr = PAIR_LIST.addr
        ⟨2, "bob", [check_item 1], [reply_item 2, fall_through_yes], 3, none⟩ →
      x2.addr = PAIR_LIST.addr ⟨3, "bob", [check_item 1], [reply_item 3], 5, none⟩ →
      (x2.lastdefault = x1.lastdefault ↔ ∀ m ∈ ([] : List PAIR_LIST), m.name ≠ "DEFAULT")) ∧
    (∀ (name : String) (d x1 x2 : PAIR_LIST) (D next rest : List PAIR_LIST) (df : Bool)
      (st : auth_state),
      st.user = x1 :: next → some d.addr = x1.lastdefault →
      x2.lastdefault = x1.lastdefault →
      fallthrough (example_env file_default_two_users [] false 0) x1.reply ≠ 0 →
      fallthrough (example_env file_default_two_users [] false 0) x2.reply = 0 →
      fastuser_find (example_env file_default_two_users [] false 0)
        (merge_pairs (example_env file_default_two_users [] false 0) st.request x1)
        next name = x2 :: rest →
      resume_walk (example_env file_default_two_users [] false 0) name true d D df st =
        return_updated (example_env file_default_two_users [] false 0)
          (merge_pairs (example_env file_default_two_users [] false 0)
            (merge_pairs (example_env file_default_two_users [] false 0) st.request x1) x2)
          (st.merged ++ [x1] ++ [x2])) :=
  same_anchor_iff_no_default_between (example_env file_default_two_users [] false 0)
    (example_inst "cistron") "users" []
    [⟨1, "DEFAULT", [check_item 1], [reply_item 1, fall_through_yes], 1, none⟩] [] []
    ⟨2, "bob", [check_item 1], [reply_item 2, fall_through_yes], 3, none⟩
    ⟨3, "bob", [check_item 1], [reply_item 3], 5, none⟩
    (by decide) (by decide) (by decide) (by decide)

/-- C17, counterexample. The file is a `DEFAULT` (address 1, fall-through)
followed by two entries of `bob` (addresses 2 and 3, the first with
fall-through); a request of `bob` satisfies all three. Both entries of
`bob` are stored with `lastdefault` at the `DEFAULT`, and the run merges
the `DEFAULT` and then both entries of `bob` in the inner loop at that one
default. -/
theorem two_users_at_one_default :
    ((fastuser_buildhash (example_env file_default_two_users [] false 0)
        (example_inst "cistron")).2.hashtable (fastuser_hash (cbytes "bob") 100000)).map
      (fun e => (e.addr, e.lastdefault)) = [(2, some 1), (3, some 1)] ∧
    (fastuser_buildhash (example_env file_default_two_users [] false 0)
        (example_inst "cistron")).2.defaults.map PAIR_LIST.addr = [1] ∧
    (fastuser_authorize (example_env file_default_two_users [] false 0)
        (fastuser_buildhash (example_env file_default_two_users [] false 0)
          (example_inst "cistron")).2 (example_request "bob")).map
      (fun r => (r.2.rcode, r.2.merged.map PAIR_LIST.addr))
      = some (RLM_MODULE_UPDATED, [1, 2, 3]) := by
  decide

/-! ## A verdict without a merge -/

/-- C18, the code at the failing input. The file is a `DEFAULT` without
fall-through that checks `NAS-Port == 2`, followed by an entry of `bob`
that checks `NAS-Port == 1`; the request of `bob` carries `NAS-Port = 1`,
so the entry of `bob` is accepted and the `DEFAULT` does not match.
`fastuser_authorize` returns `RLM_MODULE_UPDATED` with no entry merged
and the check and reply lists of the request as they came in. -/
theorem authorize_updated_without_merge :
    accepts (example_env file_unmatched_default [] false 0) (example_request "bob") "bob"
      ⟨2, "bob", [check_item 1], [reply_item 2], 3, some 1⟩ ∧
    (fastuser_buildhash (example_env file_unmatched_default [] false 0)
        (example_inst "cistron")).2.hashtable (fastuser_hash (cbytes "bob") 100000) =
      [⟨2, "bob", [check_item 1], [reply_item 2], 3, some 1⟩] ∧
    (fastuser_authorize (example_env file_unmatched_default [] false 0)
        (fastuser_buildhash (example_env file_unmatched_default [] false 0)
          (example_inst "cistron")).2 (example_request "bob")).map
      (fun r => (r.2.rcode, r.2.merged, r.2.request.config_items, r.2.request.reply_vps))
      = some (RLM_MODULE_UPDATED, [], [], []) := by
  decide

/-- C13, amended, witness: the accounting file with a `DEFAULT` and
`alice`, and a request of `alice`. -/
theorem fastuser_preacct_spec_witness :
    (fastuser_preacct (example_env [] file_acct_default_alice false 0)
        (fastuser_buildhash (example_env [] file_acct_default_alice false 0)
          (example_inst "cistron")).2 (example_request "alice")).merged =
      file_acct_default_alice ∧
    (fastuser_preacct (example_env [] file_acct_default_alice false 0)
        (fastuser_buildhash (example_env [] file_acct_default_alice false 0)
          (example_inst "cistron")).2 (example_request "alice")).rcode = RLM_MODULE_OK ∧
    (fastuser_preacct (example_env [] file_acct_default_alice false 0)
        (fastuser_buildhash (example_env [] file_acct_default_alice false 0)
          (example_inst "cistron")).2 (example_request "alice")).request.config_items =
      (example_env [] file_acct_default_alice false 0).pairmove
        ((example_env [] file_acct_default_alice false 0).pairmove
          (example_request "alice").config_items [check_item 1]) [check_item 1] :=
  (fastuser_preacct_spec (example_env [] file_acct_default_alice false 0)
    (fastuser_buildhash (example_env [] file_acct_default_alice false 0)
      (example_inst "cistron")).2 (example_request "alice")
    (fun _ _ _ _ => rfl)).2.2.2.2.2.2.2
    ⟨1, "DEFAULT", [check_item 1], [reply_item 1, fall_through_yes], 1, none⟩
    ⟨2, "alice", [check_item 1], [reply_item 2], 3, none⟩
    (by decide) (by decide) (by decide) (by decide) (by decide) (by decide) (by decide)

/-- C13, counterexample. The comparison reads the reply list it is handed:
no check item compares equal once that list holds a `Framed-Protocol`
item. The accounting list is a `DEFAULT` with fall-through (address 1)
followed by `alice` without (address 2); the check-pairs of both match the
request of `alice`, so the entries to merge are the two. `fastuser_preacct`
hands the local `reply_pairs` to `paircmp`, which holds the reply items of
the `DEFAULT` when `alice` is compared: it merges the `DEFAULT` only. -/
theorem preacct_comparison_reads_reply :
    (∀ e ∈ file_acct_default_alice, (e.name = "alice" ∨ e.name = "DEFAULT") ∧
      (example_env_reply_sensitive file_acct_default_alice).paircmp
        (example_request "alice").packet_vps e.check (example_request "alice").reply_vps
        = 0) ∧
    (through_first_stop (example_env_reply_sensitive file_acct_default_alice)
      (file_acct_default_alice.filter (fun e =>
        decide ((e.name = request_name (example_request "alice") ∨ e.name = "DEFAULT") ∧
          (example_env_reply_sensitive file_acct_default_alice).paircmp
            (example_request "alice").packet_vps e.check
            (example_request "alice").reply_vps = 0)))).map PAIR_LIST.addr = [1, 2] ∧
    (fastuser_buildhash (example_env_reply_sensitive file_acct_default_alice)
      (example_inst "cistron")).2.acctusers = file_acct_default_alice ∧
    (fastuser_preacct (example_env_reply_sensitive file_acct_default_alice)
        (fastuser_buildhash (example_env_reply_sensitive file_acct_default_alice)
          (example_inst "cistron")).2 (example_request "alice")).merged.map PAIR_LIST.addr
      = [1] ∧
    (fastuser_preacct (example_env_reply_sensitive file_acct_default_alice)
        (fastuser_buildhash (example_env_reply_sensitive file_acct_default_alice)
          (example_inst "cistron")).2 (example_request "alice")).request.config_items
      = [check_item 1] ∧
    (fastuser_preacct (example_env_reply_sensitive file_acct_default_alice)
        (fastuser_buildhash (example_env_reply_sensitive file_acct_default_alice)
          (example_inst "cistron")).2 (example_request "alice")).rcode = RLM_MODULE_OK := by
  decide

/-! ## The merged entries in file order -/

theorem fastuser_find_suffix (env : Env) (rq : REQUEST) (name : String)
    (l : List PAIR_LIST) : fastuser_find env rq l name <:+ l := by
  induction l with
  | nil => exact List.suffix_refl _
  | cons cur next ih =>
    by_cases h : accepts env rq name cur
    · rw [fastuser_find_cons_accept env rq name cur next h]
    · rw [fastuser_find_cons_reject env rq name cur next h]
      exact ih.trans (List.suffix_cons _ _)

theorem resume_walk_idle (env : Env) (name : String) (uf : Bool) (d : PAIR_LIST)
    (D : List PAIR_LIST) (df : Bool) (st : auth_state) (h : idle_user uf st.user) :
    resume_walk env name uf d D df st = defaults_walk env name uf D df st := by
  cases hu : st.user with
  | nil => exact resume_walk_no_user env name uf d D df st hu
  | cons u next =>
    apply resume_walk_skip env name uf d D df st u next hu
    rintro ⟨huf, hanc⟩
    rcases h with h | h | ⟨u2, rest2, h, hld⟩
    · rw [h] at huf; cases huf
    · rw [h] at hu; cases hu
    · rw [h] at hu
      cases hu
      rw [hld] at hanc
      cases hanc

theorem defaults_walk_idle (env : Env) (name : String) (uf : Bool) (D : List PAIR_LIST) :
    ∀ (df : Bool) (st : auth_state), idle_user uf st.user →
      ∃ t, (defaults_walk env name uf D df st).merged = st.merged ++ t ∧ t.Sublist D := by
  induction D with
  | nil =>
    intro df st _
    refine ⟨[], ?_, List.Sublist.refl _⟩
    simp [defaults_walk, final_verdict_merged]
  | cons d next ih =>
    intro df st hidle
    rw [defaults_walk_cons]
    by_cases hm : env.paircmp st.request.packet_vps d.check st.request.reply_vps = 0
    · rw [if_pos hm]
      by_cases hft : fallthrough env d.reply = 0
      · rw [if_pos hft, final_verdict_merged]
        exact ⟨[d], rfl, List.Sublist.cons₂ _ (List.nil_sublist _)⟩
      · rw [if_neg hft, resume_walk_idle env name uf d next true
          { st with request := merge_pairs env st.request d, merged := st.merged ++ [d] } hidle]
        obtain ⟨t, ht, hsub⟩ := ih true
          { st with request := merge_pairs env st.request d, merged := st.merged ++ [d] } hidle
        refine ⟨d :: t, ?_, List.Sublist.cons₂ _ hsub⟩
        rw [ht]
        simp
    · rw [if_neg hm]
      by_cases hft : fallthrough env d.reply = 0
      · rw [if_pos hft, final_verdict_merged]
        exact ⟨[], by simp, List.nil_sublist _⟩
      · rw [if_neg hft, resume_walk_idle env name uf d next df st hidle]
        obtain ⟨t, ht, hsub⟩ := ih df st hidle
        exact ⟨t, ht, List.Sublist.cons _ hsub⟩

theorem defaults_of_sublist (S : List PAIR_LIST) : (defaults_of S).Sublist S := by
  unfold defaults_of
  exact List.filter_sublist _

theorem walk_at_default_sublist (env : Env) (name : String) (uf : Bool) (d : PAIR_LIST)
    (S : List PAIR_LIST) (df : Bool) (st : auth_state)
    (hrest : ∀ (df2 : Bool) (st2 : auth_state), st2.user = st.user →
      ∃ t, (resume_walk env name uf d (defaults_of S) df2 st2).merged = st2.merged ++ t ∧
        t.Sublist S) :
    ∃ t, (defaults_walk env name uf (d :: defaults_of S) df st).merged = st.merged ++ t ∧
      t.Sublist (d :: S) := by
  rw [defaults_walk_cons]
  by_cases hm : env.paircmp st.request.packet_vps d.check st.request.reply_vps = 0
  · rw [if_pos hm]
    by_cases hft : fallthrough env d.reply = 0
    · rw [if_pos hft, final_verdict_merged]
      exact ⟨[d], rfl, List.Sublist.cons₂ _ (List.nil_sublist _)⟩
    · rw [if_neg hft]
      obtain ⟨t, ht, hsub⟩ := hrest true
        { st with request := merge_pairs env st.request d, merged := st.merged ++ [d] } rfl
      refine ⟨d :: t, ?_, List.Sublist.cons₂ _ hsub⟩
      rw [ht]
      simp
  · rw [if_neg hm]
    by_cases hft : fallthrough env d.reply = 0
    · rw [if_pos hft, final_verdict_merged]
      exact ⟨[], by simp, List.nil_sublist _⟩
    · rw [if_neg hft]
      obtain ⟨t, ht, hsub⟩ := hrest df st rfl
      exact ⟨t, ht, List.Sublist.cons _ hsub⟩

theorem resume_walk_sublist (env : Env) (c : Bool) (hs : Int) (name : String) (uf : Bool)
    (raw : List PAIR_LIST) :
    ∀ (d : PAIR_LIST) (df : Bool) (st : auth_state),
      d.addr ∉ raw.map PAIR_LIST.addr →
      (raw.map PAIR_LIST.addr).Nodup →
      (idle_user uf st.user ∨
        st.user <:+ chain_of hs name (loaded_entries env c (some d.addr) raw)) →
      ∃ t, (resume_walk env name uf d
          (defaults_of (loaded_entries env c (some d.addr) raw)) df st).merged =
          st.merged ++ t ∧
        t.Sublist (loaded_entries env c (some d.addr) raw) := by
  induction raw with
  | nil =>
    intro d df st _ _ hinv
    have hidle : idle_user uf st.user := by
      rcases hinv with h | h
      · exact h
      · exact Or.inr (Or.inl (List.eq_nil_of_suffix_nil h))
    rw [resume_walk_idle env name uf d _ df st hidle]
    exact defaults_walk_idle env name uf _ df st hidle
  | cons e es ih =>
    intro d df st hdn hnd hinv
    by_cases hidle : idle_user uf st.user
    · rw [resume_walk_idle env name uf d _ df st hidle]
      obtain ⟨t, ht, hsub⟩ := defaults_walk_idle env name uf
        (defaults_of (loaded_entries env c (some d.addr) (e :: es))) df st hidle
      exact ⟨t, ht, hsub.trans (defaults_of_sublist _)⟩
    · have hsuf : st.user <:+ chain_of hs name (loaded_entries env c (some d.addr) (e :: es)) :=
        hinv.resolve_left hidle
      have hufT : uf = true := by
        cases huf : uf with
        | false => exact absurd (Or.inl huf) hidle
        | true => rfl
      have hdn' : d.addr ∉ es.map PAIR_LIST.addr := fun h =>
        hdn (by rw [List.map_cons]; exact List.mem_cons_of_mem _ h)
      have hde : d.addr ≠ e.addr := fun h =>
        hdn (by rw [List.map_cons, h]; exact List.mem_cons_self _ _)
      rw [List.map_cons, List.nodup_cons] at hnd
      by_cases hd : e.name = "DEFAULT"
      · rw [loaded_entries_cons_default env c _ e es hd,
          defaults_of_cons_default _ _ (by simpa using hd)]
        rw [loaded_entries_cons_default env c _ e es hd,
          chain_of_cons_default hs name _ _ (by simpa using hd)] at hsuf
        have hpass : ∀ u next, st.user = u :: next → some d.addr ≠ u.lastdefault := by
          intro u next hu hc
          have hmem : u ∈ chain_of hs name (loaded_entries env c (some e.addr) es) :=
            hsuf.subset (by rw [hu]; exact List.mem_cons_self _ _)
          obtain ⟨hin, hn⟩ := mem_chain_of hs name _ u hmem
          rcases loaded_lastdefault env c _ es u hin hn with h | ⟨y, hy, h⟩
          · rw [h] at hc
            exact hde (Option.some.inj hc)
          · rw [h] at hc
            exact hdn' (by rw [Option.some.inj hc]; exact List.mem_map_of_mem _ hy)
        rw [resume_walk_pass env name uf d _ df st hpass]
        apply walk_at_default_sublist
        intro df2 st2 hst2
        exact ih (rewrite_entry env c e) df2 st2 hnd.1 hnd.2 (Or.inr (by rw [hst2]; exact hsuf))
      · rw [loaded_entries_cons_named env c _ e es hd,
          defaults_of_cons_named _ _ (by simpa using hd)]
        rw [loaded_entries_cons_named env c _ e es hd] at hsuf
        have hcases : st.user = set_lastdefault (rewrite_entry env c e) (some d.addr) ::
              chain_of hs name (loaded_entries env c (some d.addr) es) ∨
            st.user <:+ chain_of hs name (loaded_entries env c (some d.addr) es) := by
          unfold chain_of at hsuf ⊢
          rw [List.filter_cons] at hsuf
          split_ifs at hsuf
          · exact List.suffix_cons_iff.1 hsuf
          · exact Or.inr hsuf
        rcases hcases with hhead | htail
        · by_cases hft : fallthrough env
              (set_lastdefault (rewrite_entry env c e) (some d.addr)).reply = 0
          · rw [resume_walk_return env name uf d _ df st _ _ hhead ⟨hufT, rfl⟩ hft]
            exact ⟨[_], rfl, List.Sublist.cons₂ _ (List.nil_sublist _)⟩
          · rw [resume_walk_step env name uf d _ df st _ _ hhead ⟨hufT, rfl⟩ hft]
            obtain ⟨t, ht, hsub⟩ := ih d df
              { request := merge_pairs env st.request
                  (set_lastdefault (rewrite_entry env c e) (some d.addr))
                user := fastuser_find env (merge_pairs env st.request
                  (set_lastdefault (rewrite_entry env c e) (some d.addr)))
                  (chain_of hs name (loaded_entries env c (some d.addr) es)) name
                merged := st.merged ++
                  [set_lastdefault (rewrite_entry env c e) (some d.addr)] }
              hdn' hnd.2 (Or.inr (fastuser_find_suffix env _ name _))
            refine ⟨_ :: t, ?_, List.Sublist.cons₂ _ hsub⟩
            rw [ht]
            simp
        · obtain ⟨t, ht, hsub⟩ := ih d df st hdn' hnd.2 (Or.inr htail)
          exact ⟨t, ht, List.Sublist.cons _ hsub⟩

theorem defaults_walk_at_default_sublist (env : Env) (c : Bool) (hs : Int) (name : String)
    (uf : Bool) (e : PAIR_LIST) (es : List PAIR_LIST) (ld : Option Nat) (df : Bool)
    (st : auth_state) (hd : e.name = "DEFAULT")
    (hnd : ((e :: es).map PAIR_LIST.addr).Nodup)
    (hinv : idle_user uf st.user ∨
      st.user <:+ chain_of hs name (loaded_entries env c ld (e :: es))) :
    ∃ t, (defaults_walk env name uf (defaults_of (loaded_entries env c ld (e :: es))) df
        st).merged = st.merged ++ t ∧
      t.Sublist (loaded_entries env c ld (e :: es)) := by
  rw [List.map_cons, List.nodup_cons] at hnd
  rw [loaded_entries_cons_default env c _ e es hd,
    chain_of_cons_default hs name _ _ (by simpa using hd)] at hinv
  rw [loaded_entries_cons_default env c _ e es hd,
    defaults_of_cons_default _ _ (by simpa using hd)]
  apply walk_at_default_sublist
  intro df2 st2 hst2
  exact resume_walk_sublist env c hs name uf es (rewrite_entry env c e) df2 st2 hnd.1 hnd.2
    (by rw [hst2]; exact hinv)

theorem defaults_walk_sublist (env : Env) (c : Bool) (hs : Int) (name : String) (uf : Bool)
    (raw : List PAIR_LIST) :
    ∀ (df : Bool) (st : auth_state),
      (raw.map PAIR_LIST.addr).Nodup →
      (idle_user uf st.user ∨ st.user <:+ chain_of hs name (loaded_entries env c none raw)) →
      ∃ t, (defaults_walk env name uf (defaults_of (loaded_entries env c none raw)) df
          st).merged = st.merged ++ t ∧
        t.Sublist (loaded_entries env c none raw) := by
  induction raw with
  | nil =>
    intro df st _ _
    refine ⟨[], ?_, List.Sublist.refl _⟩
    simp [loaded_entries, defaults_of, defaults_walk, final_verdict_merged]
  | cons e es ih =>
    intro df st hnd hinv
    by_cases hd : e.name = "DEFAULT"
    · exact defaults_walk_at_default_sublist env c hs name uf e es none df st hd hnd hinv
    · rw [List.map_cons, List.nodup_cons] at hnd
      rw [loaded_entries_cons_named env c _ e es hd,
        defaults_of_cons_named _ _ (by simpa using hd)]
      rw [loaded_entries_cons_named env c _ e es hd] at hinv
      have hinv2 : idle_user uf st.user ∨
          st.user <:+ chain_of hs name (loaded_entries env c none es) := by
        rcases hinv with h | hsuf
        · exact Or.inl h
        · unfold chain_of at hsuf ⊢
          rw [List.filter_cons] at hsuf
          split_ifs at hsuf
          · rcases List.suffix_cons_iff.1 hsuf with hhead | htail
            · exact Or.inl (Or.inr (Or.inr ⟨_, _, hhead, rfl⟩))
            · exact Or.inr htail
          · exact Or.inr hsuf
      obtain ⟨t, ht, hsub⟩ := ih df st hnd.2 hinv2
      exact ⟨t, ht, List.Sublist.cons _ hsub⟩

theorem authorize_search_sublist (env : Env) (c : Bool) (rq : REQUEST)
    (raw : List PAIR_LIST) :
    ∀ (inst : fastuser_instance),
      inst.hashtable (fastuser_hash (cbytes (request_name rq)) inst.hashsize) =
        chain_of inst.hashsize (request_name rq) (loaded_entries env c none raw) →
      inst.defaults = defaults_of (loaded_entries env c none raw) →
      (raw.map PAIR_LIST.addr).Nodup →
      (authorize_search env inst rq).merged.Sublist (loaded_entries env c none raw) := by
  induction raw with
  | nil =>
    intro inst hT hD _
    have hfind : fastuser_find env rq
        (inst.hashtable (fastuser_hash (cbytes (request_name rq)) inst.hashsize))
        (request_name rq) = [] := by
      rw [hT]; rfl
    rw [authorize_search_nil env inst rq hfind, hD]
    simp [loaded_entries, defaults_of, defaults_walk, final_verdict_merged]
  | cons e es ih =>
    intro inst hT hD hnd
    by_cases hd : e.name = "DEFAULT"
    · cases hf : fastuser_find env rq
          (chain_of inst.hashsize (request_name rq) (loaded_entries env c none (e :: es)))
          (request_name rq) with
      | nil =>
        have hfind : fastuser_find env rq
            (inst.hashtable (fastuser_hash (cbytes (request_name rq)) inst.hashsize))
            (request_name rq) = [] := by
          rw [hT]; exact hf
        rw [authorize_search_nil env inst rq hfind, hD]
        obtain ⟨t, ht, hsub⟩ := defaults_walk_at_default_sublist env c inst.hashsize
          (request_name rq) false e es none false
          { request := rq, user := [], merged := [] } hd hnd (Or.inl (Or.inl rfl))
        rw [ht]
        exact hsub
      | cons u rest =>
        have hfind : fastuser_find env rq
            (inst.hashtable (fastuser_hash (cbytes (request_name rq)) inst.hashsize))
            (request_name rq) = u :: rest := by
          rw [hT]; exact hf
        by_cases hld : u.lastdefault = none
        · have hmem := (fastuser_find_head_accepts env rq (request_name rq) _ u rest hf).2
          obtain ⟨hin, hn⟩ := mem_chain_of _ _ _ u hmem
          rw [loaded_entries_cons_default env c _ e es hd] at hin
          rcases List.mem_cons.1 hin with rfl | hin'
          · exact absurd (by simpa using hd) hn
          · rcases loaded_lastdefault env c _ es u hin' hn with h | ⟨y, _, h⟩
            · rw [h] at hld; cases hld
            · rw [h] at hld; cases hld
        · rw [authorize_search_anchored env inst rq u rest hfind hld, hD]
          obtain ⟨t, ht, hsub⟩ := defaults_walk_at_default_sublist env c inst.hashsize
            (request_name rq) true e es none false
            { request := rq, user := u :: rest, merged := [] } hd hnd
            (Or.inr (by
              show u :: rest <:+ _
              rw [← hf]
              exact fastuser_find_suffix env rq _ _))
          rw [ht]
          exact hsub
    · have hnd' := hnd
      rw [List.map_cons, List.nodup_cons] at hnd'
      by_cases hacc : accepts env rq (request_name rq) (rewrite_entry env c e)
      · have hf := find_chain_cons_accept env rq inst.hashsize (request_name rq)
          (set_lastdefault (rewrite_entry env c e) none)
          (loaded_entries env c none es) (by simpa using hd) hacc
        have hfind : fastuser_find env rq
            (inst.hashtable (fastuser_hash (cbytes (request_name rq)) inst.hashsize))
            (request_name rq) = set_lastdefault (rewrite_entry env c e) none ::
              chain_of inst.hashsize (request_name rq) (loaded_entries env c none es) := by
          rw [hT, loaded_entries_cons_named env c _ e es hd]; exact hf
        rw [authorize_search_first env inst rq _ _ hfind rfl,
          loaded_entries_cons_named env c _ e es hd]
        by_cases hft : fallthrough env (set_lastdefault (rewrite_entry env c e) none).reply = 0
        · rw [if_pos hft]
          exact List.Sublist.cons₂ _ (List.nil_sublist _)
        · rw [if_neg hft, hD, loaded_entries_cons_named env c _ e es hd,
            defaults_of_cons_named _ _ (by simpa using hd)]
          obtain ⟨t, ht, hsub⟩ := defaults_walk_sublist env c inst.hashsize (request_name rq)
            true es false
            { request := merge_pairs env rq (set_lastdefault (rewrite_entry env c e) none)
              user := fastuser_find env
                (merge_pairs env rq (set_lastdefault (rewrite_entry env c e) none))
                (chain_of inst.hashsize (request_name rq) (loaded_entries env c none es))
                (request_name rq)
              merged := [set_lastdefault (rewrite_entry env c e) none] }
            hnd'.2 (Or.inr (fastuser_find_suffix env _ _ _))
          rw [ht]
          exact List.Sublist.cons₂ _ hsub
      · have hf := find_chain_cons_reject env rq inst.hashsize (request_name rq)
          (set_lastdefault (rewrite_entry env c e) none)
          (loaded_entries env c none es) hacc
        have hcongr := authorize_search_congr env inst
          { inst with
            hashtable := fun _ =>
              chain_of inst.hashsize (request_name rq) (loaded_entries env c none es)
            defaults := defaults_of (loaded_entries env c none es) } rq
          (by
            rw [hT, loaded_entries_cons_named env c _ e es hd]
            exact hf)
          (by
            rw [hD, loaded_entries_cons_named env c _ e es hd,
              defaults_of_cons_named _ _ (by simpa using hd)])
        rw [hcongr, loaded_entries_cons_named env c _ e es hd]
        exact List.Sublist.cons _ (ih _ rfl rfl hnd'.2)

/-- C19. For a users file loaded by `fastuser_buildhash` whose nodes have
distinct addresses, and for every request, `fastuser_authorize` on the loaded
instance returns, with or without a reload on the way, and the entries it
merged, in the order of the merges, form a sublist of the loaded entries in
file order. Their addresses form a sublist of the addresses of the file, so
no entry comes before one that precedes it in the file, and no address occurs
twice among them. -/
theorem fastuser_authorize_merged_in_file_order (env : Env) (inst : fastuser_instance)
    (rq : REQUEST) (users : List PAIR_LIST)
    (hread : env.pairlist_read inst.usersfile = some users)
    (hok : (fastuser_buildhash env inst).1 = 0)
    (hnd : (users.map PAIR_LIST.addr).Nodup) :
    ∃ inst2 res, fastuser_authorize env (fastuser_buildhash env inst).2 rq = some (inst2, res) ∧
      res.merged.Sublist
        (loaded_entries env (decide (inst.compat_mode = "cistron")) none users) ∧
      (res.merged.map PAIR_LIST.addr).Sublist (users.map PAIR_LIST.addr) ∧
      (res.merged.map PAIR_LIST.addr).Nodup := by
  have hkey : ∀ i : fastuser_instance, i.usersfile = inst.usersfile →
      i.compat_mode = inst.compat_mode → (fastuser_buildhash env i).1 = 0 →
      (authorize_search env (fastuser_buildhash env i).2 rq).merged.Sublist
        (loaded_entries env (decide (inst.compat_mode = "cistron")) none users) := by
    intro i hu hc hoki
    obtain ⟨hT, hD, hhs, _, _⟩ := fastuser_buildhash_loaded env i users (by rw [hu]; exact hread)
      hoki
    rw [hc] at hT hD
    exact authorize_search_sublist env (decide (inst.compat_mode = "cistron")) rq users
      (fastuser_buildhash env i).2 (by rw [hT, hhs]; rfl) (by rw [hD]; rfl) hnd
  have hfin : ∀ m : List PAIR_LIST,
      m.Sublist (loaded_entries env (decide (inst.compat_mode = "cistron")) none users) →
      m.Sublist (loaded_entries env (decide (inst.compat_mode = "cistron")) none users) ∧
      (m.map PAIR_LIST.addr).Sublist (users.map PAIR_LIST.addr) ∧
      (m.map PAIR_LIST.addr).Nodup := by
    intro m hm
    have h2 : (m.map PAIR_LIST.addr).Sublist (users.map PAIR_LIST.addr) := by
      rw [← loaded_entries_addr env (decide (inst.compat_mode = "cistron")) none users]
      exact hm.map _
    exact ⟨hm, h2, h2.nodup hnd⟩
  obtain ⟨hfu, hfa, hfc⟩ := fastuser_buildhash_files env inst
  by_cases hrel : (fastuser_buildhash env inst).2.hash_reload ≠ 0 ∧
      rq.timestamp > (fastuser_buildhash env inst).2.next_reload
  · have hok2 : (fastuser_buildhash env
        { (fastuser_buildhash env inst).2 with
          next_reload := rq.timestamp + (fastuser_buildhash env inst).2.hash_reload }).1 = 0 := by
      rw [fastuser_buildhash_rcode] at hok ⊢
      dsimp only
      rw [hfu, hfa]
      exact hok
    have hrun : fastuser_authorize env (fastuser_buildhash env inst).2 rq =
        some ((fastuser_buildhash env
            { (fastuser_buildhash env inst).2 with
              next_reload := rq.timestamp + (fastuser_buildhash env inst).2.hash_reload }).2,
          authorize_search env (fastuser_buildhash env
            { (fastuser_buildhash env inst).2 with
              next_reload := rq.timestamp + (fastuser_buildhash env inst).2.hash_reload }).2
            rq) := by
      unfold fastuser_authorize
      rw [if_pos hrel]
      dsimp only
      rw [if_neg (by rw [hok2]; decide)]
    exact ⟨_, _, hrun, hfin _ (hkey { (fastuser_buildhash env inst).2 with
        next_reload := rq.timestamp + (fastuser_buildhash env inst).2.hash_reload }
      hfu hfc hok2)⟩
  · exact ⟨_, _, fastuser_authorize_no_reload env _ rq hrel, hfin _ (hkey inst rfl rfl hok)⟩

/-- C19, witness: the file with a `DEFAULT` and two entries of `bob` behind
it, and a request of `bob`. -/
theorem fastuser_authorize_merged_in_file_order_witness :
    ∃ inst2 res, fastuser_authorize (example_env file_default_two_users [] false 0)
        (fastuser_buildhash (example_env file_default_two_users [] false 0)
          (example_inst "cistron")).2 (example_request "bob") = some (inst2, res) ∧
      res.merged.Sublist
        (loaded_entries (example_env file_default_two_users [] false 0)
          (decide ((example_inst "cistron").compat_mode = "cistron")) none
          file_default_two_users) ∧
      (res.merged.map PAIR_LIST.addr).Sublist (file_default_two_users.map PAIR_LIST.addr) ∧
      (res.merged.map PAIR_LIST.addr).Nodup :=
  fastuser_authorize_merged_in_file_order (example_env file_default_two_users [] false 0)
    (example_inst "cistron") (example_request "bob") file_default_two_users
    (by decide) (by decide) (by decide)

/-! ## What `fastuser_preacct` writes -/

/-- C21. For every instance and request, `fastuser_preacct` hands the request
back with `request->reply->vps`, the packet pairs, the user name and the
timestamp as they came in; the reply list of the request is not read either,
so a run on the same request with another reply list gives the same code, the
same merged entries and the same check items. The reply items of the merged
entries go, one `pairmove` after the other, into the local `reply_pairs`,
which is not part of what is handed back. The check items handed back are the
incoming ones with the check items of the merged entries moved in, in the
order of the merges; when no entry was merged the request is unchanged and
the code is `RLM_MODULE_NOOP`, and when the handed-back request differs from
the incoming one the code is `RLM_MODULE_OK`, an entry was merged, and the
accounting list holds an entry for the name or `DEFAULT` whose check items
compare equal against the request with the local reply list still empty. -/
theorem fastuser_preacct_frame (env : Env) (inst : fastuser_instance) (rq : REQUEST) :
    (fastuser_preacct env inst rq).request.reply_vps = rq.reply_vps ∧
    (fastuser_preacct env inst rq).request =
      { rq with config_items := (fastuser_preacct env inst rq).request.config_items } ∧
    (∀ r : List VALUE_PAIR,
      (fastuser_preacct env inst { rq with reply_vps := r }).rcode =
        (fastuser_preacct env inst rq).rcode ∧
      (fastuser_preacct env inst { rq with reply_vps := r }).merged =
        (fastuser_preacct env inst rq).merged ∧
      (fastuser_preacct env inst { rq with reply_vps := r }).request =
        { (fastuser_preacct env inst rq).request with reply_vps := r }) ∧
    (preacct_loop env (request_name rq) rq.packet_vps inst.acctusers
        { found := false, config_items := rq.config_items, reply_pairs := [],
          merged := [] }).reply_pairs =
      (fastuser_preacct env inst rq).merged.foldl (fun r e => env.pairmove r e.reply) [] ∧
    (fastuser_preacct env inst rq).request.config_items =
      (fastuser_preacct env inst rq).merged.foldl (fun c e => env.pairmove c e.check)
        rq.config_items ∧
    ((fastuser_preacct env inst rq).merged = [] →
      (fastuser_preacct env inst rq).request = rq ∧
      (fastuser_preacct env inst rq).rcode = RLM_MODULE_NOOP) ∧
    ((fastuser_preacct env inst rq).request ≠ rq →
      (fastuser_preacct env inst rq).rcode = RLM_MODULE_OK ∧
      (fastuser_preacct env inst rq).merged ≠ [] ∧
      ∃ pl ∈ inst.acctusers, (request_name rq = pl.name ∨ pl.name = "DEFAULT") ∧
        env.paircmp rq.packet_vps pl.check [] = 0) := by
  obtain ⟨t, h1, h2, h3, h4, h5⟩ := preacct_loop_frame env (request_name rq) rq.packet_vps
    inst.acctusers
    { found := false, config_items := rq.config_items, reply_pairs := [], merged := [] }
  simp only [List.nil_append] at h1 h2 h3 h5
  have hreq : (fastuser_preacct env inst rq).request =
      { rq with config_items := (preacct_loop env (request_name rq) rq.packet_vps
          inst.acctusers ⟨false, rq.config_items, [], []⟩).config_items } := by
    unfold fastuser_preacct
    dsimp only
    split_ifs <;> rfl
  have hmerged : (fastuser_preacct env inst rq).merged = t := by
    rw [← h1]
    unfold fastuser_preacct
    dsimp only
    split_ifs <;> rfl
  have hrcode : (fastuser_preacct env inst rq).rcode =
      if (preacct_loop env (request_name rq) rq.packet_vps inst.acctusers
          { found := false, config_items := rq.config_items, reply_pairs := [],
            merged := [] }).found = true then RLM_MODULE_OK else RLM_MODULE_NOOP := by
    unfold fastuser_preacct
    dsimp only
    split_ifs <;> simp_all
  have hnil : t = [] → (fastuser_preacct env inst rq).request = rq ∧
      (fastuser_preacct env inst rq).rcode = RLM_MODULE_NOOP := by
    intro ht
    rw [hreq, hrcode, h4 ht]
    exact ⟨rfl, rfl⟩
  refine ⟨by rw [hreq], by rw [hreq], ?_, by rw [hmerged]; exact h3,
    by rw [hmerged, hreq]; exact h2, by rw [hmerged]; exact hnil, ?_⟩
  · intro r
    unfold fastuser_preacct
    dsimp only [request_name]
    split_ifs <;> exact ⟨rfl, rfl, rfl⟩
  · intro hne
    have ht : t ≠ [] := fun ht => hne (hnil ht).1
    obtain ⟨hf, pl, hpl, hq, hm⟩ := h5 ht
    refine ⟨by rw [hrcode, if_pos hf], by rw [hmerged]; exact ht, pl, hpl, hq, hm⟩

end Fastusers
